import Mathlib

/-!
# Arduino_RPClite: decoder, function wrapper, dispatcher and decoder manager

A shallow embedding of `decoder.h`, `wrapper.h`, `dispatcher.h`, `error.h`,
`decoder_manager.h` and `notify` of `client.h` of the Arduino_RPClite sketch
library, followed by theorems about it. A call that does not return has the
value `none`.

Bytes are natural numbers, the receive buffer `_raw_buffer[BufferSize]` is a
list whose length is `BufferSize`, `size_t` counters are natural numbers and
`int` values are integers. Function-local statics (`sz` of `unpackArray` and
`unpackMap`, `wrapper` of `bind`) are state that is passed along, and what is
written to the transport and which bound functions run is recorded in traces.
-/

namespace RPClite

/-! ## Constants of `decoder.h` and `error.h` -/

def NO_MSG : Int := -1
def CALL_MSG : Int := 0
def RESP_MSG : Int := 1
def NOTIFY_MSG : Int := 2

def REQUEST_SIZE : Nat := 4
def RESPONSE_SIZE : Nat := 4
def NOTIFY_SIZE : Nat := 3

def MAX_BUFFER_SIZE : Nat := 1024
def CHUNK_SIZE : Nat := 32

def NO_ERR : Int := 0x00
def MALFORMED_CALL_ERR : Int := 0xFD
def FUNCTION_NOT_FOUND_ERR : Int := 0xFE
def GENERIC_ERR : Int := 0xFF

/-- The struct `RpcError` of `error.h`: a code and a traceback string (its bytes). -/
structure RpcError where
  code : Int
  traceback : List Nat
deriving DecidableEq, Repr

/-- The default constructor `RpcError()`. -/
def RpcError.default : RpcError := { code := NO_ERR, traceback := [] }

/-! ## The decoder state -/

/-- The data members of `RpcDecoder<BufferSize>` (the transport reference apart), with the
function-local statics `sz` of `unpackArray` and `unpackMap`, which outlive a call.
`BufferSize` is `raw_buffer.length`. -/
structure RpcDecoder where
  raw_buffer : List Nat
  bytes_stored : Nat
  packet_type : Int
  msg_id : Int
  arr_sz : Nat
  map_sz : Nat
deriving DecidableEq, Repr

/-- A freshly constructed decoder over a zeroed buffer of `BufferSize` bytes. -/
def RpcDecoder.init (BufferSize : Nat) : RpcDecoder :=
  { raw_buffer := List.replicate BufferSize 0, bytes_stored := 0, packet_type := NO_MSG,
    msg_id := 0, arr_sz := 0, map_sz := 0 }

/-- The template parameter `BufferSize`. -/
def RpcDecoder.BufferSize (d : RpcDecoder) : Nat := d.raw_buffer.length

def RpcDecoder.packet_incoming (d : RpcDecoder) : Bool := decide (d.packet_type ≥ CALL_MSG)

def RpcDecoder.buffer_full (d : RpcDecoder) : Bool := decide (d.bytes_stored = d.BufferSize)

def RpcDecoder.buffer_empty (d : RpcDecoder) : Bool := decide (d.bytes_stored = 0)

/-- The shifting loop of `pop_packet`:
`for (i = 0; i < remaining_bytes; i++) _raw_buffer[i] = _raw_buffer[size + i];`. -/
def shift_down (buf : List Nat) (size remaining_bytes : Nat) : List Nat :=
  (List.range remaining_bytes).foldl (fun b i => b.set i (b.getD (size + i) 0)) buf

/-- The method `RpcDecoder::pop_packet(size)`: the returned count and the decoder afterwards. -/
def RpcDecoder.pop_packet (d : RpcDecoder) (size : Nat) : Nat × RpcDecoder :=
  if size > d.bytes_stored then (0, d)
  else
    let remaining_bytes := d.bytes_stored - size
    (size, { d with raw_buffer := shift_down d.raw_buffer size remaining_bytes,
                    bytes_stored := remaining_bytes,
                    packet_type := NO_MSG })

/-! ## The codec interface -/

/-- The element kinds told apart by the type probes `isNil()`, `isBool()`, ... of the unpacker. -/
inductive Kind
  | nil | bool | uint | int | float32 | float64 | str | bin | array | map | fixext | ext | timestamp
deriving DecidableEq, Repr

/-- The C++ types that the sources serialize and deserialize. -/
inductive Ty
  | nil | bool | int | float | double | str | bin | ext | timespec | arr_size | map_size | error
deriving DecidableEq, Repr

/-- A value of one of the types `Ty`; `raw` carries the uninterpreted payload of a float, binary,
extension or timestamp element. -/
inductive Val
  | nil
  | bool (b : Bool)
  | int (i : Int)
  | str (s : List Nat)
  | arr_size (n : Nat)
  | map_size (n : Nat)
  | error (e : RpcError)
  | raw (bytes : List Nat)
deriving DecidableEq, Repr

/-- A default-constructed object of each type. -/
def Ty.init : Ty → Val
  | .nil => .nil
  | .bool => .bool false
  | .int => .int 0
  | .str => .str []
  | .arr_size => .arr_size 0
  | .map_size => .map_size 0
  | .error => .error RpcError.default
  | _ => .raw []

/-- Modelled from the spec: the MsgPack codec (`MsgPack.h`), which is not among the sources and
which the spec treats as "a given codec providing: incremental feed of raw bytes, type-probing
predicates, typed serialize/deserialize". The fields are the calls the sources make on
`MsgPack::Unpacker` and `MsgPack::Packer`:
* `feed data size` is `clear()` followed by `feed(data, size)`: the unpacker and the flag returned;
* `size` is `size()`, the number of elements indexed by the last `feed`;
* `probe u k` is the type probe for kind `k` at the cursor;
* `unpackable u t` is `unpackable(x)` for an `x` of type `t`;
* `deserialize u t` is `deserialize(x)` for an `x` of type `t`: the unpacker afterwards and the
  value read, `none` when the call returns `false` (the destination is then left as it was);
* `pack v` is the bytes `serialize(v)` appends to a packer. -/
structure Codec where
  Unpacker : Type
  feed : List Nat → Nat → Unpacker × Bool
  size : Unpacker → Nat
  probe : Unpacker → Kind → Bool
  unpackable : Unpacker → Ty → Bool
  deserialize : Unpacker → Ty → Unpacker × Option Val
  pack : Val → List Nat

/-- The variadic `deserialize(x1, x2, ...)`: one value after the other, stopping at the first
that fails. -/
def Codec.deserialize_seq (C : Codec) : C.Unpacker → List Ty → C.Unpacker × Option (List Val)
  | u, [] => (u, some [])
  | u, t :: ts =>
    match C.deserialize u t with
    | (u1, none) => (u1, none)
    | (u1, some v) =>
      match C.deserialize_seq u1 ts with
      | (u2, none) => (u2, none)
      | (u2, some vs) => (u2, some (v :: vs))

/-- The variadic `serialize(x1, x2, ...)` on a packer holding `packer`. -/
def Codec.serialize (C : Codec) (packer : List Nat) (vs : List Val) : List Nat :=
  packer ++ (vs.map C.pack).flatten

/-- The bytes of a string literal. -/
def ascii (s : String) : List Nat := s.toList.map Char.toNat

/-! ## `wrapper.h` -/

/-- The class `RpcFunctionWrapper<R(Args...)>`: the argument types `Args...`, the return type `R`
(`none` for `void`) and the wrapped `_func`. -/
structure RpcFunctionWrapper where
  args : List Ty
  ret : Option Ty
  func : List Val → Val

/-- What a call of a wrapper leaves behind: the returned flag, the unpacker and the packer
afterwards, and the argument tuples `_func` was invoked with, in order. -/
structure WrapperResult (C : Codec) where
  ok : Bool
  unpacker : C.Unpacker
  packer : List Nat
  invoked : List (List Val)

/-- The function `deserialize_single(unpacker, value)`; the result of `deserialize` is not
looked at. -/
def deserialize_single (C : Codec) (u : C.Unpacker) (t : Ty) (value : Val) :
    Bool × C.Unpacker × Val :=
  if !C.unpackable u t then (false, u, value)
  else
    match C.deserialize u t with
    | (u1, some v) => (true, u1, v)
    | (u1, none) => (true, u1, value)

/-- The function `deserialize_tuple<I>(unpacker, out)` over the types from position `I` on;
`out` holds the elements already read, the elements of the tuple start default-constructed. -/
def deserialize_tuple (C : Codec) : List Ty → C.Unpacker → List Val → Bool × C.Unpacker × List Val
  | [], u, out => (true, u, out)
  | t :: ts, u, out =>
    match deserialize_single C u t t.init with
    | (false, u1, _) => (false, u1, out)
    | (true, u1, v) => deserialize_tuple C ts u1 (out ++ [v])

def deserialize_all (C : Codec) (ts : List Ty) (u : C.Unpacker) : Bool × C.Unpacker × List Val :=
  deserialize_tuple C ts u []

/-- The method `handle_call(unpacker, packer)`, for `void` and non-`void` return types. -/
def RpcFunctionWrapper.handle_call (C : Codec) (w : RpcFunctionWrapper) (u : C.Unpacker)
    (packer : List Nat) : WrapperResult C :=
  match deserialize_all C w.args u with
  | (false, u1, _) => { ok := false, unpacker := u1, packer := packer, invoked := [] }
  | (true, u1, args) =>
    match w.ret with
    | none =>
      { ok := true, unpacker := u1, packer := C.serialize packer [Val.nil, Val.nil],
        invoked := [args] }
    | some _ =>
      let out := w.func args
      { ok := true, unpacker := u1, packer := C.serialize packer [Val.nil, out],
        invoked := [args] }

/-- The call operator `operator()(unpacker, packer)` (without `HANDLE_RPC_ERRORS`, which
`Arduino_RPClite.h` leaves undefined). -/
def RpcFunctionWrapper.call (C : Codec) (w : RpcFunctionWrapper) (u : C.Unpacker)
    (packer : List Nat) : WrapperResult C :=
  if !C.probe u Kind.array then
    let error : RpcError := ⟨MALFORMED_CALL_ERR, ascii "Unserializable parameters array"⟩
    { ok := false, unpacker := u, packer := C.serialize packer [Val.error error, Val.nil],
      invoked := [] }
  else
    let r := C.deserialize u Ty.arr_size
    let param_size : Nat := match r.2 with
      | some (Val.arr_size n) => n
      | _ => 0
    if param_size < w.args.length then
      let error : RpcError := ⟨MALFORMED_CALL_ERR, ascii
        "Missing call parameters (WARNING: Default param resolution is not implemented)"⟩
      { ok := false, unpacker := r.1, packer := C.serialize packer [Val.error error, Val.nil],
        invoked := [] }
    else if param_size > w.args.length then
      let error : RpcError := ⟨MALFORMED_CALL_ERR, ascii "Too many parameters"⟩
      { ok := false, unpacker := r.1, packer := C.serialize packer [Val.error error, Val.nil],
        invoked := [] }
    else w.handle_call C r.1 packer

/-! ## `dispatcher.h` -/

structure DispatchEntry where
  name : List Nat
  fn : RpcFunctionWrapper

/-- The class `RpcFunctionDispatcher<N>`: `entries` are `_entries[0 .. _count)`. -/
structure RpcFunctionDispatcher where
  N : Nat
  entries : List DispatchEntry

def RpcFunctionDispatcher.count (disp : RpcFunctionDispatcher) : Nat := disp.entries.length

/-- What a dispatch leaves behind: as for a wrapper, each invocation tagged with the index of
the entry whose function ran. -/
structure DispatchResult (C : Codec) where
  ok : Bool
  unpacker : C.Unpacker
  packer : List Nat
  invoked : List (Nat × List Val)

/-- The search loop of `RpcFunctionDispatcher::call` from entry `i` on, with the not-found
tail. -/
def call_from (C : Codec) (name : List Nat) (u : C.Unpacker) (packer : List Nat) :
    List DispatchEntry → Nat → DispatchResult C
  | [], _ =>
    { ok := false, unpacker := u,
      packer := C.serialize packer [Val.error ⟨FUNCTION_NOT_FOUND_ERR, name⟩, Val.nil],
      invoked := [] }
  | e :: es, i =>
    if e.name = name then
      let r := e.fn.call C u packer
      { ok := r.ok, unpacker := r.unpacker, packer := r.packer,
        invoked := r.invoked.map (fun a => (i, a)) }
    else call_from C name u packer es (i + 1)

/-- The method `RpcFunctionDispatcher::call(name, unpacker, packer)`. -/
def RpcFunctionDispatcher.call (C : Codec) (disp : RpcFunctionDispatcher) (name : List Nat)
    (u : C.Unpacker) (packer : List Nat) : DispatchResult C :=
  call_from C name u packer disp.entries 0

/-! ## `decoder.h` -/

/-- What `get_response` hands back when it returns `true`: the value written to `result`
(`error` is then not written), or the error written to `error`. -/
inductive Reply
  | result (v : Val)
  | error (e : RpcError)
deriving DecidableEq, Repr

/-- The body of the loop of `get_response` at `bytes_checked` (already incremented): `some` when
control reaches `pop_packet`, `none` on every `continue`. `RType` is the type of `result`. -/
def get_response_try (C : Codec) (d : RpcDecoder) (msg_id : Int) (RType : Ty)
    (bytes_checked : Nat) : Option Reply :=
  let f := C.feed d.raw_buffer bytes_checked
  if !f.2 then none
  else
    match C.deserialize_seq f.1 [Ty.arr_size, Ty.int, Ty.int] with
    | (u1, some [Val.arr_size resp_size, Val.int resp_type, Val.int resp_id]) =>
      if resp_size ≠ RESPONSE_SIZE then none
      else if resp_type ≠ RESP_MSG then none
      else if resp_id ≠ msg_id then none
      else if C.unpackable u1 Ty.nil then
        match C.deserialize_seq u1 [Ty.nil, RType] with
        | (_, some [_, result]) => some (Reply.result result)
        | _ => none
      else
        match C.deserialize_seq u1 [Ty.error, Ty.nil] with
        | (_, some [Val.error error, _]) => some (Reply.error error)
        | _ => none
    | _ => none

/-- The loop `while (bytes_checked < _bytes_stored)` of `get_response`, with `n` rounds left
(`n = _bytes_stored - bytes_checked`). -/
def get_response_loop (C : Codec) (d : RpcDecoder) (msg_id : Int) (RType : Ty) :
    Nat → Nat → Option Reply × RpcDecoder
  | 0, _ => (none, d)
  | n + 1, bytes_checked =>
    match get_response_try C d msg_id RType (bytes_checked + 1) with
    | some r => (some r, (d.pop_packet (bytes_checked + 1)).2)
    | none => get_response_loop C d msg_id RType n (bytes_checked + 1)

/-- The method `RpcDecoder::get_response(msg_id, result, error)`: `none` when it returns
`false`. -/
def RpcDecoder.get_response (C : Codec) (d : RpcDecoder) (msg_id : Int) (RType : Ty) :
    Option Reply × RpcDecoder :=
  if !d.packet_incoming || d.packet_type ≠ RESP_MSG then (none, d)
  else get_response_loop C d msg_id RType d.bytes_stored 0

/-- The bytes `send_response(msg_id, error, result)` hands to the transport. -/
def send_response_data (C : Codec) (msg_id : Int) (error : RpcError) (result : Val) : List Nat :=
  let packer := C.serialize [] [Val.arr_size RESPONSE_SIZE, Val.int RESP_MSG, Val.int msg_id]
  if error.code = NO_ERR then C.serialize packer [Val.nil, result]
  else C.serialize packer [Val.error error, Val.nil]

/-- The method `RpcDecoder::send_response(msg_id, error, result)` over a transport whose
`write` answers `write data`: the returned flag and the data of the one `write`. -/
def send_response (C : Codec) (write : List Nat → Nat) (msg_id : Int) (error : RpcError)
    (result : Val) : Bool × List (List Nat) :=
  let data := send_response_data C msg_id error result
  (decide (write data = data.length), [data])

/-- The method `RpcDecoder::parse_packet()`. -/
def RpcDecoder.parse_packet (C : Codec) (d : RpcDecoder) : RpcDecoder :=
  if d.packet_incoming || d.buffer_empty then d
  else
    let f := C.feed d.raw_buffer 2
    match C.deserialize_seq f.1 [Ty.arr_size, Ty.int] with
    | (_, some [_, Val.int type]) => { d with packet_type := type }
    | _ => d

/-- The unpacker that `unpackObject`, `unpackArray` and `unpackMap` walk over, together with the
statics `sz` of `unpackArray` and of `unpackMap`. -/
structure Scan (C : Codec) where
  u : C.Unpacker
  arr_sz : Nat
  map_sz : Nat

/-- The call `u.deserialize(x)` for an `x` of type `t` whose value is dropped. -/
def Scan.skip {C : Codec} (s : Scan C) (t : Ty) : Bool × Scan C :=
  let r := C.deserialize s.u t
  (r.2.isSome, { s with u := r.1 })

mutual

/-- The method `unpackObject(unpacker)`, its calls of `unpackArray` and `unpackMap` written
out; the recursion is cut off when `fuel` runs out, answering `none`. -/
def unpackObject (C : Codec) : Nat → Scan C → Option (Bool × Scan C)
  | 0, _ => none
  | fuel + 1, s =>
    if C.probe s.u Kind.nil then some (s.skip Ty.nil)
    else if C.probe s.u Kind.bool then some (s.skip Ty.bool)
    else if C.probe s.u Kind.uint || C.probe s.u Kind.int then some (s.skip Ty.int)
    else if C.probe s.u Kind.float32 then some (s.skip Ty.float)
    else if C.probe s.u Kind.float64 then some (s.skip Ty.double)
    else if C.probe s.u Kind.str then some (s.skip Ty.str)
    else if C.probe s.u Kind.bin then some (s.skip Ty.bin)
    else if C.probe s.u Kind.array then
      let r := C.deserialize s.u Ty.arr_size
      let sz := match r.2 with
        | some (Val.arr_size n) => n
        | _ => s.arr_sz
      unpackArrayLoop C fuel 0 { s with u := r.1, arr_sz := sz }
    else if C.probe s.u Kind.map then
      let r := C.deserialize s.u Ty.map_size
      let sz := match r.2 with
        | some (Val.map_size n) => n
        | _ => s.map_sz
      unpackMapLoop C fuel 0 { s with u := r.1, map_sz := sz }
    else if C.probe s.u Kind.fixext || C.probe s.u Kind.ext then some (s.skip Ty.ext)
    else if C.probe s.u Kind.timestamp then some (s.skip Ty.timespec)
    else some (false, s)

/-- The loop `for (i = 0; i < sz.size(); i++)` of `unpackArray` from `i` on; `sz` is static, so
the bound is read again in every round. -/
def unpackArrayLoop (C : Codec) : Nat → Nat → Scan C → Option (Bool × Scan C)
  | 0, _, _ => none
  | fuel + 1, i, s =>
    if i < s.arr_sz then
      match unpackObject C fuel s with
      | none => none
      | some (true, s1) => unpackArrayLoop C fuel (i + 1) s1
      | some (false, s1) => some (false, s1)
    else some (true, s)

/-- The loop of `unpackMap` from `i` on: a key and a value per round. -/
def unpackMapLoop (C : Codec) : Nat → Nat → Scan C → Option (Bool × Scan C)
  | 0, _, _ => none
  | fuel + 1, i, s =>
    if i < s.map_sz then
      match unpackObject C fuel s with
      | none => none
      | some (false, s1) => some (false, s1)
      | some (true, s1) =>
        match unpackObject C fuel s1 with
        | none => none
        | some (false, s2) => some (false, s2)
        | some (true, s2) => unpackMapLoop C fuel (i + 1) s2
    else some (true, s)

end

/-- The method `unpackArray(unpacker, size)`: reads the array size into the static `sz`, then
loops. -/
def unpackArray (C : Codec) (fuel : Nat) (s : Scan C) : Option (Bool × Scan C) :=
  let r := C.deserialize s.u Ty.arr_size
  let sz := match r.2 with
    | some (Val.arr_size n) => n
    | _ => s.arr_sz
  unpackArrayLoop C fuel 0 { s with u := r.1, arr_sz := sz }

/-- The loop of `get_packet_size` with `n` rounds left: the size found (0 when the loop runs
out) and the statics afterwards; `none` when `fuel` did not suffice for some `unpackArray`. -/
def get_packet_size_loop (C : Codec) (d : RpcDecoder) (fuel : Nat) :
    Nat → Nat → Nat → Nat → Option (Nat × Nat × Nat)
  | 0, _, arr_sz, map_sz => some (0, arr_sz, map_sz)
  | n + 1, bytes_checked, arr_sz, map_sz =>
    let f := C.feed d.raw_buffer (bytes_checked + 1)
    if !f.2 then get_packet_size_loop C d fuel n (bytes_checked + 1) arr_sz map_sz
    else
      match unpackArray C fuel { u := f.1, arr_sz := arr_sz, map_sz := map_sz } with
      | none => none
      | some (true, s) => some (bytes_checked + 1, s.arr_sz, s.map_sz)
      | some (false, s) => get_packet_size_loop C d fuel n (bytes_checked + 1) s.arr_sz s.map_sz

/-- The recursion allowance given to the scans of `get_packet_size`. -/
def scan_fuel (d : RpcDecoder) : Nat := 2 * d.bytes_stored + 3

/-- The method `RpcDecoder::get_packet_size()`: the size and the decoder afterwards (its
statics may have changed). -/
def RpcDecoder.get_packet_size (C : Codec) (d : RpcDecoder) : Option (Nat × RpcDecoder) :=
  match get_packet_size_loop C d (scan_fuel d) d.bytes_stored 0 d.arr_sz d.map_sz with
  | none => none
  | some (size, arr_sz, map_sz) => some (size, { d with arr_sz := arr_sz, map_sz := map_sz })

/-- The method `RpcDecoder::discard_packet()`. -/
def RpcDecoder.discard_packet (C : Codec) (d : RpcDecoder) : Option (Nat × RpcDecoder) :=
  match d.get_packet_size C with
  | none => none
  | some (size, d1) => some (d1.pop_packet size)

/-- What `process_requests` leaves behind: the decoder, the data of each `write` on the transport
and the invocations of bound functions (entry index and argument tuple), both in order. -/
structure Outcome where
  decoder : RpcDecoder
  sent : List (List Nat)
  invoked : List (Nat × List Val)
deriving DecidableEq

/-- How a round of the loop of `process_requests` ends: with `continue` (after the given
invocations) or with `break`. -/
inductive Step
  | next (invoked : List (Nat × List Val))
  | stop (o : Outcome)

/-- The part of the loop body of `process_requests` after "Headers unpacked". -/
def dispatch_reply (C : Codec) (disp : RpcFunctionDispatcher) (d : RpcDecoder)
    (bytes_checked : Nat) (msg_type msg_id : Int) (method : List Nat) (u : C.Unpacker) :
    Option Step :=
  let packer : List Nat :=
    if msg_type = CALL_MSG then
      C.serialize [] [Val.arr_size RESPONSE_SIZE, Val.int RESP_MSG, Val.int msg_id]
    else []
  let headers_size := packer.length
  let r := disp.call C method u packer
  let sent : List (List Nat) := if msg_type = CALL_MSG then [r.packer] else []
  if !r.ok then
    if r.packer.length = headers_size then some (Step.next r.invoked)
    else
      match d.discard_packet C with
      | none => none
      | some (_, d1) => some (Step.stop { decoder := d1, sent := sent, invoked := r.invoked })
  else
    some (Step.stop { decoder := (d.pop_packet bytes_checked).2, sent := sent,
                      invoked := r.invoked })

/-- The body of the loop of `process_requests` at `bytes_checked` (already incremented); `none`
when a scan of `discard_packet` ran out of fuel. In the notification branch `msg_id` is
uninitialised and not used; it is passed as 0. -/
def process_requests_body (C : Codec) (disp : RpcFunctionDispatcher) (d : RpcDecoder)
    (bytes_checked : Nat) : Option Step :=
  let f := C.feed d.raw_buffer bytes_checked
  if !f.2 then some (Step.next [])
  else
    match C.deserialize_seq f.1 [Ty.arr_size, Ty.int] with
    | (u1, some [Val.arr_size req_size, Val.int msg_type]) =>
      if req_size = REQUEST_SIZE ∧ msg_type = CALL_MSG then
        match C.deserialize_seq u1 [Ty.int, Ty.str] with
        | (u2, some [Val.int msg_id, Val.str method]) =>
          if C.size u2 < REQUEST_SIZE + 1 then some (Step.next [])
          else dispatch_reply C disp d bytes_checked msg_type msg_id method u2
        | _ => some (Step.next [])
      else if req_size = NOTIFY_SIZE ∧ msg_type = NOTIFY_MSG then
        match C.deserialize_seq u1 [Ty.str] with
        | (u2, some [Val.str method]) =>
          if C.size u2 < NOTIFY_SIZE + 1 then some (Step.next [])
          else dispatch_reply C disp d bytes_checked msg_type 0 method u2
        | _ => some (Step.next [])
      else if req_size = RESPONSE_SIZE ∧ msg_type = RESP_MSG then
        some (Step.stop { decoder := d, sent := [], invoked := [] })
      else
        match d.discard_packet C with
        | none => none
        | some (_, d1) => some (Step.stop { decoder := d1, sent := [], invoked := [] })
    | _ => some (Step.next [])

/-- The loop `while (bytes_checked < _bytes_stored)` of `process_requests` with `n` rounds left;
`invoked` collects the invocations of the rounds that ended in `continue`. -/
def process_requests_loop (C : Codec) (disp : RpcFunctionDispatcher) (d : RpcDecoder) :
    Nat → Nat → List (Nat × List Val) → Option Outcome
  | 0, _, invoked => some { decoder := d, sent := [], invoked := invoked }
  | n + 1, bytes_checked, invoked =>
    match process_requests_body C disp d (bytes_checked + 1) with
    | none => none
    | some (Step.next inv) => process_requests_loop C disp d n (bytes_checked + 1) (invoked ++ inv)
    | some (Step.stop o) => some { o with invoked := invoked ++ o.invoked }

/-- The method `RpcDecoder::process_requests(dispatcher)`. -/
def RpcDecoder.process_requests (C : Codec) (d : RpcDecoder) (disp : RpcFunctionDispatcher) :
    Option Outcome :=
  if d.packet_type ≠ CALL_MSG ∧ d.packet_type ≠ NOTIFY_MSG then
    some { decoder := d, sent := [], invoked := [] }
  else process_requests_loop C disp d d.bytes_stored 0 []

/-! ## The MessagePack codec

Modelled from the spec: `MsgPack.h` is not among the sources. The definitions below follow the
MessagePack wire format, which the spec's "self-describing format used to serialize arrays,
integers, strings, maps, extension types, nil" names, and the unpacker the sources rely on:
`feed` indexes the elements of a byte range one after the other, nested or not
(`process_requests`: "there must be at least 5 indices"), and succeeds when the range ends
where an element ends; typed reads move a cursor over the indexed elements. -/

/-- The big-endian number in the first `n` bytes of a stream. -/
def rd (n : Nat) (l : List Nat) : Nat := (l.take n).foldl (fun acc b => acc * 256 + b) 0

def be2 (n : Nat) : List Nat := [n / 256 % 256, n % 256]

def be4 (n : Nat) : List Nat := [n / 16777216 % 256, n / 65536 % 256, n / 256 % 256, n % 256]

def be8 (n : Nat) : List Nat :=
  [n / 72057594037927936 % 256, n / 281474976710656 % 256, n / 1099511627776 % 256,
   n / 4294967296 % 256, n / 16777216 % 256, n / 65536 % 256, n / 256 % 256, n % 256]

/-- Modelled from the spec: the size in bytes of the MessagePack element that starts the
stream, header included (`getElementSize` of the unpacker, absent from the sources). -/
def elem_size : List Nat → Nat
  | [] => 1
  | b :: rest =>
    if b ≤ 0x7f then 1
    else if b ≤ 0x8f then 1
    else if b ≤ 0x9f then 1
    else if b ≤ 0xbf then 1 + (b - 0xa0)
    else if b ≤ 0xc3 then 1
    else if b = 0xc4 then 2 + rd 1 rest
    else if b = 0xc5 then 3 + rd 2 rest
    else if b = 0xc6 then 5 + rd 4 rest
    else if b = 0xc7 then 3 + rd 1 rest
    else if b = 0xc8 then 4 + rd 2 rest
    else if b = 0xc9 then 6 + rd 4 rest
    else if b = 0xca then 5
    else if b = 0xcb then 9
    else if b = 0xcc then 2
    else if b = 0xcd then 3
    else if b = 0xce then 5
    else if b = 0xcf then 9
    else if b = 0xd0 then 2
    else if b = 0xd1 then 3
    else if b = 0xd2 then 5
    else if b = 0xd3 then 9
    else if b = 0xd4 then 3
    else if b = 0xd5 then 4
    else if b = 0xd6 then 6
    else if b = 0xd7 then 10
    else if b = 0xd8 then 18
    else if b = 0xd9 then 2 + rd 1 rest
    else if b = 0xda then 3 + rd 2 rest
    else if b = 0xdb then 5 + rd 4 rest
    else if b = 0xdc then 3
    else if b = 0xdd then 5
    else if b = 0xde then 3
    else if b = 0xdf then 5
    else 1

/-- Modelled from the spec: the state of a `MsgPack::Unpacker` (absent from the sources): the
bytes fed, the start of each indexed element, the cursor and whether the last `feed`
succeeded. -/
structure MUnpacker where
  raw_data : List Nat
  indices : List Nat
  curr_index : Nat
  b_decoded : Bool
deriving DecidableEq, Repr

/-- The indexing loop of `feed`, `for (i = 0; i < size; i += size of the element at i)`, from
`i` on with `fuel` rounds allowed: the indices and the final `i`. -/
def feed_loop (raw : List Nat) (size : Nat) : Nat → Nat → List Nat × Nat
  | 0, i => ([], i)
  | fuel + 1, i =>
    if i < size then
      let r := feed_loop raw size fuel (i + elem_size (raw.drop i))
      (i :: r.1, r.2)
    else ([], i)

/-- Modelled from the spec: `clear()` then `feed(data, size)`; it succeeds when the elements
indexed end exactly at `size`. Every element takes a byte at least, so `size` rounds suffice. -/
def mfeed (raw : List Nat) (size : Nat) : MUnpacker × Bool :=
  let r := feed_loop raw size size 0
  ({ raw_data := raw, indices := r.1, curr_index := 0, b_decoded := decide (r.2 = size) },
   decide (r.2 = size))

/-- The stream starting at the `i`-th indexed element, if there is one. -/
def MUnpacker.elem (u : MUnpacker) (i : Nat) : Option (List Nat) :=
  match u.indices.get? i with
  | some pos => some (u.raw_data.drop pos)
  | none => none

/-- The kind test on the first byte (for a timestamp, on the extension type as well). -/
def is_kind : Kind → List Nat → Bool
  | _, [] => false
  | Kind.nil, b :: _ => decide (b = 0xc0)
  | Kind.bool, b :: _ => decide (b = 0xc2 ∨ b = 0xc3)
  | Kind.uint, b :: _ => decide (b ≤ 0x7f ∨ (0xcc ≤ b ∧ b ≤ 0xcf))
  | Kind.int, b :: _ => decide ((0xe0 ≤ b ∧ b ≤ 0xff) ∨ (0xd0 ≤ b ∧ b ≤ 0xd3))
  | Kind.float32, b :: _ => decide (b = 0xca)
  | Kind.float64, b :: _ => decide (b = 0xcb)
  | Kind.str, b :: _ => decide ((0xa0 ≤ b ∧ b ≤ 0xbf) ∨ (0xd9 ≤ b ∧ b ≤ 0xdb))
  | Kind.bin, b :: _ => decide (0xc4 ≤ b ∧ b ≤ 0xc6)
  | Kind.array, b :: _ => decide ((0x90 ≤ b ∧ b ≤ 0x9f) ∨ b = 0xdc ∨ b = 0xdd)
  | Kind.map, b :: _ => decide ((0x80 ≤ b ∧ b ≤ 0x8f) ∨ b = 0xde ∨ b = 0xdf)
  | Kind.fixext, b :: _ => decide (0xd4 ≤ b ∧ b ≤ 0xd8)
  | Kind.ext, b :: _ => decide (0xc7 ≤ b ∧ b ≤ 0xc9)
  | Kind.timestamp, b :: rest =>
    decide (((b = 0xd6 ∨ b = 0xd7) ∧ rest.head? = some 0xff) ∨
            (b = 0xc7 ∧ rest.head? = some 12 ∧ (rest.drop 1).head? = some 0xff))

/-- Modelled from the spec: the type probes at the cursor; past the last element none holds. -/
def mprobe (u : MUnpacker) (k : Kind) : Bool :=
  match u.elem u.curr_index with
  | some l => is_kind k l
  | none => false

/-- The kinds an object of each type is read from, tested on the stream of an element. -/
def unpackable_as : Ty → List Nat → Bool
  | Ty.nil, l => is_kind Kind.nil l
  | Ty.bool, l => is_kind Kind.bool l
  | Ty.int, l => is_kind Kind.int l || is_kind Kind.uint l
  | Ty.float, l => is_kind Kind.float32 l
  | Ty.double, l => is_kind Kind.float64 l
  | Ty.str, l => is_kind Kind.str l
  | Ty.bin, l => is_kind Kind.bin l
  | Ty.ext, l => is_kind Kind.fixext l || is_kind Kind.ext l
  | Ty.timespec, l => is_kind Kind.timestamp l
  | Ty.arr_size, l => is_kind Kind.array l
  | Ty.map_size, l => is_kind Kind.map l
  | Ty.error, l => is_kind Kind.array l

/-- Modelled from the spec: `unpackable(x)` for an `x` of type `t`, a test of the kind of the
element at the cursor; past the last element it fails. -/
def munpackable (u : MUnpacker) (t : Ty) : Bool :=
  match u.elem u.curr_index with
  | some l => unpackable_as t l
  | none => false

/-- The value of a 32-bit `int` holding `n` modulo 2^32. -/
def to_int32 (n : Int) : Int := (n + 2147483648) % 4294967296 - 2147483648

/-- The integer encoded by the element starting the stream, as an `int`. -/
def read_int : List Nat → Option Int
  | [] => none
  | b :: rest =>
    if b ≤ 0x7f then some (b : Int)
    else if 0xe0 ≤ b ∧ b ≤ 0xff then some ((b : Int) - 256)
    else if b = 0xcc then some (rd 1 rest : Nat)
    else if b = 0xcd then some (rd 2 rest : Nat)
    else if b = 0xce then some (to_int32 (rd 4 rest : Nat))
    else if b = 0xcf then some (to_int32 (rd 8 rest : Nat))
    else if b = 0xd0 then
      some (if rd 1 rest < 128 then (rd 1 rest : Int) else (rd 1 rest : Int) - 256)
    else if b = 0xd1 then
      some (if rd 2 rest < 32768 then (rd 2 rest : Int) else (rd 2 rest : Int) - 65536)
    else if b = 0xd2 then some (to_int32 (rd 4 rest : Nat))
    else if b = 0xd3 then some (to_int32 (rd 8 rest : Nat))
    else none

/-- The string carried by the element starting the stream. -/
def read_str : List Nat → Option (List Nat)
  | [] => none
  | b :: rest =>
    if 0xa0 ≤ b ∧ b ≤ 0xbf then some (rest.take (b - 0xa0))
    else if b = 0xd9 then some ((rest.drop 1).take (rd 1 rest))
    else if b = 0xda then some ((rest.drop 2).take (rd 2 rest))
    else if b = 0xdb then some ((rest.drop 4).take (rd 4 rest))
    else none

/-- The element count of the array header starting the stream. -/
def read_arr_size : List Nat → Option Nat
  | [] => none
  | b :: rest =>
    if 0x90 ≤ b ∧ b ≤ 0x9f then some (b - 0x90)
    else if b = 0xdc then some (rd 2 rest)
    else if b = 0xdd then some (rd 4 rest)
    else none

/-- The pair count of the map header starting the stream. -/
def read_map_size : List Nat → Option Nat
  | [] => none
  | b :: rest =>
    if 0x80 ≤ b ∧ b ≤ 0x8f then some (b - 0x80)
    else if b = 0xde then some (rd 2 rest)
    else if b = 0xdf then some (rd 4 rest)
    else none

/-- The value of a type that takes one element, read from the element starting the stream. -/
def read1 (t : Ty) (l : List Nat) : Option Val :=
  match t with
  | Ty.nil => if is_kind Kind.nil l then some Val.nil else none
  | Ty.bool => if is_kind Kind.bool l then some (Val.bool (decide (l.head? = some 0xc3))) else none
  | Ty.int => (read_int l).map Val.int
  | Ty.str => (read_str l).map Val.str
  | Ty.arr_size => (read_arr_size l).map Val.arr_size
  | Ty.map_size => (read_map_size l).map Val.map_size
  | Ty.float => if is_kind Kind.float32 l then some (Val.raw (l.take (elem_size l))) else none
  | Ty.double => if is_kind Kind.float64 l then some (Val.raw (l.take (elem_size l))) else none
  | Ty.bin => if is_kind Kind.bin l then some (Val.raw (l.take (elem_size l))) else none
  | Ty.ext =>
    if is_kind Kind.fixext l || is_kind Kind.ext l then some (Val.raw (l.take (elem_size l)))
    else none
  | Ty.timespec =>
    if is_kind Kind.timestamp l then some (Val.raw (l.take (elem_size l))) else none
  | Ty.error => none

/-- Modelled from the spec: `deserialize(x)`. It fails after a failed `feed`, past the last
element and on an element of another kind, leaving the cursor; an `RpcError` is the array
`[code, traceback]` (`MSGPACK_DEFINE(code, traceback)`) and takes three elements. -/
def mdeserialize (u : MUnpacker) (t : Ty) : MUnpacker × Option Val :=
  if !u.b_decoded then (u, none)
  else
    match t with
    | Ty.error =>
      match (u.elem u.curr_index).bind read_arr_size, (u.elem (u.curr_index + 1)).bind read_int,
            (u.elem (u.curr_index + 2)).bind read_str with
      | some 2, some code, some traceback =>
        ({ u with curr_index := u.curr_index + 3 }, some (Val.error ⟨code, traceback⟩))
      | _, _, _ => (u, none)
    | _ =>
      match (u.elem u.curr_index).bind (read1 t) with
      | some v => ({ u with curr_index := u.curr_index + 1 }, some v)
      | none => (u, none)

/-- Modelled from the spec: the bytes of an integer, in the shortest format that holds it. -/
def pack_int (i : Int) : List Nat :=
  if 0 ≤ i then
    if i < 128 then [i.toNat]
    else if i < 256 then [0xcc, i.toNat]
    else if i < 65536 then 0xcd :: be2 i.toNat
    else if i < 4294967296 then 0xce :: be4 i.toNat
    else 0xcf :: be8 i.toNat
  else
    if -32 ≤ i then [(i + 256).toNat]
    else if -128 ≤ i then [0xd0, (i + 256).toNat]
    else if -32768 ≤ i then 0xd1 :: be2 (i + 65536).toNat
    else if -2147483648 ≤ i then 0xd2 :: be4 (i + 4294967296).toNat
    else 0xd3 :: be8 (i + 18446744073709551616).toNat

/-- Modelled from the spec: the bytes of a string, header first. -/
def pack_str (s : List Nat) : List Nat :=
  if s.length < 32 then (0xa0 + s.length) :: s
  else if s.length < 256 then 0xd9 :: s.length :: s
  else if s.length < 65536 then 0xda :: (be2 s.length ++ s)
  else 0xdb :: (be4 s.length ++ s)

/-- Modelled from the spec: an array header. -/
def pack_arr_size (n : Nat) : List Nat :=
  if n < 16 then [0x90 + n]
  else if n < 65536 then 0xdc :: be2 n
  else 0xdd :: be4 n

/-- Modelled from the spec: a map header. -/
def pack_map_size (n : Nat) : List Nat :=
  if n < 16 then [0x80 + n]
  else if n < 65536 then 0xde :: be2 n
  else 0xdf :: be4 n

/-- Modelled from the spec: `serialize(x)` on an empty packer. -/
def mpack : Val → List Nat
  | Val.nil => [0xc0]
  | Val.bool b => [if b then 0xc3 else 0xc2]
  | Val.int i => pack_int i
  | Val.str s => pack_str s
  | Val.arr_size n => pack_arr_size n
  | Val.map_size n => pack_map_size n
  | Val.error e => pack_arr_size 2 ++ pack_int e.code ++ pack_str e.traceback
  | Val.raw bytes => bytes

/-- Modelled from the spec: the MessagePack codec as the sources use it. -/
def msgpack : Codec :=
  { Unpacker := MUnpacker
    feed := mfeed
    size := fun u => u.indices.length
    probe := mprobe
    unpackable := munpackable
    deserialize := mdeserialize
    pack := mpack }

/-! ## Conditions named by the claims -/

/-- The condition of C3 on a length `k`: the first `k` bytes of the buffer decode as an
envelope of array length 4, type 1 and id `msg_id`, and the tail decodes, as a nil followed by a
result when a nil comes next and as an error followed by a nil otherwise. -/
def decodes_as_response (C : Codec) (d : RpcDecoder) (msg_id : Int) (RType : Ty) (k : Nat) :
    Prop :=
  (C.feed d.raw_buffer k).2 = true ∧
  ∃ u1, C.deserialize_seq (C.feed d.raw_buffer k).1 [Ty.arr_size, Ty.int, Ty.int]
        = (u1, some [Val.arr_size 4, Val.int 1, Val.int msg_id]) ∧
    if C.unpackable u1 Ty.nil = true then
      ∃ u2 n r, C.deserialize_seq u1 [Ty.nil, RType] = (u2, some [n, r])
    else
      ∃ u2 e n, C.deserialize_seq u1 [Ty.error, Ty.nil] = (u2, some [Val.error e, n])

/-- The condition of C10 on the arguments: read one after the other from `u`, each element is
unpackable as the type expected at its position and deserializes to the value listed. -/
def args_decode (C : Codec) : List Ty → C.Unpacker → Option (List Val)
  | [], _ => some []
  | t :: ts, u =>
    if C.unpackable u t then
      match C.deserialize u t with
      | (u1, some v) => (args_decode C ts u1).map (fun vs => v :: vs)
      | (_, none) => none
    else none

/-- Whether, walking over the arguments from `u`, every element is unpackable as the type
expected at its position. -/
def args_unpackable (C : Codec) : List Ty → C.Unpacker → Bool
  | [], _ => true
  | t :: ts, u => C.unpackable u t && args_unpackable C ts (C.deserialize u t).1

/-- The bytes `send_call(call_type, method, msg_id, args...)` serializes for a Call or a
Notify: the envelope with the method, then the argument array. -/
def request_data (C : Codec) (call_type : Int) (msg_id : Int) (method : List Nat)
    (args : List Val) : List Nat :=
  let packer :=
    if call_type = CALL_MSG then
      C.serialize [] [Val.arr_size REQUEST_SIZE, Val.int call_type, Val.int msg_id, Val.str method]
    else
      C.serialize [] [Val.arr_size NOTIFY_SIZE, Val.int call_type, Val.str method]
  C.serialize packer (Val.arr_size args.length :: args)

/-- The values of the types whose encoding the theorems on the MessagePack codec cover (one
element each), within the range of their C++ type: `nil`, `bool`, 32-bit `int`, strings and
array sizes below 2^32, and `float` and `double` given by their five and nine bytes. -/
def well_typed : Ty → Val → Prop
  | Ty.nil, Val.nil => True
  | Ty.bool, Val.bool _ => True
  | Ty.int, Val.int i => -2147483648 ≤ i ∧ i < 2147483648
  | Ty.str, Val.str s => s.length < 4294967296
  | Ty.arr_size, Val.arr_size n => n < 4294967296
  | Ty.float, Val.raw bytes => bytes.length = 5 ∧ bytes.head? = some 0xca
  | Ty.double, Val.raw bytes => bytes.length = 9 ∧ bytes.head? = some 0xcb
  | _, _ => False

instance well_typed_decidable (t : Ty) (v : Val) : Decidable (well_typed t v) := by
  cases t <;> cases v <;> unfold well_typed <;> infer_instance

/-! ## Notions used in the proofs -/

/-- The offsets at which consecutive elements start when laid out from offset `p`. -/
def offsets : Nat → List (List Nat) → List Nat
  | _, [] => []
  | p, t :: ts => p :: offsets (p + t.length) ts

/-- A byte string that is one MessagePack element, whatever follows it. -/
def is_elem (t : List Nat) : Prop := 0 < t.length ∧ ∀ post, elem_size (t ++ post) = t.length

/-- The unpacker after a successful `feed` that indexed the first `j` of the values `vs`
(followed in the buffer by `post`), with its cursor at `c`. -/
def tok_unpacker (vs : List Val) (post : List Nat) (j c : Nat) : MUnpacker :=
  { raw_data := (vs.map mpack).flatten ++ post
    indices := offsets 0 ((vs.map mpack).take j)
    curr_index := c
    b_decoded := true }

/-- The values a Call is serialized from, in order. -/
def call_values (msg_id : Int) (method : List Nat) (args : List Val) : List Val :=
  Val.arr_size 4 :: Val.int 0 :: Val.int msg_id :: Val.str method :: Val.arr_size args.length
    :: args

/-- The values a Response is serialized from, in order; an error is the array of its code and
its traceback. -/
def response_values (msg_id : Int) (error : RpcError) (result : Val) : List Val :=
  if error.code = NO_ERR then
    [Val.arr_size 4, Val.int 1, Val.int msg_id, Val.nil, result]
  else
    [Val.arr_size 4, Val.int 1, Val.int msg_id, Val.arr_size 2, Val.int error.code,
     Val.str error.traceback, Val.nil]

/-- The types of the values of `response_values`. -/
def response_types (error : RpcError) (RType : Ty) : List Ty :=
  if error.code = NO_ERR then [Ty.arr_size, Ty.int, Ty.int, Ty.nil, RType]
  else [Ty.arr_size, Ty.int, Ty.int, Ty.arr_size, Ty.int, Ty.str, Ty.nil]

/-! ## Example data -/

/-- A decoder holding five bytes in a buffer of eight. -/
def pop_example : RpcDecoder :=
  { raw_buffer := [10, 11, 12, 13, 14, 0, 0, 0], bytes_stored := 5, packet_type := CALL_MSG,
    msg_id := 0, arr_sz := 0, map_sz := 0 }

/-- A decoder whose buffer of eight bytes holds the Response `[1, 7, nil, 5]` (five bytes,
classified) followed by the first two bytes of a next one. -/
def resp_example : RpcDecoder :=
  { raw_buffer := [0x94, 0x01, 0x07, 0xc0, 0x05, 0x94, 0x01, 0], bytes_stored := 7,
    packet_type := RESP_MSG, msg_id := 8, arr_sz := 0, map_sz := 0 }

/-- The handler `add(a, b) = a + b` on `int`, wrapped. -/
def add_wrapper : RpcFunctionWrapper :=
  { args := [Ty.int, Ty.int]
    ret := some Ty.int
    func := fun vs =>
      match vs with
      | [Val.int a, Val.int b] => Val.int (to_int32 (a + b))
      | _ => Val.int 0 }

/-- A server's dispatcher with `add` bound under the name "add". -/
def add_dispatcher : RpcFunctionDispatcher :=
  { N := 100, entries := [{ name := ascii "add", fn := add_wrapper }] }

/-- An unpacker fed with the argument array `[2]`. -/
def one_arg_unpacker : MUnpacker := (mfeed [0x91, 0x02] 2).1

/-- An unpacker fed with the argument array `[2, 3]`. -/
def two_args_unpacker : MUnpacker := (mfeed [0x92, 0x02, 0x03] 3).1

/-- An unpacker fed with the argument array `["A", 3]`. -/
def str_arg_unpacker : MUnpacker := (mfeed [0x92, 0xa1, 0x41, 0x03] 4).1

/-- A decoder whose buffer of sixteen bytes holds the classified Call
`[0, 7, "add", ["A", 3]]` (eleven bytes). -/
def str_arg_call : RpcDecoder :=
  { raw_buffer := [0x94, 0x00, 0x07, 0xa3, 97, 100, 100, 0x92, 0xa1, 0x41, 0x03, 0, 0, 0, 0, 0],
    bytes_stored := 11, packet_type := CALL_MSG, msg_id := 0, arr_sz := 0, map_sz := 0 }

/-- A decoder whose buffer of sixteen bytes holds the classified Call `[0, 7, "add", [2, 3]]`
(ten bytes) followed by the first two bytes of a next packet. -/
def add_call : RpcDecoder :=
  { raw_buffer := [0x94, 0x00, 0x07, 0xa3, 97, 100, 100, 0x92, 0x02, 0x03, 0x94, 0x00,
                   0, 0, 0, 0],
    bytes_stored := 12, packet_type := CALL_MSG, msg_id := 0, arr_sz := 0, map_sz := 0 }

/-- A decoder whose buffer of sixteen bytes holds the classified Call
`[0, 1, "missing", [_, _]]` up to the header of its argument array (twelve bytes); the two
arguments have not arrived yet. -/
def missing_call : RpcDecoder :=
  { raw_buffer := [0x94, 0x00, 0x01, 0xa7, 109, 105, 115, 115, 105, 110, 103, 0x92,
                   0, 0, 0, 0],
    bytes_stored := 12, packet_type := CALL_MSG, msg_id := 0, arr_sz := 0, map_sz := 0 }

/-- The Response `[1, 1, [0xFE, "missing"], nil]`. -/
def missing_response : List Nat :=
  [0x94, 0x01, 0x01, 0x92, 0xcc, 0xfe, 0xa7, 109, 105, 115, 115, 105, 110, 103, 0xc0]

/-- An unclassified decoder whose buffer of eight bytes holds what
`send_response(7, no error, 5)` writes. -/
def result_reply : RpcDecoder :=
  { raw_buffer := send_response_data msgpack 7 RpcError.default (Val.int 5) ++ [0, 0, 0],
    bytes_stored := 5, packet_type := NO_MSG, msg_id := 8, arr_sz := 0, map_sz := 0 }

/-- An unclassified decoder whose buffer of sixteen bytes holds what
`send_response(1, Function-Not-Found "missing", _)` writes. -/
def error_reply : RpcDecoder :=
  { raw_buffer :=
      send_response_data msgpack 1 ⟨FUNCTION_NOT_FOUND_ERR, ascii "missing"⟩ Val.nil ++ [0],
    bytes_stored := 15, packet_type := NO_MSG, msg_id := 2, arr_sz := 0, map_sz := 0 }

/-- A decoder whose buffer of sixteen bytes holds exactly the classified, complete Call
`[0, 1, "m", [1, 2, 3, 4, 5]]` (eleven bytes). -/
def five_args_call : RpcDecoder :=
  { raw_buffer := [0x94, 0x00, 0x01, 0xa1, 109, 0x95, 1, 2, 3, 4, 5, 0, 0, 0, 0, 0],
    bytes_stored := 11, packet_type := CALL_MSG, msg_id := 0, arr_sz := 0, map_sz := 0 }

/-! ## `bind` of `dispatcher.h` -/

/-- The function-local statics `wrapper` of `RpcFunctionDispatcher<N>::bind<F>`, one for each
instantiation: the callable types `F` bound so far (a number stands for a type), each with the
wrapper constructed, once, by the first `bind` of that type. -/
abbrev BindStatics := List (Nat × RpcFunctionWrapper)

/-- The static `wrapper` of `bind<F>`, if it has been constructed. -/
def bind_static : BindStatics → Nat → Option RpcFunctionWrapper
  | [], _ => none
  | (G, w) :: rest, F => if G = F then some w else bind_static rest F

/-- The method `RpcFunctionDispatcher::bind(name, f)` for an `f` of type `F` that wraps to
`wrapped`: the flag returned, the dispatcher and the statics afterwards. The entry gets the
address of the static `wrapper`, which `static auto wrapper = wrap(f)` constructs in the first
call of `bind<F>` only. -/
def RpcFunctionDispatcher.bind (disp : RpcFunctionDispatcher) (statics : BindStatics)
    (name : List Nat) (F : Nat) (wrapped : RpcFunctionWrapper) :
    Bool × RpcFunctionDispatcher × BindStatics :=
  if disp.count ≥ disp.N then (false, disp, statics)
  else
    match bind_static statics F with
    | some wrapper =>
      (true, { disp with entries := disp.entries ++ [{ name := name, fn := wrapper }] }, statics)
    | none =>
      (true, { disp with entries := disp.entries ++ [{ name := name, fn := wrapped }] },
       statics ++ [(F, wrapped)])

/-- A bind request: the name, the type of the callable and its wrapping. -/
structure BindRequest where
  name : List Nat
  F : Nat
  wrapped : RpcFunctionWrapper

/-- A sequence of `bind` calls on a dispatcher, one after the other: the flags returned, the
dispatcher and the statics afterwards. -/
def bind_all : RpcFunctionDispatcher → BindStatics → List BindRequest →
    List Bool × RpcFunctionDispatcher × BindStatics
  | disp, statics, [] => ([], disp, statics)
  | disp, statics, r :: rs =>
    let b := disp.bind statics r.name r.F r.wrapped
    let rest := bind_all b.2.1 b.2.2 rs
    (b.1 :: rest.1, rest.2)

/-- The handler `sub(a, b) = a - b` on `int`, wrapped. -/
def sub_wrapper : RpcFunctionWrapper :=
  { args := [Ty.int, Ty.int]
    ret := some Ty.int
    func := fun vs =>
      match vs with
      | [Val.int a, Val.int b] => Val.int (to_int32 (a - b))
      | _ => Val.int 0 }

/-- An empty dispatcher of capacity `N`. -/
def RpcFunctionDispatcher.empty (N : Nat) : RpcFunctionDispatcher := { N := N, entries := [] }

/-- The dispatcher after `bind("foo", add)` and `bind("bar", sub)`, `add` and `sub` being two
functions of the one type `int(int, int)` (type number 1). -/
def foo_bar_dispatcher : RpcFunctionDispatcher :=
  (bind_all (RpcFunctionDispatcher.empty 100) []
    [{ name := ascii "foo", F := 1, wrapped := add_wrapper },
     { name := ascii "bar", F := 1, wrapped := sub_wrapper }]).2.1

/-- An unpacker fed with the argument array `[5, 3]`. -/
def five_three_unpacker : MUnpacker := (mfeed [0x92, 0x05, 0x03] 3).1

/-- A dispatcher of capacity 1 with `add` bound under the name "add": it is full. -/
def add_dispatcher_full : RpcFunctionDispatcher :=
  { N := 1, entries := [{ name := ascii "add", fn := add_wrapper }] }

/-! ## `send_call` of `decoder.h` and `notify` of `client.h` -/

/-- What `send_call` leaves behind: the flag returned, the value of the reference parameter
`msg_id` afterwards, the decoder, and the data of each `write` on the transport, in order. -/
structure SendResult where
  ok : Bool
  msg_id : Int
  decoder : RpcDecoder
  sent : List (List Nat)
deriving DecidableEq

/-- The method `RpcDecoder::send_call(call_type, method, msg_id, args...)` over a transport
whose `write` answers `write data`; `msg_id` is the value the caller's variable holds before the
call. The increment `_msg_id++` of the `int` counter is taken modulo 2^32. -/
def RpcDecoder.send_call (C : Codec) (write : List Nat → Nat) (d : RpcDecoder) (call_type : Int)
    (method : List Nat) (msg_id : Int) (args : List Val) : SendResult :=
  if call_type ≠ CALL_MSG ∧ call_type ≠ NOTIFY_MSG then
    { ok := false, msg_id := msg_id, decoder := d, sent := [] }
  else
    let msg_id1 := if call_type = CALL_MSG then d.msg_id else msg_id
    let data := request_data C call_type msg_id1 method args
    if write data = data.length then
      { ok := true, msg_id := msg_id1, decoder := { d with msg_id := to_int32 (d.msg_id + 1) },
        sent := [data] }
    else
      { ok := false, msg_id := msg_id1, decoder := d, sent := [data] }

/-- The method `RPCClient::notify(method, args...)` on the client's decoder: `_id` is an
uninitialised local, taken as 0, and the result of `send_call` is dropped. -/
def RPCClient.notify (C : Codec) (write : List Nat → Nat) (d : RpcDecoder) (method : List Nat)
    (args : List Val) : RpcDecoder × List (List Nat) :=
  let r := d.send_call C write NOTIFY_MSG method 0 args
  (r.decoder, r.sent)

/-- A transport whose `write` takes everything. -/
def write_all (data : List Nat) : Nat := data.length

/-- A transport whose `write` takes three bytes at most. -/
def write_three (data : List Nat) : Nat := min data.length 3

/-- A decoder with an empty buffer of eight bytes whose id counter stands at 41. -/
def idle_decoder : RpcDecoder :=
  { raw_buffer := [0, 0, 0, 0, 0, 0, 0, 0], bytes_stored := 0, packet_type := NO_MSG,
    msg_id := 41, arr_sz := 0, map_sz := 0 }

/-! ## `decoder_manager.h` -/

/-- The struct `Entry` of `RpcDecoderManager`: the transport pointer (a number stands for the
address of a transport, `none` for `nullptr`) and the decoder constructed in the entry's storage
(`none` as long as none has been). -/
structure ManagerEntry where
  transport : Option Nat
  decoder : Option RpcDecoder
deriving DecidableEq

/-- The static member `decoders_` of `RpcDecoderManager<MaxTransports>`, an array of
`MaxTransports` entries. -/
abbrev RpcDecoderManager := List ManagerEntry

/-- The array `decoders_` as initialised: every entry with null pointers. -/
def RpcDecoderManager.init (MaxTransports : Nat) : RpcDecoderManager :=
  List.replicate MaxTransports { transport := none, decoder := none }

/-- The loop of `getDecoder(transport)` from entry `i` on: the index of the entry whose decoder
is returned and the array afterwards; `none` when control reaches the trap `while (true);`.
A decoder is constructed as `RpcDecoder<>(transport)`, its buffer taken as zeroed. -/
def getDecoder_from (transport : Nat) : List ManagerEntry → Nat → Option (Nat × List ManagerEntry)
  | [], _ => none
  | entry :: rest, i =>
    if entry.transport = some transport then some (i, entry :: rest)
    else if entry.transport = none then
      some (i, { transport := some transport,
                 decoder := some (RpcDecoder.init MAX_BUFFER_SIZE) } :: rest)
    else
      match getDecoder_from transport rest (i + 1) with
      | none => none
      | some (k, rest1) => some (k, entry :: rest1)

/-- The method `RpcDecoderManager::getDecoder(transport)`. -/
def RpcDecoderManager.getDecoder (m : RpcDecoderManager) (transport : Nat) :
    Option (Nat × RpcDecoderManager) :=
  getDecoder_from transport m 0

/-- A use of the decoder returned for entry `slot` that leaves that decoder in the state `d`;
nothing happens where no decoder has been constructed. -/
def RpcDecoderManager.use (m : RpcDecoderManager) (slot : Nat) (d : RpcDecoder) :
    RpcDecoderManager :=
  match m.get? slot with
  | some entry =>
    match entry.decoder with
    | some _ => m.set slot { entry with decoder := some d }
    | none => m
  | none => m

/-- What a program does with the manager: ask for the decoder of a transport, or use a decoder
it was given. -/
inductive ManagerOp
  | get (transport : Nat)
  | use (slot : Nat) (d : RpcDecoder)

/-- The transports that the `getDecoder` calls of a program name, in order. -/
def named : List ManagerOp → List Nat
  | [] => []
  | ManagerOp.get t :: ops => t :: named ops
  | ManagerOp.use _ _ :: ops => named ops

/-- A program run on the manager: the entry returned by each `getDecoder`, in order, and the
array afterwards; `none` when some `getDecoder` is trapped. -/
def run_ops : RpcDecoderManager → List ManagerOp → Option (List Nat × RpcDecoderManager)
  | m, [] => some ([], m)
  | m, ManagerOp.get t :: ops =>
    match m.getDecoder t with
    | none => none
    | some (slot, m1) =>
      match run_ops m1 ops with
      | none => none
      | some (slots, m2) => some (slot :: slots, m2)
  | m, ManagerOp.use slot d :: ops => run_ops (m.use slot d) ops


/-- A program on the manager: the decoder of transport 7 is asked for and used, then that of
transport 9, then that of transport 7 again. -/
def two_links : List ManagerOp :=
  [ManagerOp.get 7, ManagerOp.use 0 idle_decoder, ManagerOp.get 9, ManagerOp.get 7]

/-! ## Conditions on the buffer of a server -/

/-- The message type that `deserialize(req_size, msg_type)` reads from the first `k` bytes of
the buffer in the loop body of `process_requests`; `none` where the body takes a `continue`
before. -/
def envelope_type (C : Codec) (d : RpcDecoder) (k : Nat) : Option Int :=
  let f := C.feed d.raw_buffer k
  if !f.2 then none
  else
    match C.deserialize_seq f.1 [Ty.arr_size, Ty.int] with
    | (_, some [Val.arr_size _, Val.int msg_type]) => some msg_type
    | _ => none

/-- Where the loop body of `process_requests` stands on the first `k` bytes before it turns to
the dispatcher. -/
inductive Envelope (C : Codec)
  | undecoded
  | request (msg_type msg_id : Int) (method : List Nat) (u : C.Unpacker)
  | response
  | mismatch

/-- The loop body of `process_requests` at `bytes_checked = k` up to "Headers unpacked":
`undecoded` on every `continue`, `request` with the type, id (0 for a Notify, which has none)
and method read and the unpacker at the arguments, `response` on the `break` of the third
branch, `mismatch` in the last branch, which discards. -/
def envelope_at (C : Codec) (d : RpcDecoder) (k : Nat) : Envelope C :=
  let f := C.feed d.raw_buffer k
  if !f.2 then Envelope.undecoded
  else
    match C.deserialize_seq f.1 [Ty.arr_size, Ty.int] with
    | (u1, some [Val.arr_size req_size, Val.int msg_type]) =>
      if req_size = REQUEST_SIZE ∧ msg_type = CALL_MSG then
        match C.deserialize_seq u1 [Ty.int, Ty.str] with
        | (u2, some [Val.int msg_id, Val.str method]) =>
          if C.size u2 < REQUEST_SIZE + 1 then Envelope.undecoded
          else Envelope.request msg_type msg_id method u2
        | _ => Envelope.undecoded
      else if req_size = NOTIFY_SIZE ∧ msg_type = NOTIFY_MSG then
        match C.deserialize_seq u1 [Ty.str] with
        | (u2, some [Val.str method]) =>
          if C.size u2 < NOTIFY_SIZE + 1 then Envelope.undecoded
          else Envelope.request msg_type 0 method u2
        | _ => Envelope.undecoded
      else if req_size = RESPONSE_SIZE ∧ msg_type = RESP_MSG then Envelope.response
      else Envelope.mismatch
    | _ => Envelope.undecoded

/-- The packer that `process_requests` hands to the dispatcher: the header of the Response for
a Call, nothing for a Notify. -/
def reply_header (C : Codec) (msg_type msg_id : Int) : List Nat :=
  if msg_type = CALL_MSG then
    C.serialize [] [Val.arr_size RESPONSE_SIZE, Val.int RESP_MSG, Val.int msg_id]
  else []

/-- The condition of C19 on a length `k`: the envelope does not decode from the first `k`
bytes, or it does and the dispatcher returns `false` with the packer as long as it was. -/
def not_ready (C : Codec) (disp : RpcFunctionDispatcher) (d : RpcDecoder) (k : Nat) : Prop :=
  match envelope_at C d k with
  | Envelope.undecoded => True
  | Envelope.request msg_type msg_id method u =>
    (disp.call C method u (reply_header C msg_type msg_id)).ok = false ∧
    (disp.call C method u (reply_header C msg_type msg_id)).packer.length
      = (reply_header C msg_type msg_id).length
  | Envelope.response => False
  | Envelope.mismatch => False

instance not_ready_decidable (C : Codec) (disp : RpcFunctionDispatcher) (d : RpcDecoder)
    (k : Nat) : Decidable (not_ready C disp d k) := by
  unfold not_ready
  cases envelope_at C d k <;> infer_instance

/-- The values in the error slot and the result slot of a Response: the error slot is nil, or
it holds an error and the result slot is nil. -/
def slots_exclusive (error result : Val) : Prop :=
  error = Val.nil ∨ ((∃ e, error = Val.error e) ∧ result = Val.nil)

/-- A Response as `send_response` and `process_requests` lay it out with the slots filled as
`slots_exclusive` says. -/
def is_response (C : Codec) (data : List Nat) : Prop :=
  ∃ msg_id error result,
    data = C.serialize [] [Val.arr_size RESPONSE_SIZE, Val.int RESP_MSG, Val.int msg_id,
                           error, result] ∧
    slots_exclusive error result

/-! ## More example data -/

/-- A handler `void ping()`, wrapped. -/
def ping_wrapper : RpcFunctionWrapper :=
  { args := [], ret := none, func := fun _ => Val.nil }

/-- A server's dispatcher with `add` bound under "add" and `ping` under "ping". -/
def ping_dispatcher : RpcFunctionDispatcher :=
  { N := 100, entries := [{ name := ascii "add", fn := add_wrapper },
                          { name := ascii "ping", fn := ping_wrapper }] }

/-- A decoder whose buffer of sixteen bytes holds exactly the classified Call
`[0, 7, "ping", []]` (nine bytes). -/
def ping_call : RpcDecoder :=
  { raw_buffer := [0x94, 0x00, 0x07, 0xa4, 112, 105, 110, 103, 0x90, 0, 0, 0, 0, 0, 0, 0],
    bytes_stored := 9, packet_type := CALL_MSG, msg_id := 0, arr_sz := 0, map_sz := 0 }

/-- A decoder whose buffer of sixteen bytes holds exactly the classified Notify
`[2, "add", [2, 3]]` (nine bytes). -/
def add_notify : RpcDecoder :=
  { raw_buffer := [0x93, 0x02, 0xa3, 97, 100, 100, 0x92, 0x02, 0x03, 0, 0, 0, 0, 0, 0, 0],
    bytes_stored := 9, packet_type := NOTIFY_MSG, msg_id := 0, arr_sz := 0, map_sz := 0 }

/-- A decoder whose buffer of sixteen bytes holds exactly the classified Notify
`[2, "add", [2, 3, 4]]` (ten bytes), one argument too many. -/
def long_notify : RpcDecoder :=
  { raw_buffer := [0x93, 0x02, 0xa3, 97, 100, 100, 0x93, 0x02, 0x03, 0x04, 0, 0, 0, 0, 0, 0],
    bytes_stored := 10, packet_type := NOTIFY_MSG, msg_id := 0, arr_sz := 0, map_sz := 0 }

/-- A decoder whose buffer of sixteen bytes holds exactly the classified Notify
`[2, "sub", [2, 3]]` (nine bytes). -/
def sub_notify : RpcDecoder :=
  { raw_buffer := [0x93, 0x02, 0xa3, 115, 117, 98, 0x92, 0x02, 0x03, 0, 0, 0, 0, 0, 0, 0],
    bytes_stored := 9, packet_type := NOTIFY_MSG, msg_id := 0, arr_sz := 0, map_sz := 0 }

/-- A decoder whose buffer of sixteen bytes holds the classified Call `[0, 7, "add", [2, _]]`
up to its first argument (nine bytes); the second has not arrived yet. -/
def partial_call : RpcDecoder :=
  { raw_buffer := [0x94, 0x00, 0x07, 0xa3, 97, 100, 100, 0x92, 0x02, 0, 0, 0, 0, 0, 0, 0],
    bytes_stored := 9, packet_type := CALL_MSG, msg_id := 0, arr_sz := 0, map_sz := 0 }

/-- A decoder whose buffer of sixteen bytes holds exactly the classified packet
`[0, "m", [1, 2, 3, 4]]` (nine bytes): type 0 in an array of length 3. -/
def short_call : RpcDecoder :=
  { raw_buffer := [0x93, 0x00, 0xa1, 109, 0x94, 1, 2, 3, 4, 0, 0, 0, 0, 0, 0, 0],
    bytes_stored := 9, packet_type := CALL_MSG, msg_id := 0, arr_sz := 0, map_sz := 0 }

/-- A decoder whose buffer of sixteen bytes holds exactly the classified packet
`[0, "m", 5]` (five bytes): type 0 in an array of length 3, nothing nested. -/
def flat_short_call : RpcDecoder :=
  { raw_buffer := [0x93, 0x00, 0xa1, 109, 0x05, 0, 0, 0, 0, 0, 0, 0, 0, 0, 0, 0],
    bytes_stored := 5, packet_type := CALL_MSG, msg_id := 0, arr_sz := 0, map_sz := 0 }

/-! ## A measure for the scans of `get_packet_size` -/

/-- The number of indexed elements from the cursor of a scan on. -/
def scan_left (s : Scan msgpack) : Nat :=
  (MUnpacker.indices s.u).length - MUnpacker.curr_index s.u

/-! ## `advance`, `process` and `recover` of `decoder.h` -/

/-- The loop `for (i = 0; i < bytes_read; ++i)` of `advance` over the bytes read: each byte is
stored at `_raw_buffer[_bytes_stored]` and counted. The answer is `none` when control enters
`while (buffer_full()) delay(1);` with the buffer full: nothing in that loop changes
`_bytes_stored`, so control never leaves it. A store past the end of the buffer, which the
guard of `advance` excludes for `_bytes_stored <= BufferSize`, is dropped. -/
def advance_copy (d : RpcDecoder) : List Nat → Option RpcDecoder
  | [] => some d
  | b :: rest =>
    let d1 : RpcDecoder :=
      { d with raw_buffer := d.raw_buffer.set d.bytes_stored b,
               bytes_stored := d.bytes_stored + 1 }
    if d1.buffer_full then none else advance_copy d1 rest

/-- The method `RpcDecoder::advance()` over a transport whose `available()` answers `available`
and whose `read(temp_buf, CHUNK_SIZE)` delivers the bytes `chunk` (`bytes_read` is their
number): the returned flag and the decoder afterwards, `none` when `advance` does not return. -/
def RpcDecoder.advance (d : RpcDecoder) (available : Bool) (chunk : List Nat) :
    Option (Bool × RpcDecoder) :=
  if available && !d.buffer_full then
    if chunk.length ≤ 0 then some (false, d)
    else
      match advance_copy d chunk with
      | none => none
      | some d1 => some (true, d1)
  else some (true, d)

/-- The method `RpcDecoder::process()`: `if (advance()) parse_packet();`. -/
def RpcDecoder.process (C : Codec) (d : RpcDecoder) (available : Bool) (chunk : List Nat) :
    Option RpcDecoder :=
  match d.advance available chunk with
  | none => none
  | some (true, d1) => some (d1.parse_packet C)
  | some (false, d1) => some d1

/-- The method `flush_buffer()` on the decoder: the transport is read until it delivers
nothing (taken to happen), the bytes dropped, and `_bytes_stored` is reset. -/
def RpcDecoder.flush_buffer (d : RpcDecoder) : RpcDecoder := { d with bytes_stored := 0 }

/-- The method `RpcDecoder::recover()`. -/
def RpcDecoder.recover (C : Codec) (d : RpcDecoder) : RpcDecoder :=
  let d1 := d.parse_packet C
  if d1.buffer_full && !d1.packet_incoming then d1.flush_buffer else d1

/-- The calls on a decoder that C22 names, with what the transport does during an `advance`. -/
inductive DecoderOp
  | advance (available : Bool) (chunk : List Nat)
  | parse_packet
  | process_requests (disp : RpcFunctionDispatcher)
  | get_response (msg_id : Int) (RType : Ty)
  | recover
  | pop_packet (size : Nat)

/-- One call on a decoder: the decoder afterwards, `none` when the call does not return. -/
def step_decoder (C : Codec) (d : RpcDecoder) : DecoderOp → Option RpcDecoder
  | DecoderOp.advance available chunk => (d.advance available chunk).map (fun r => r.2)
  | DecoderOp.parse_packet => some (d.parse_packet C)
  | DecoderOp.process_requests disp => (d.process_requests C disp).map (fun o => o.decoder)
  | DecoderOp.get_response msg_id RType => some (d.get_response C msg_id RType).2
  | DecoderOp.recover => some (d.recover C)
  | DecoderOp.pop_packet size => some (d.pop_packet size).2

/-- A sequence of calls on a decoder, one after the other. -/
def run_decoder (C : Codec) : RpcDecoder → List DecoderOp → Option RpcDecoder
  | d, [] => some d
  | d, op :: ops =>
    match step_decoder C d op with
    | none => none
    | some d1 => run_decoder C d1 ops

/-- The packet types of the protocol and "none cached". -/
def known_type (t : Int) : Prop := t = NO_MSG ∨ t = CALL_MSG ∨ t = RESP_MSG ∨ t = NOTIFY_MSG

instance known_type_decidable (t : Int) : Decidable (known_type t) := by
  unfold known_type
  infer_instance

/-- A fresh decoder with a buffer of eight bytes that has received the single byte 0x94, the
header of an array of four; the rest of the buffer is as constructed. -/
def one_byte : RpcDecoder :=
  { raw_buffer := [0x94, 0, 0, 0, 0, 0, 0, 0], bytes_stored := 1, packet_type := NO_MSG,
    msg_id := 0, arr_sz := 0, map_sz := 0 }

/-- A decoder whose buffer of eight bytes holds the Response `[1, 7, nil, 5]` (five bytes,
classified) followed by the first byte of a next packet. -/
def resp_and_byte : RpcDecoder :=
  { raw_buffer := [0x94, 0x01, 0x07, 0xc0, 0x05, 0x94, 0, 0], bytes_stored := 6,
    packet_type := RESP_MSG, msg_id := 8, arr_sz := 0, map_sz := 0 }

/-- A decoder holding five bytes in a buffer of eight, nothing classified. -/
def five_of_eight : RpcDecoder :=
  { raw_buffer := [1, 2, 3, 4, 5, 0, 0, 0], bytes_stored := 5, packet_type := NO_MSG,
    msg_id := 0, arr_sz := 0, map_sz := 0 }

/-- A decoder whose buffer of eight bytes is full, nothing classified. -/
def full_decoder : RpcDecoder :=
  { raw_buffer := [1, 2, 3, 4, 5, 6, 7, 8], bytes_stored := 8, packet_type := NO_MSG,
    msg_id := 0, arr_sz := 0, map_sz := 0 }

/-! ## A handler with a parameter of several elements -/

/-- The handler `int code_of(RpcError e) { return e.code; }`, wrapped; an `RpcError` is
serialized as the array of its code and its traceback, three elements. -/
def code_wrapper : RpcFunctionWrapper :=
  { args := [Ty.error]
    ret := some Ty.int
    func := fun vs =>
      match vs with
      | [Val.error e] => Val.int e.code
      | _ => Val.int 0 }

/-- A server's dispatcher with `code_of` bound under the name "h". -/
def code_dispatcher : RpcFunctionDispatcher :=
  { N := 100, entries := [{ name := ascii "h", fn := code_wrapper }] }

/-- A decoder whose buffer of sixteen bytes holds exactly the classified, complete Call
`[0, 7, "h", [[5, "x"]]]` (ten bytes), its one argument the error of code 5 and traceback
"x". -/
def error_arg_call : RpcDecoder :=
  { raw_buffer := [0x94, 0x00, 0x07, 0xa1, 104, 0x91, 0x92, 0x05, 0xa1, 120, 0, 0, 0, 0, 0, 0],
    bytes_stored := 10, packet_type := CALL_MSG, msg_id := 0, arr_sz := 0, map_sz := 0 }

/-! ## Theorems -/

/-- After `m` rounds the shifting loop has moved `m` bytes to the front and left the rest. -/
theorem shift_down_eq (buf : List Nat) (size : Nat) :
    ∀ m, size + m ≤ buf.length →
      shift_down buf size m = (buf.drop size).take m ++ buf.drop m := by
  intro m
  induction m with
  | zero => intro _; simp [shift_down]
  | succ m ih =>
    intro h
    have hm : size + m ≤ buf.length := by omega
    have ih' := ih hm
    unfold shift_down at ih' ⊢
    rw [List.range_succ, List.foldl_append, ih']
    simp only [List.foldl_cons, List.foldl_nil]
    have hlen : ((buf.drop size).take m).length = m := by
      simp [List.length_take, List.length_drop]; omega
    have hget : ((buf.drop size).take m ++ buf.drop m).getD (size + m) 0 = buf.getD (size + m) 0 := by
      rw [List.getD_eq_getElem?_getD, List.getD_eq_getElem?_getD]
      rw [List.getElem?_append_right (by omega)]
      rw [hlen, List.getElem?_drop]
      congr 2
      omega
    rw [hget]
    have hlen1 : ((buf.drop size).take (m + 1)).length = m + 1 := by
      simp [List.length_take, List.length_drop]; omega
    apply List.ext_getElem?
    intro i
    rw [List.getElem?_set, List.getElem?_append, List.getElem?_append, hlen, hlen1]
    simp only [List.length_append, List.length_drop, hlen, List.getElem?_take,
      List.getElem?_drop]
    by_cases hi : i < m
    · have h1 : ¬ m = i := by omega
      have h2 : i < m + 1 := by omega
      simp [hi, h1, h2]
    · by_cases hi2 : i = m
      · subst hi2
        have h3 : size + i < buf.length := by omega
        have h4 : i < i + (buf.length - i) := by omega
        simp [h4, List.getD_eq_getElem?_getD, List.getElem?_eq_getElem h3]
      · have h1 : ¬ m = i := by omega
        have h2 : ¬ i < m + 1 := by omega
        have h5 : m + (i - m) = i := by omega
        have h6 : m + 1 + (i - (m + 1)) = i := by omega
        simp [hi, h1, h2, h5, h6]

/-! ### `pop_packet` -/

/-- What `pop_packet(n)` does for `n` within the bytes stored. -/
theorem pop_packet_spec (d : RpcDecoder) (n : Nat) (hn : n ≤ d.bytes_stored)
    (hb : d.bytes_stored ≤ d.BufferSize) :
    (d.pop_packet n).1 = n ∧
    (d.pop_packet n).2.bytes_stored = d.bytes_stored - n ∧
    (d.pop_packet n).2.raw_buffer.take (d.bytes_stored - n)
      = (d.raw_buffer.take d.bytes_stored).drop n ∧
    (d.pop_packet n).2.packet_type = NO_MSG := by
  have hle : ¬ n > d.bytes_stored := by omega
  have hlen : n + (d.bytes_stored - n) ≤ d.raw_buffer.length := by
    unfold RpcDecoder.BufferSize at hb; omega
  simp only [RpcDecoder.pop_packet, hle, if_false, true_and]
  rw [shift_down_eq _ _ _ hlen]
  have h1 : ((d.raw_buffer.drop n).take (d.bytes_stored - n)).length = d.bytes_stored - n := by
    simp [List.length_take, List.length_drop]; omega
  rw [List.take_append_of_le_length (by omega), List.take_take, Nat.min_self, List.drop_take]
  exact ⟨rfl, trivial⟩

/-- C6: for `n <= bytes_stored` (and `bytes_stored` within the buffer), `pop_packet(n)` returns
`n`, leaves `bytes_stored - n` bytes stored, which are the old bytes at positions
`n .. bytes_stored - 1` in the same order, and resets the cached packet type to `NO_MSG`. -/
theorem pop_packet_evicts (d : RpcDecoder) (n : Nat) (hn : n ≤ d.bytes_stored)
    (hb : d.bytes_stored ≤ d.BufferSize) :
    (d.pop_packet n).1 = n ∧
    (d.pop_packet n).2.bytes_stored = d.bytes_stored - n ∧
    (d.pop_packet n).2.raw_buffer.take (d.bytes_stored - n)
      = (d.raw_buffer.take d.bytes_stored).drop n ∧
    (d.pop_packet n).2.packet_type = NO_MSG := by
  have hle : ¬ n > d.bytes_stored := by omega
  have hlen : n + (d.bytes_stored - n) ≤ d.raw_buffer.length := by
    unfold RpcDecoder.BufferSize at hb; omega
  simp only [RpcDecoder.pop_packet, hle, if_false, true_and]
  rw [shift_down_eq _ _ _ hlen]
  have h1 : ((d.raw_buffer.drop n).take (d.bytes_stored - n)).length = d.bytes_stored - n := by
    simp [List.length_take, List.length_drop]; omega
  rw [List.take_append_of_le_length (by omega), List.take_take, Nat.min_self, List.drop_take]
  exact ⟨rfl, trivial⟩

theorem pop_packet_evicts_witness :
    (pop_example.pop_packet 2).1 = 2 ∧
    (pop_example.pop_packet 2).2.bytes_stored = pop_example.bytes_stored - 2 ∧
    (pop_example.pop_packet 2).2.raw_buffer.take (pop_example.bytes_stored - 2)
      = (pop_example.raw_buffer.take pop_example.bytes_stored).drop 2 ∧
    (pop_example.pop_packet 2).2.packet_type = NO_MSG :=
  pop_packet_evicts pop_example 2 (by decide) (by decide)

/-- C7: for `n > bytes_stored`, `pop_packet(n)` returns 0 and changes nothing: buffer,
`bytes_stored` and cached packet type are as before. -/
theorem pop_packet_too_many (d : RpcDecoder) (n : Nat) (hn : n > d.bytes_stored) :
    (d.pop_packet n).1 = 0 ∧ (d.pop_packet n).2 = d := by
  simp [RpcDecoder.pop_packet, hn]

theorem pop_packet_too_many_witness :
    (pop_example.pop_packet 6).1 = 0 ∧ (pop_example.pop_packet 6).2 = pop_example :=
  pop_packet_too_many pop_example 6 (by decide)

/-! ### `get_response` -/

/-- A sequence read yields as many values as types were asked for. -/
theorem deserialize_seq_length (C : Codec) :
    ∀ (ts : List Ty) (u u1 : C.Unpacker) (vs : List Val),
      C.deserialize_seq u ts = (u1, some vs) → vs.length = ts.length := by
  intro ts
  induction ts with
  | nil =>
    intro u u1 vs h
    simp [Codec.deserialize_seq] at h
    simp [← h.2]
  | cons t ts ih =>
    intro u u1 vs h
    unfold Codec.deserialize_seq at h
    split at h
    · simp at h
    · split at h
      · simp at h
      · rename_i u2 v hd u3 vs1 hs
        simp only [Prod.mk.injEq, Option.some.injEq] at h
        rw [← h.2]
        simp [ih _ _ _ hs]

/-- The body of the loop of `get_response` reaches `pop_packet` exactly on the lengths C3
describes. -/
theorem get_response_try_isSome_iff (C : Codec) (d : RpcDecoder) (msg_id : Int) (RType : Ty)
    (k : Nat) :
    (get_response_try C d msg_id RType k).isSome = true ↔ decodes_as_response C d msg_id RType k := by
  unfold get_response_try decodes_as_response
  constructor
  · intro h
    by_cases hf : (C.feed d.raw_buffer k).2 = true
    · refine ⟨hf, ?_⟩
      simp only [hf, Bool.not_true, Bool.false_eq_true, if_false] at h
      split at h
      · rename_i u1 resp_size resp_type resp_id hd
        by_cases h1 : resp_size = RESPONSE_SIZE
        · by_cases h2 : resp_type = RESP_MSG
          · by_cases h3 : resp_id = msg_id
            · refine ⟨u1, ?_, ?_⟩
              · rw [hd, h1, h2, h3]; rfl
              · simp only [h1, h2, h3, ne_eq, not_true_eq_false, if_false] at h
                by_cases hn : C.unpackable u1 Ty.nil = true
                · simp only [hn, if_true] at h ⊢
                  split at h
                  · rename_i u2 n r hs
                    exact ⟨u2, n, r, hs⟩
                  · simp at h
                · have hn1 : C.unpackable u1 Ty.nil = false := by simpa using hn
                  simp only [hn1, Bool.false_eq_true, if_false] at h ⊢
                  split at h
                  · rename_i u2 e n hs
                    exact ⟨u2, e, n, hs⟩
                  · simp at h
            · simp [h1, h2, h3] at h
          · simp [h1, h2] at h
        · simp [h1] at h
      · simp at h
    · simp [hf] at h
  · rintro ⟨hf, u1, hd, ht⟩
    simp only [hf, Bool.not_true, Bool.false_eq_true, if_false]
    rw [hd]
    simp only [RESPONSE_SIZE, RESP_MSG, ne_eq, not_true_eq_false, if_false]
    by_cases hn : C.unpackable u1 Ty.nil = true
    · simp only [hn, if_true] at ht ⊢
      obtain ⟨u2, n, r, hs⟩ := ht
      rw [hs]; rfl
    · have hn1 : C.unpackable u1 Ty.nil = false := by simpa using hn
      simp only [hn1, Bool.false_eq_true, if_false] at ht ⊢
      obtain ⟨u2, e, n, hs⟩ := ht
      rw [hs]; rfl

/-- A successful loop of `get_response` stops at the first length at which its body reaches
`pop_packet`, and pops that many bytes. -/
theorem get_response_loop_some (C : Codec) (d : RpcDecoder) (msg_id : Int) (RType : Ty) :
    ∀ (n c : Nat) (r : Reply) (d1 : RpcDecoder),
      get_response_loop C d msg_id RType n c = (some r, d1) →
      ∃ k, c < k ∧ k ≤ c + n ∧ get_response_try C d msg_id RType k = some r ∧
        (∀ j, c < j → j < k → get_response_try C d msg_id RType j = none) ∧
        d1 = (d.pop_packet k).2 := by
  intro n
  induction n with
  | zero => intro c r d1 h; simp [get_response_loop] at h
  | succ n ih =>
    intro c r d1 h
    unfold get_response_loop at h
    split at h
    · rename_i r1 hr
      simp only [Prod.mk.injEq, Option.some.injEq] at h
      refine ⟨c + 1, by omega, by omega, ?_, ?_, h.2.symm⟩
      · rw [hr, h.1]
      · intro j h1 h2; omega
    · rename_i hr
      obtain ⟨k, h1, h2, h3, h4, h5⟩ := ih (c + 1) r d1 h
      refine ⟨k, by omega, by omega, h3, ?_, h5⟩
      intro j hj1 hj2
      by_cases hj : j = c + 1
      · rw [hj]; exact hr
      · exact h4 j (by omega) hj2

/-- A failed loop of `get_response` leaves the decoder as it was. -/
theorem get_response_loop_none (C : Codec) (d : RpcDecoder) (msg_id : Int) (RType : Ty) :
    ∀ (n c : Nat), (get_response_loop C d msg_id RType n c).1 = none →
      (get_response_loop C d msg_id RType n c).2 = d := by
  intro n
  induction n with
  | zero => intro c _; simp [get_response_loop]
  | succ n ih =>
    intro c h
    unfold get_response_loop at h ⊢
    split
    · rename_i r1 hr
      rw [hr] at h
      simp at h
    · rename_i hr
      rw [hr] at h
      exact ih (c + 1) h

/-- C3: when `get_response(expected_id)` returns `true`, it has evicted exactly `k` bytes, `k`
being the smallest length in `1 .. bytes_stored` at which the buffer decodes as a Response
envelope (array length 4, type 1, id `expected_id`) with a decodable result-or-error tail;
`bytes_stored` went down by `k`, the remaining bytes are at the front in their order and the
cached packet type is `NO_MSG`. -/
theorem get_response_evicts_smallest (C : Codec) (d : RpcDecoder) (msg_id : Int) (RType : Ty)
    (hb : d.bytes_stored ≤ d.BufferSize)
    (h : (d.get_response C msg_id RType).1.isSome = true) :
    ∃ k, 1 ≤ k ∧ k ≤ d.bytes_stored ∧
      decodes_as_response C d msg_id RType k ∧
      (∀ j, 1 ≤ j → j < k → ¬ decodes_as_response C d msg_id RType j) ∧
      (d.get_response C msg_id RType).2.bytes_stored = d.bytes_stored - k ∧
      (d.get_response C msg_id RType).2.raw_buffer.take (d.bytes_stored - k)
        = (d.raw_buffer.take d.bytes_stored).drop k ∧
      (d.get_response C msg_id RType).2.packet_type = NO_MSG := by
  unfold RpcDecoder.get_response at h ⊢
  split at h
  · simp at h
  · rename_i hc
    simp only [hc, if_false]
    cases hl : get_response_loop C d msg_id RType d.bytes_stored 0 with
    | mk o d1 =>
      rw [hl] at h
      cases o with
      | none => simp at h
      | some r =>
        obtain ⟨k, h1, h2, h3, h4, h5⟩ := get_response_loop_some C d msg_id RType _ _ _ _ hl
        have hk : k ≤ d.bytes_stored := by omega
        obtain ⟨_, p2, p3, p4⟩ := pop_packet_spec d k hk hb
        refine ⟨k, by omega, hk, ?_, ?_, ?_, ?_, ?_⟩
        · rw [← get_response_try_isSome_iff, h3]; rfl
        · intro j hj1 hj2 hdec
          rw [← get_response_try_isSome_iff, h4 j (by omega) hj2] at hdec
          simp at hdec
        · simp only [h5]; exact p2
        · simp only [h5]; exact p3
        · simp only [h5]; exact p4

/-- C4: when `get_response(id)` returns `false`, buffer, `bytes_stored` and cached packet type
(the whole decoder state) are unchanged, and `get_response(id)` on the resulting state returns
`false` again. -/
theorem get_response_failed_idempotent (C : Codec) (d : RpcDecoder) (msg_id : Int) (RType : Ty)
    (h : (d.get_response C msg_id RType).1 = none) :
    (d.get_response C msg_id RType).2 = d ∧
    ((d.get_response C msg_id RType).2.get_response C msg_id RType).1 = none := by
  have h2 : (d.get_response C msg_id RType).2 = d := by
    unfold RpcDecoder.get_response at h ⊢
    split
    · rfl
    · rename_i hc
      simp only [hc, if_false] at h
      exact get_response_loop_none C d msg_id RType _ _ h
  exact ⟨h2, by rw [h2]; exact h⟩

theorem get_response_evicts_smallest_witness :
    ∃ k, 1 ≤ k ∧ k ≤ resp_example.bytes_stored ∧
      decodes_as_response msgpack resp_example 7 Ty.int k ∧
      (∀ j, 1 ≤ j → j < k → ¬ decodes_as_response msgpack resp_example 7 Ty.int j) ∧
      (resp_example.get_response msgpack 7 Ty.int).2.bytes_stored
        = resp_example.bytes_stored - k ∧
      (resp_example.get_response msgpack 7 Ty.int).2.raw_buffer.take
          (resp_example.bytes_stored - k)
        = (resp_example.raw_buffer.take resp_example.bytes_stored).drop k ∧
      (resp_example.get_response msgpack 7 Ty.int).2.packet_type = NO_MSG :=
  get_response_evicts_smallest msgpack resp_example 7 Ty.int (by decide) (by decide)

theorem get_response_failed_idempotent_witness :
    (resp_example.get_response msgpack 9 Ty.int).2 = resp_example ∧
    ((resp_example.get_response msgpack 9 Ty.int).2.get_response msgpack 9 Ty.int).1 = none :=
  get_response_failed_idempotent msgpack resp_example 9 Ty.int (by decide)

/-! ### The function wrapper -/

/-- When every argument decodes, `deserialize_tuple` succeeds with the decoded values appended
in order. -/
theorem deserialize_tuple_of_args_decode (C : Codec) :
    ∀ (ts : List Ty) (u : C.Unpacker) (out vs : List Val),
      args_decode C ts u = some vs →
      ∃ u1, deserialize_tuple C ts u out = (true, u1, out ++ vs) := by
  intro ts
  induction ts with
  | nil =>
    intro u out vs h
    simp only [args_decode, Option.some.injEq] at h
    exact ⟨u, by simp [deserialize_tuple, ← h]⟩
  | cons t ts ih =>
    intro u out vs h
    unfold args_decode at h
    by_cases hu : C.unpackable u t = true
    · simp only [hu, if_true] at h
      cases hd : C.deserialize u t with
      | mk u1 r =>
        rw [hd] at h
        cases r with
        | none => simp at h
        | some v =>
          simp only [Option.map_eq_some'] at h
          obtain ⟨vs1, h1, h2⟩ := h
          obtain ⟨u2, h3⟩ := ih u1 (out ++ [v]) vs1 h1
          refine ⟨u2, ?_⟩
          unfold deserialize_tuple deserialize_single
          simp only [hu, Bool.not_true, Bool.false_eq_true, if_false, hd]
          rw [h3, ← h2]
          simp
    · simp [hu] at h

/-- When some argument is not unpackable as the type expected at its position,
`deserialize_tuple` fails. -/
theorem deserialize_tuple_of_not_unpackable (C : Codec) :
    ∀ (ts : List Ty) (u : C.Unpacker) (out : List Val),
      args_unpackable C ts u = false → (deserialize_tuple C ts u out).1 = false := by
  intro ts
  induction ts with
  | nil => intro u out h; simp [args_unpackable] at h
  | cons t ts ih =>
    intro u out h
    unfold args_unpackable at h
    unfold deserialize_tuple deserialize_single
    by_cases hu : C.unpackable u t = true
    · simp only [hu, Bool.true_and] at h
      simp only [hu, Bool.not_true, Bool.false_eq_true, if_false]
      cases hd : C.deserialize u t with
      | mk u1 r =>
        rw [hd] at h
        cases r with
        | none => exact ih u1 _ h
        | some v => exact ih u1 _ h
    · have hu1 : C.unpackable u t = false := by simpa using hu
      simp [hu1]

/-- The search of the dispatcher runs the wrapper of the first entry bearing the name. -/
theorem call_from_first (C : Codec) (name : List Nat) (u : C.Unpacker) (packer : List Nat)
    (e : DispatchEntry) (post : List DispatchEntry) (he : e.name = name) :
    ∀ (pre : List DispatchEntry) (i : Nat), (∀ x ∈ pre, x.name ≠ name) →
      call_from C name u packer (pre ++ e :: post) i =
        { ok := (e.fn.call C u packer).ok, unpacker := (e.fn.call C u packer).unpacker,
          packer := (e.fn.call C u packer).packer,
          invoked := (e.fn.call C u packer).invoked.map (fun a => (i + pre.length, a)) } := by
  intro pre
  induction pre with
  | nil => intro i _; simp [call_from, he]
  | cons x pre ih =>
    intro i h
    have hx : ¬ x.name = name := h x (by simp)
    show call_from C name u packer (x :: (pre ++ e :: post)) i = _
    rw [call_from]
    simp only [hx, if_false]
    rw [ih (i + 1) (fun y hy => h y (by simp [hy]))]
    simp only [List.length_cons]
    have : i + 1 + pre.length = i + (pre.length + 1) := by omega
    rw [this]

theorem wrapper_call_decoded (C : Codec) (w : RpcFunctionWrapper) (u u1 : C.Unpacker)
    (packer : List Nat) (vs : List Val)
    (harr : C.probe u Kind.array = true)
    (hsz : C.deserialize u Ty.arr_size = (u1, some (Val.arr_size w.args.length)))
    (hargs : args_decode C w.args u1 = some vs) :
    (w.call C u packer).ok = true ∧
    (w.call C u packer).invoked = [vs] ∧
    (w.call C u packer).packer
      = C.serialize packer [Val.nil, match w.ret with
                                     | none => Val.nil
                                     | some _ => w.func vs] := by
  obtain ⟨u2, h2⟩ := deserialize_tuple_of_args_decode C w.args u1 [] vs hargs
  unfold RpcFunctionWrapper.call
  simp only [harr, Bool.not_true, Bool.false_eq_true, if_false, hsz, Nat.lt_irrefl, gt_iff_lt]
  unfold RpcFunctionWrapper.handle_call deserialize_all
  rw [h2]
  cases w.ret <;> simp

theorem wrapper_call_not_ready (C : Codec) (w : RpcFunctionWrapper) (u u1 : C.Unpacker)
    (packer : List Nat)
    (harr : C.probe u Kind.array = true)
    (hsz : C.deserialize u Ty.arr_size = (u1, some (Val.arr_size w.args.length)))
    (hargs : args_unpackable C w.args u1 = false) :
    (w.call C u packer).ok = false ∧ (w.call C u packer).packer = packer ∧
      (w.call C u packer).invoked = [] := by
  have h1 := deserialize_tuple_of_not_unpackable C w.args u1 [] hargs
  unfold RpcFunctionWrapper.call
  simp only [harr, Bool.not_true, Bool.false_eq_true, if_false, hsz, Nat.lt_irrefl, gt_iff_lt]
  unfold RpcFunctionWrapper.handle_call deserialize_all
  cases hd : deserialize_tuple C w.args u1 [] with
  | mk b r =>
    rw [hd] at h1
    simp only at h1
    subst h1
    exact ⟨rfl, rfl, rfl⟩

/-- The reply to a Call whose method is first bound to `w`, in terms of the call of `w`. -/
theorem dispatch_reply_call (C : Codec) (disp : RpcFunctionDispatcher) (d : RpcDecoder)
    (k : Nat) (msg_id : Int) (method : List Nat) (u : C.Unpacker)
    (pre post : List DispatchEntry) (w : RpcFunctionWrapper)
    (hdisp : disp.entries = pre ++ { name := method, fn := w } :: post)
    (hpre : ∀ x ∈ pre, x.name ≠ method) :
    (∀ hdr, hdr = C.serialize [] [Val.arr_size RESPONSE_SIZE, Val.int RESP_MSG, Val.int msg_id] →
      (w.call C u hdr).ok = false → (w.call C u hdr).packer = hdr →
      (w.call C u hdr).invoked = [] →
      dispatch_reply C disp d k CALL_MSG msg_id method u = some (Step.next [])) ∧
    (∀ hdr, hdr = C.serialize [] [Val.arr_size RESPONSE_SIZE, Val.int RESP_MSG, Val.int msg_id] →
      (w.call C u hdr).ok = true →
      dispatch_reply C disp d k CALL_MSG msg_id method u
        = some (Step.stop { decoder := (d.pop_packet k).2, sent := [(w.call C u hdr).packer],
                            invoked := (w.call C u hdr).invoked.map (fun a => (pre.length, a)) })) := by
  have hcf := call_from_first C method u
    (C.serialize [] [Val.arr_size RESPONSE_SIZE, Val.int RESP_MSG, Val.int msg_id])
    { name := method, fn := w } post rfl pre 0 hpre
  constructor
  · intro hdr hh a b c
    subst hh
    simp only [dispatch_reply, RpcFunctionDispatcher.call, hdisp, if_true, hcf, a, b, c]
    simp
  · intro hdr hh a
    subst hh
    simp only [dispatch_reply, RpcFunctionDispatcher.call, hdisp, if_true, hcf, a]
    simp

/-- C8: when the argument array at the cursor declares a length other than the arity of the
wrapped function, the wrapper returns `false`, appends a Malformed-Call error (code 0xFD) and a
nil to the output, and does not invoke the function. -/
theorem wrapper_arity_mismatch (C : Codec) (w : RpcFunctionWrapper) (u u1 : C.Unpacker)
    (packer : List Nat) (n : Nat)
    (harr : C.probe u Kind.array = true)
    (hsz : C.deserialize u Ty.arr_size = (u1, some (Val.arr_size n)))
    (hne : n ≠ w.args.length) :
    (w.call C u packer).ok = false ∧
    (w.call C u packer).invoked = [] ∧
    ∃ traceback, (w.call C u packer).packer
      = C.serialize packer [Val.error ⟨0xFD, traceback⟩, Val.nil] := by
  unfold RpcFunctionWrapper.call
  simp only [harr, Bool.not_true, Bool.false_eq_true, if_false, hsz]
  by_cases h1 : n < w.args.length
  · simp only [h1, if_true]
    exact ⟨trivial, trivial, _, rfl⟩
  · have h2 : n > w.args.length := by omega
    simp only [h1, if_false, h2, if_true]
    exact ⟨trivial, trivial, _, rfl⟩

theorem wrapper_arity_mismatch_witness :
    (add_wrapper.call msgpack one_arg_unpacker []).ok = false ∧
    (add_wrapper.call msgpack one_arg_unpacker []).invoked = [] ∧
    ∃ traceback, (add_wrapper.call msgpack one_arg_unpacker []).packer
      = msgpack.serialize [] [Val.error ⟨0xFD, traceback⟩, Val.nil] :=
  wrapper_arity_mismatch msgpack add_wrapper one_arg_unpacker
    { one_arg_unpacker with curr_index := 1 } [] 1 (by decide) (by rfl) (by decide)

/-- C10: when the argument array at the cursor has the length of the arity and its values
decode, one after the other, as the expected types, the wrapper returns `true`, invokes the
function exactly once, on the decoded values in positional order, and appends a nil and the
function's result to the output, a nil and a nil when the function returns `void`. -/
theorem wrapper_invokes (C : Codec) (w : RpcFunctionWrapper) (u u1 : C.Unpacker)
    (packer : List Nat) (vs : List Val)
    (harr : C.probe u Kind.array = true)
    (hsz : C.deserialize u Ty.arr_size = (u1, some (Val.arr_size w.args.length)))
    (hargs : args_decode C w.args u1 = some vs) :
    (w.call C u packer).ok = true ∧
    (w.call C u packer).invoked = [vs] ∧
    (w.call C u packer).packer
      = C.serialize packer [Val.nil, match w.ret with
                                     | none => Val.nil
                                     | some _ => w.func vs] := by
  obtain ⟨u2, h2⟩ := deserialize_tuple_of_args_decode C w.args u1 [] vs hargs
  unfold RpcFunctionWrapper.call
  simp only [harr, Bool.not_true, Bool.false_eq_true, if_false, hsz, Nat.lt_irrefl, gt_iff_lt]
  unfold RpcFunctionWrapper.handle_call deserialize_all
  rw [h2]
  cases w.ret <;> simp

theorem wrapper_invokes_witness :
    (add_wrapper.call msgpack two_args_unpacker []).ok = true ∧
    (add_wrapper.call msgpack two_args_unpacker []).invoked = [[Val.int 2, Val.int 3]] ∧
    (add_wrapper.call msgpack two_args_unpacker []).packer
      = msgpack.serialize [] [Val.nil, match add_wrapper.ret with
                                       | none => Val.nil
                                       | some _ => add_wrapper.func [Val.int 2, Val.int 3]] :=
  wrapper_invokes msgpack add_wrapper two_args_unpacker
    { two_args_unpacker with curr_index := 1 } [] [Val.int 2, Val.int 3]
    (by decide) (by rfl) (by decide)

/-- C9 fails on the code: for the Call `[0, 7, "add", ["A", 3]]` against `add(int, int)` the
wrapper returns `false` with nothing written to the output, so no error with code 0xFD is
there, and `process_requests` sends nothing and leaves the Call in the buffer. -/
theorem type_mismatch_not_reported :
    (add_wrapper.call msgpack str_arg_unpacker []).ok = false ∧
    (add_wrapper.call msgpack str_arg_unpacker []).packer = [] ∧
    (∀ traceback, (add_wrapper.call msgpack str_arg_unpacker []).packer
      ≠ msgpack.serialize [] [Val.error ⟨0xFD, traceback⟩, Val.nil]) ∧
    str_arg_call.process_requests msgpack add_dispatcher
      = some { decoder := str_arg_call, sent := [], invoked := [] } := by
  have hp : (add_wrapper.call msgpack str_arg_unpacker []).packer = [] := by decide
  refine ⟨by decide, hp, ?_, by decide⟩
  intro traceback
  rw [hp]
  simp [Codec.serialize, msgpack, mpack, pack_arr_size]

/-- C9 as amended: when the argument array has the length of the arity but some element is not
unpackable as the type expected at its position, the wrapper returns `false`, writes nothing to
the output and does not invoke the function; `process_requests`, finding the output no longer
than the response header, takes the round for "parameters not ready yet" and goes on to the
next length without sending anything. -/
theorem type_mismatch_is_not_ready (C : Codec) (w : RpcFunctionWrapper) (u u1 : C.Unpacker)
    (packer : List Nat) (disp : RpcFunctionDispatcher) (pre post : List DispatchEntry)
    (method : List Nat) (d : RpcDecoder) (bytes_checked : Nat) (msg_id : Int)
    (harr : C.probe u Kind.array = true)
    (hsz : C.deserialize u Ty.arr_size = (u1, some (Val.arr_size w.args.length)))
    (hargs : args_unpackable C w.args u1 = false)
    (hdisp : disp.entries = pre ++ { name := method, fn := w } :: post)
    (hpre : ∀ x ∈ pre, x.name ≠ method) :
    (w.call C u packer).ok = false ∧
    (w.call C u packer).packer = packer ∧
    (w.call C u packer).invoked = [] ∧
    dispatch_reply C disp d bytes_checked CALL_MSG msg_id method u = some (Step.next []) := by
  obtain ⟨a, b, c⟩ := wrapper_call_not_ready C w u u1 packer harr hsz hargs
  obtain ⟨a1, b1, c1⟩ := wrapper_call_not_ready C w u u1
    (C.serialize [] [Val.arr_size RESPONSE_SIZE, Val.int RESP_MSG, Val.int msg_id]) harr hsz hargs
  exact ⟨a, b, c, (dispatch_reply_call C disp d bytes_checked msg_id method u pre post w hdisp
    hpre).1 _ rfl a1 b1 c1⟩

theorem type_mismatch_is_not_ready_witness :
    (add_wrapper.call msgpack str_arg_unpacker []).ok = false ∧
    (add_wrapper.call msgpack str_arg_unpacker []).packer = [] ∧
    (add_wrapper.call msgpack str_arg_unpacker []).invoked = [] ∧
    dispatch_reply msgpack add_dispatcher str_arg_call 11 CALL_MSG 7 (ascii "add")
      str_arg_unpacker = some (Step.next []) :=
  type_mismatch_is_not_ready msgpack add_wrapper str_arg_unpacker
    { str_arg_unpacker with curr_index := 1 } [] add_dispatcher [] [] (ascii "add")
    str_arg_call 11 7 (by decide) (by rfl) (by decide) (by rfl) (by simp)

/-! ### The MessagePack codec -/

theorem rd_one (a : Nat) (l : List Nat) : rd 1 (a :: l) = a := by simp [rd]

theorem rd_two (a b : Nat) (l : List Nat) : rd 2 (a :: b :: l) = a * 256 + b := by simp [rd]

theorem rd_four (a b c d : Nat) (l : List Nat) :
    rd 4 (a :: b :: c :: d :: l) = ((a * 256 + b) * 256 + c) * 256 + d := by simp [rd]

theorem be2_value (n : Nat) (h : n < 65536) : n / 256 % 256 * 256 + n % 256 = n := by omega

theorem be4_value (n : Nat) (h : n < 4294967296) :
    ((n / 16777216 % 256 * 256 + n / 65536 % 256) * 256 + n / 256 % 256) * 256 + n % 256 = n := by
  omega

theorem elem_size_fixstr (b : Nat) (rest : List Nat) (h1 : 0xa0 ≤ b) (h2 : b ≤ 0xbf) :
    elem_size (b :: rest) = 1 + (b - 0xa0) := by
  rw [elem_size]
  simp (disch := omega) only [if_pos, if_neg]

theorem elem_size_one (b : Nat) (rest : List Nat)
    (h : b ≤ 0x9f ∨ (0xc0 ≤ b ∧ b ≤ 0xc3) ∨ 0xe0 ≤ b) : elem_size (b :: rest) = 1 := by
  rw [elem_size]
  rcases h with h | h | h
  · by_cases h1 : b ≤ 0x7f
    · simp (disch := omega) only [if_pos, if_neg]
    · by_cases h2 : b ≤ 0x8f
      · simp (disch := omega) only [if_pos, if_neg]
      · simp (disch := omega) only [if_pos, if_neg]
  · simp (disch := omega) only [if_pos, if_neg]
  · simp (disch := omega) only [if_pos, if_neg]

theorem read_int_pack_int (i : Int) (post : List Nat) (h1 : -2147483648 ≤ i)
    (h2 : i < 2147483648) : read_int (pack_int i ++ post) = some i := by
  unfold pack_int
  split_ifs with c1 c2 c3 c4 c5 c6 c7 c8
  · have h3 : i.toNat ≤ 127 := by omega
    have h4 : (i.toNat : Int) = i := Int.toNat_of_nonneg c1
    simp only [List.singleton_append, read_int, h3, if_true, h4]
  · simp [read_int, rd_one]; omega
  · simp [read_int, be2, rd_two]; omega
  · simp [read_int, be4, rd_four, to_int32]; omega
  · omega
  · have h3 : ¬ (i + 256).toNat ≤ 127 := by omega
    have h4 : 224 ≤ (i + 256).toNat ∧ (i + 256).toNat ≤ 255 := by omega
    have h5 : ((i + 256).toNat : Int) = i + 256 := Int.toNat_of_nonneg (by omega)
    simp only [List.singleton_append, read_int, h3, if_false, h4, and_self, if_true, h5]
    simp
  · simp [read_int, rd_one]; omega
  · simp [read_int, be2, rd_two]; omega
  · simp [read_int, be4, rd_four, to_int32]; omega

theorem read_str_pack_str (s : List Nat) (post : List Nat) (h : s.length < 4294967296) :
    read_str (pack_str s ++ post) = some s := by
  unfold pack_str
  split_ifs with c1 c2 c3
  · simp [read_str]; omega
  · simp [read_str, rd_one]
  · simp [read_str, be2, rd_two, be2_value _ c3]
  · simp [read_str, be4, rd_four, be4_value _ h]

theorem read_arr_size_pack (n : Nat) (post : List Nat) (h : n < 4294967296) :
    read_arr_size (pack_arr_size n ++ post) = some n := by
  unfold pack_arr_size
  split_ifs with c1 c2
  · simp [read_arr_size]; omega
  · simp [read_arr_size, be2, rd_two, be2_value _ c2]
  · simp [read_arr_size, be4, rd_four, be4_value _ h]

theorem elem_size_pack_int (i : Int) (post : List Nat) (h1 : -2147483648 ≤ i)
    (h2 : i < 2147483648) : elem_size (pack_int i ++ post) = (pack_int i).length := by
  unfold pack_int
  split_ifs with c1 c2 c3 c4 c5 c6 c7 c8
  · exact elem_size_one _ _ (by omega)
  · simp [elem_size]
  · simp [elem_size, be2]
  · simp [elem_size, be4]
  · omega
  · exact elem_size_one _ _ (by omega)
  · simp [elem_size]
  · simp [elem_size, be2]
  · simp [elem_size, be4]

theorem elem_size_pack_str (s : List Nat) (post : List Nat) (h : s.length < 4294967296) :
    elem_size (pack_str s ++ post) = (pack_str s).length := by
  unfold pack_str
  split_ifs with c1 c2 c3
  · simp only [List.cons_append, List.length_cons]
    rw [elem_size_fixstr _ _ (by omega) (by omega)]; omega
  · simp [elem_size, rd_one]; omega
  · simp [elem_size, be2, rd_two, be2_value _ c3]; omega
  · simp [elem_size, be4, rd_four, be4_value _ h]; omega

theorem elem_size_pack_arr_size (n : Nat) (post : List Nat) :
    elem_size (pack_arr_size n ++ post) = (pack_arr_size n).length := by
  unfold pack_arr_size
  split_ifs with c1 c2
  · exact elem_size_one _ _ (by omega)
  · simp [elem_size, be2]
  · simp [elem_size, be4]

theorem unpackable_pack_int (i : Int) (post : List Nat) (h1 : -2147483648 ≤ i)
    (h2 : i < 2147483648) : unpackable_as Ty.int (pack_int i ++ post) = true := by
  unfold pack_int
  split_ifs with c1 c2 c3 c4 c5 c6 c7 c8
  · simp [unpackable_as, is_kind]; omega
  · simp [unpackable_as, is_kind]
  · simp [unpackable_as, is_kind, be2]
  · simp [unpackable_as, is_kind, be4]
  · omega
  · simp [unpackable_as, is_kind]; omega
  · simp [unpackable_as, is_kind]
  · simp [unpackable_as, is_kind, be2]
  · simp [unpackable_as, is_kind, be4]

theorem unpackable_pack_str (s : List Nat) (post : List Nat) :
    unpackable_as Ty.str (pack_str s ++ post) = true := by
  unfold pack_str
  split_ifs with c1 c2 c3
  · simp [unpackable_as, is_kind]; omega
  · simp [unpackable_as, is_kind]
  · simp [unpackable_as, is_kind, be2]
  · simp [unpackable_as, is_kind, be4]

theorem is_array_pack_arr_size (n : Nat) (post : List Nat) :
    is_kind Kind.array (pack_arr_size n ++ post) = true := by
  unfold pack_arr_size
  split_ifs with c1 c2
  · simp [is_kind]; omega
  · simp [is_kind, be2]
  · simp [is_kind, be4]

theorem not_nil_pack_arr_size (n : Nat) (post : List Nat) :
    is_kind Kind.nil (pack_arr_size n ++ post) = false := by
  unfold pack_arr_size
  split_ifs with c1 c2
  · simp [is_kind]; omega
  · simp [is_kind, be2]
  · simp [is_kind, be4]

/-- The bytes of a well-typed value are one element: not empty. -/
theorem mpack_pos (t : Ty) (v : Val) (h : well_typed t v) : 0 < (mpack v).length := by
  cases t <;> cases v <;> simp only [well_typed] at h
  · simp [mpack]
  · simp [mpack]
  · simp only [mpack, pack_int]; split_ifs <;> simp
  · simp only [mpack]; omega
  · simp only [mpack]; omega
  · simp only [mpack, pack_str]; split_ifs <;> simp
  · simp only [mpack, pack_arr_size]; split_ifs <;> simp

/-- The bytes of a well-typed value are one element: its size is their length. -/
theorem elem_size_mpack (t : Ty) (v : Val) (post : List Nat) (h : well_typed t v) :
    elem_size (mpack v ++ post) = (mpack v).length := by
  cases t <;> cases v <;> simp only [well_typed] at h
  · simp [mpack, elem_size]
  · rename_i b; cases b <;> simp [mpack, elem_size]
  · exact elem_size_pack_int _ _ h.1 h.2
  · rename_i bytes
    obtain ⟨h1, h2⟩ := h
    cases bytes with
    | nil => simp at h1
    | cons b rest =>
      simp only [List.head?_cons, Option.some.injEq] at h2
      subst h2
      simp [mpack, elem_size, h1]
  · rename_i bytes
    obtain ⟨h1, h2⟩ := h
    cases bytes with
    | nil => simp at h1
    | cons b rest =>
      simp only [List.head?_cons, Option.some.injEq] at h2
      subst h2
      simp [mpack, elem_size, h1]
  · exact elem_size_pack_str _ _ h
  · exact elem_size_pack_arr_size _ _

/-- A well-typed value is unpackable from its bytes. -/
theorem unpackable_mpack (t : Ty) (v : Val) (post : List Nat) (h : well_typed t v) :
    unpackable_as t (mpack v ++ post) = true := by
  cases t <;> cases v <;> simp only [well_typed] at h
  · simp [mpack, unpackable_as, is_kind]
  · rename_i b; cases b <;> simp [mpack, unpackable_as, is_kind]
  · exact unpackable_pack_int _ _ h.1 h.2
  · rename_i bytes
    obtain ⟨h1, h2⟩ := h
    cases bytes with
    | nil => simp at h1
    | cons b rest =>
      simp only [List.head?_cons, Option.some.injEq] at h2
      subst h2
      simp [mpack, unpackable_as, is_kind]
  · rename_i bytes
    obtain ⟨h1, h2⟩ := h
    cases bytes with
    | nil => simp at h1
    | cons b rest =>
      simp only [List.head?_cons, Option.some.injEq] at h2
      subst h2
      simp [mpack, unpackable_as, is_kind]
  · exact unpackable_pack_str _ _
  · exact is_array_pack_arr_size _ _

/-- A well-typed value is read back from its bytes. -/
theorem read1_mpack (t : Ty) (v : Val) (post : List Nat) (h : well_typed t v) :
    read1 t (mpack v ++ post) = some v := by
  cases t <;> cases v <;> simp only [well_typed] at h
  · simp [mpack, read1, is_kind]
  · rename_i b; cases b <;> simp [mpack, read1, is_kind]
  · simp [mpack, read1, read_int_pack_int _ _ h.1 h.2]
  · rename_i bytes
    obtain ⟨h1, h2⟩ := h
    cases bytes with
    | nil => simp at h1
    | cons b rest =>
      simp only [List.head?_cons, Option.some.injEq] at h2
      subst h2
      simp only [List.length_cons] at h1
      have h3 : rest.length = 4 := by omega
      simp [mpack, read1, is_kind, elem_size, List.take_append_eq_append_take, h3,
        List.take_of_length_le (Nat.le_of_eq h3)]
  · rename_i bytes
    obtain ⟨h1, h2⟩ := h
    cases bytes with
    | nil => simp at h1
    | cons b rest =>
      simp only [List.head?_cons, Option.some.injEq] at h2
      subst h2
      simp only [List.length_cons] at h1
      have h3 : rest.length = 8 := by omega
      simp [mpack, read1, is_kind, elem_size, List.take_append_eq_append_take, h3,
        List.take_of_length_le (Nat.le_of_eq h3)]
  · simp [mpack, read1, read_str_pack_str _ _ h]
  · simp [mpack, read1, read_arr_size_pack _ _ h]

theorem feed_loop_done (raw : List Nat) (size fuel i : Nat) (h : size ≤ i) :
    feed_loop raw size fuel i = ([], i) := by
  cases fuel with
  | zero => rfl
  | succ f =>
    have : ¬ i < size := by omega
    simp [feed_loop, this]

theorem feed_loop_elems :
    ∀ (ts : List (List Nat)) (pre post : List Nat) (fuel size : Nat),
      (∀ t ∈ ts, is_elem t) → size ≤ pre.length + ts.flatten.length →
      size - pre.length ≤ fuel →
      ∃ j, j ≤ ts.length ∧
        feed_loop (pre ++ ts.flatten ++ post) size fuel pre.length
          = (offsets pre.length (ts.take j), pre.length + (ts.take j).flatten.length) ∧
        size ≤ pre.length + (ts.take j).flatten.length ∧
        (pre.length < size → 1 ≤ j) := by
  intro ts
  induction ts with
  | nil =>
    intro pre post fuel size _ hs _
    simp only [List.flatten_nil, List.length_nil, Nat.add_zero] at hs
    exact ⟨0, by simp, by simp [feed_loop_done _ _ _ _ hs, offsets], by simpa using hs,
      by intro h; omega⟩
  | cons t ts ih =>
    intro pre post fuel size hel hs hf
    have ht : is_elem t := hel t (by simp)
    by_cases hlt : pre.length < size
    · cases fuel with
      | zero => omega
      | succ f =>
        have hdrop : (pre ++ (t :: ts).flatten ++ post).drop pre.length
            = t ++ (ts.flatten ++ post) := by
          simp [List.drop_append_eq_append_drop]
        have hstep : feed_loop (pre ++ (t :: ts).flatten ++ post) size (f + 1) pre.length
            = (pre.length :: (feed_loop (pre ++ (t :: ts).flatten ++ post) size f
                (pre.length + t.length)).1,
               (feed_loop (pre ++ (t :: ts).flatten ++ post) size f
                (pre.length + t.length)).2) := by
          rw [feed_loop]
          simp only [hlt, if_true, hdrop, ht.2]
        by_cases hin : size ≤ pre.length + t.length
        · refine ⟨1, by simp, ?_, by simpa using hin, fun _ => Nat.le_refl 1⟩
          rw [hstep, feed_loop_done _ _ _ _ hin]
          simp [offsets]
        · have hraw : pre ++ (t :: ts).flatten ++ post = (pre ++ t) ++ ts.flatten ++ post := by
            simp
          have hlen : (pre ++ t).length = pre.length + t.length := by simp
          have htpos := ht.1
          obtain ⟨j, hj1, hj2, hj3, _⟩ := ih (pre ++ t) post f size
            (fun x hx => hel x (by simp [hx]))
            (by simp only [List.flatten_cons, List.length_append] at hs; rw [hlen]; omega)
            (by rw [hlen]; omega)
          refine ⟨j + 1, by simp; omega, ?_, ?_, fun _ => by omega⟩
          · rw [hstep, hraw, ← hlen, hj2]
            simp [offsets, hlen]; omega
          · rw [hlen] at hj3
            simp only [List.take_succ_cons, List.flatten_cons, List.length_append]
            omega
    · have hge : size ≤ pre.length := by omega
      exact ⟨0, by simp, by simp [feed_loop_done _ _ _ _ hge, offsets], by simpa using hge,
        by intro h; omega⟩

theorem is_elem_mpack (vs : List Val) (ts : List Ty) (h : List.Forall₂ well_typed ts vs) :
    ∀ t ∈ vs.map mpack, is_elem t := by
  induction h with
  | nil => intro t ht; simp at ht
  | cons hd _ ih =>
    intro t ht
    simp only [List.map_cons, List.mem_cons] at ht
    rcases ht with rfl | ht
    · exact ⟨mpack_pos _ _ hd, fun post => elem_size_mpack _ _ post hd⟩
    · exact ih t ht

theorem take_flatten_lt :
    ∀ (ts : List (List Nat)) (j : Nat), (∀ t ∈ ts, 0 < t.length) → j < ts.length →
      (ts.take j).flatten.length < ts.flatten.length := by
  intro ts
  induction ts with
  | nil => intro j _ h; simp at h
  | cons t ts ih =>
    intro j hpos hj
    cases j with
    | zero =>
      have := hpos t (by simp)
      simp; omega
    | succ j =>
      have := ih j (fun x hx => hpos x (by simp [hx])) (by simpa using hj)
      simp only [List.take_succ_cons, List.flatten_cons, List.length_append]
      omega

/-- Feeding a length within the bytes of well-typed values: when it succeeds, the unpacker
indexes the first `j` of them, and they take exactly that length. -/
theorem mfeed_values (vs : List Val) (ts : List Ty) (post : List Nat) (k : Nat)
    (h : List.Forall₂ well_typed ts vs) (hk1 : 1 ≤ k) (hk2 : k ≤ ((vs.map mpack).flatten).length)
    (hfed : (mfeed ((vs.map mpack).flatten ++ post) k).2 = true) :
    ∃ j, 1 ≤ j ∧ j ≤ vs.length ∧ (((vs.map mpack).take j).flatten).length = k ∧
      (mfeed ((vs.map mpack).flatten ++ post) k).1 = tok_unpacker vs post j 0 := by
  obtain ⟨j, hj1, hj2, _, hj4⟩ := feed_loop_elems (vs.map mpack) [] post k k
    (is_elem_mpack vs ts h) (by simpa using hk2) (by simp)
  simp only [List.nil_append, List.length_nil, Nat.zero_add] at hj2 hj4
  simp only [mfeed, hj2, decide_eq_true_eq] at hfed ⊢
  refine ⟨j, hj4 (by omega), by simpa using hj1, hfed, ?_⟩
  simp [tok_unpacker, hfed]

/-- Feeding exactly the bytes of well-typed values succeeds and indexes all of them. -/
theorem mfeed_all (vs : List Val) (ts : List Ty) (post : List Nat)
    (h : List.Forall₂ well_typed ts vs) :
    mfeed ((vs.map mpack).flatten ++ post) ((vs.map mpack).flatten).length
      = (tok_unpacker vs post vs.length 0, true) := by
  have hel := is_elem_mpack vs ts h
  obtain ⟨j, hj1, hj2, hj3, _⟩ := feed_loop_elems (vs.map mpack) [] post
    ((vs.map mpack).flatten).length ((vs.map mpack).flatten).length hel (by simp) (by simp)
  simp only [List.nil_append, List.length_nil, Nat.zero_add] at hj2 hj3
  have hj : j = vs.length := by
    by_contra hne1
    have hlt : j < (vs.map mpack).length := by
      simp only [List.length_map] at hj1 ⊢; omega
    have := take_flatten_lt (vs.map mpack) j (fun t ht => (hel t ht).1) hlt
    omega
  subst hj
  have htake : (vs.map mpack).take vs.length = vs.map mpack := by
    apply List.take_of_length_le; simp
  simp only [mfeed, hj2, htake, decide_True]
  simp [tok_unpacker, htake]

theorem offsets_length : ∀ (ts : List (List Nat)) (p : Nat), (offsets p ts).length = ts.length := by
  intro ts
  induction ts with
  | nil => intro p; rfl
  | cons t ts ih => intro p; simp [offsets, ih]

theorem offsets_get :
    ∀ (ts : List (List Nat)) (p i : Nat), i < ts.length →
      (offsets p ts).get? i = some (p + (ts.take i).flatten.length) := by
  intro ts
  induction ts with
  | nil => intro p i h; simp at h
  | cons t ts ih =>
    intro p i h
    cases i with
    | zero => simp [offsets]
    | succ i =>
      simp only [offsets, List.get?_cons_succ]
      rw [ih _ _ (by simpa using h)]
      simp; omega

theorem drop_take_flatten :
    ∀ (ts : List (List Nat)) (post : List Nat) (i : Nat),
      (ts.flatten ++ post).drop ((ts.take i).flatten.length) = (ts.drop i).flatten ++ post := by
  intro ts
  induction ts with
  | nil => intro post i; simp
  | cons t ts ih =>
    intro post i
    cases i with
    | zero => simp
    | succ i =>
      simp only [List.take_succ_cons, List.flatten_cons, List.length_append, List.drop_succ_cons,
        List.append_assoc]
      rw [List.drop_append_eq_append_drop]
      simp only [List.drop_of_length_le (Nat.le_add_right _ _), List.nil_append,
        Nat.add_sub_cancel_left]
      exact ih post i

/-- The element at a position among those indexed is the bytes of the value at that position,
followed by what comes after. -/
theorem tok_unpacker_elem (vs : List Val) (post : List Nat) (j c i : Nat) (v : Val)
    (hv : vs.get? i = some v) (hi : i < j) (hj : j ≤ vs.length) :
    (tok_unpacker vs post j c).elem i
      = some (mpack v ++ (((vs.drop (i + 1)).map mpack).flatten ++ post)) := by
  have hlen : i < ((vs.map mpack).take j).length := by simp; omega
  have htake : ((vs.map mpack).take j).take i = (vs.map mpack).take i := by
    rw [List.take_take]; congr 1; omega
  have hdrop : vs.drop i = v :: vs.drop (i + 1) := by
    have hi2 : i < vs.length := by omega
    rw [List.get?_eq_get hi2] at hv
    simp only [Option.some.injEq] at hv
    rw [← hv]
    exact List.drop_eq_getElem_cons hi2
  simp only [MUnpacker.elem, tok_unpacker, offsets_get _ _ _ hlen, htake, Nat.zero_add,
    drop_take_flatten, ← List.map_drop, hdrop]
  simp

/-- Past the elements indexed there is none. -/
theorem tok_unpacker_elem_none (vs : List Val) (post : List Nat) (j c i : Nat)
    (hi : j ≤ i) : (tok_unpacker vs post j c).elem i = none := by
  have hlen : (offsets 0 ((vs.map mpack).take j)).length ≤ i := by
    rw [offsets_length]; simp; omega
  simp [MUnpacker.elem, tok_unpacker, List.getElem?_eq_none hlen]

theorem msgpack_size_tok (vs : List Val) (post : List Nat) (j c : Nat) (hj : j ≤ vs.length) :
    msgpack.size (tok_unpacker vs post j c) = j := by
  simp [msgpack, tok_unpacker, offsets_length]; omega

/-- Reading a well-typed value at the cursor yields it and moves the cursor by one. -/
theorem mdeserialize_tok (vs : List Val) (post : List Nat) (j c : Nat) (t : Ty) (v : Val)
    (hv : vs.get? c = some v) (ht : well_typed t v) (hc : c < j) (hj : j ≤ vs.length) :
    msgpack.deserialize (tok_unpacker vs post j c) t = (tok_unpacker vs post j (c + 1), some v) := by
  have he := tok_unpacker_elem vs post j c c v hv hc hj
  have hr := read1_mpack t v (((vs.drop (c + 1)).map mpack).flatten ++ post) ht
  have hcur : (tok_unpacker vs post j c).curr_index = c := rfl
  have hdec : (tok_unpacker vs post j c).b_decoded = true := rfl
  cases t <;> cases v <;> simp only [well_typed] at ht <;>
    simp only [msgpack, mdeserialize, hcur, hdec, he, hr, Option.some_bind, Bool.not_true,
      Bool.false_eq_true, if_false] <;> rfl

/-- Reading past the elements indexed fails and leaves the unpacker. -/
theorem mdeserialize_past (vs : List Val) (post : List Nat) (j c : Nat) (t : Ty) (hc : j ≤ c) :
    msgpack.deserialize (tok_unpacker vs post j c) t = (tok_unpacker vs post j c, none) := by
  have he := tok_unpacker_elem_none vs post j c c hc
  have hcur : (tok_unpacker vs post j c).curr_index = c := rfl
  have hdec : (tok_unpacker vs post j c).b_decoded = true := rfl
  cases t <;> simp only [msgpack, mdeserialize, hcur, hdec, he, Option.none_bind, Bool.not_true,
      Bool.false_eq_true, if_false]

theorem munpackable_tok (vs : List Val) (post : List Nat) (j c : Nat) (t : Ty) (v : Val)
    (hv : vs.get? c = some v) (ht : well_typed t v) (hc : c < j) (hj : j ≤ vs.length) :
    msgpack.unpackable (tok_unpacker vs post j c) t = true := by
  have he := tok_unpacker_elem vs post j c c v hv hc hj
  have hcur : (tok_unpacker vs post j c).curr_index = c := rfl
  simp only [msgpack, munpackable, hcur, he, unpackable_mpack t v _ ht]

theorem munpackable_past (vs : List Val) (post : List Nat) (j c : Nat) (t : Ty) (hc : j ≤ c) :
    msgpack.unpackable (tok_unpacker vs post j c) t = false := by
  have he := tok_unpacker_elem_none vs post j c c hc
  have hcur : (tok_unpacker vs post j c).curr_index = c := rfl
  simp only [msgpack, munpackable, hcur, he]

theorem mprobe_array_tok (vs : List Val) (post : List Nat) (j c n : Nat)
    (hv : vs.get? c = some (Val.arr_size n)) (hc : c < j) (hj : j ≤ vs.length) :
    msgpack.probe (tok_unpacker vs post j c) Kind.array = true := by
  have he := tok_unpacker_elem vs post j c c _ hv hc hj
  have hcur : (tok_unpacker vs post j c).curr_index = c := rfl
  simp only [msgpack, mprobe, hcur, he, mpack, is_array_pack_arr_size]

theorem msgpack_feed : msgpack.feed = mfeed := rfl

theorem msgpack_pack : msgpack.pack = mpack := rfl

theorem args_decode_tok (vs : List Val) (post : List Nat) (j : Nat) (hj : j ≤ vs.length) :
    ∀ (tys : List Ty) (args : List Val), List.Forall₂ well_typed tys args →
      ∀ c, vs.drop c = args → c + args.length ≤ j →
        args_decode msgpack tys (tok_unpacker vs post j c) = some args := by
  intro tys args h
  induction h with
  | nil => intro c _ _; rfl
  | @cons t a ts as hd _ ih =>
    intro c hdrop hlen
    simp only [List.length_cons] at hlen
    have hc : c < vs.length := by omega
    have hget : vs.get? c = some a := by
      rw [List.drop_eq_getElem_cons hc] at hdrop
      simp only [List.cons.injEq] at hdrop
      rw [List.get?_eq_getElem?, List.getElem?_eq_getElem hc, hdrop.1]
    have hdrop1 : vs.drop (c + 1) = as := by
      rw [List.drop_eq_getElem_cons hc] at hdrop
      simp only [List.cons.injEq] at hdrop
      exact hdrop.2
    rw [args_decode, munpackable_tok vs post j c t a hget hd (by omega) hj]
    simp only [if_true, mdeserialize_tok vs post j c t a hget hd (by omega) hj]
    rw [ih (c + 1) hdrop1 (by omega)]
    rfl

theorem args_unpackable_tok (vs : List Val) (post : List Nat) (j : Nat) (hj : j ≤ vs.length) :
    ∀ (tys : List Ty) (args : List Val), List.Forall₂ well_typed tys args →
      ∀ c, vs.drop c = args → c ≤ j → j < c + args.length →
        args_unpackable msgpack tys (tok_unpacker vs post j c) = false := by
  intro tys args h
  induction h with
  | nil => intro c _ h1 h2; simp at h2; omega
  | @cons t a ts as hd _ ih =>
    intro c hdrop hle hlt
    simp only [List.length_cons] at hlt
    by_cases hcj : c = j
    · rw [args_unpackable, munpackable_past vs post j c t (by omega)]
      rfl
    · have hc : c < vs.length := by omega
      have hget : vs.get? c = some a := by
        rw [List.drop_eq_getElem_cons hc] at hdrop
        simp only [List.cons.injEq] at hdrop
        rw [List.get?_eq_getElem?, List.getElem?_eq_getElem hc, hdrop.1]
      have hdrop1 : vs.drop (c + 1) = as := by
        rw [List.drop_eq_getElem_cons hc] at hdrop
        simp only [List.cons.injEq] at hdrop
        exact hdrop.2
      rw [args_unpackable, munpackable_tok vs post j c t a hget hd (by omega) hj,
        mdeserialize_tok vs post j c t a hget hd (by omega) hj]
      simp only [Bool.true_and]
      exact ih (c + 1) hdrop1 (by omega) (by omega)

/-- The loop of `process_requests` stops in the first round that ends in `break`. -/
theorem process_requests_loop_stop (C : Codec) (disp : RpcFunctionDispatcher) (d : RpcDecoder)
    (K : Nat) (o : Outcome) (hK : process_requests_body C disp d K = some (Step.stop o)) :
    ∀ (n c : Nat) (inv : List (Nat × List Val)), c < K → K ≤ c + n →
      (∀ k, c < k → k < K → process_requests_body C disp d k = some (Step.next [])) →
      process_requests_loop C disp d n c inv = some { o with invoked := inv ++ o.invoked } := by
  intro n
  induction n with
  | zero => intro c inv h1 h2 _; omega
  | succ n ih =>
    intro c inv h1 h2 hnext
    rw [process_requests_loop]
    by_cases hc : c + 1 = K
    · rw [hc, hK]
    · rw [hnext (c + 1) (by omega) (by omega)]
      simp only [List.append_nil]
      exact ih (c + 1) inv (by omega) (by omega) (fun k hk1 hk2 => hnext k (by omega) hk2)

/-! ### `process_requests` on a Call -/

theorem call_values_typed (tys : List Ty) (msg_id : Int) (method : List Nat) (args : List Val)
    (hid : -2147483648 ≤ msg_id ∧ msg_id < 2147483648) (hmethod : method.length < 4294967296)
    (hn : args.length < 4294967296) (hargs : List.Forall₂ well_typed tys args) :
    List.Forall₂ well_typed (Ty.arr_size :: Ty.int :: Ty.int :: Ty.str :: Ty.arr_size :: tys)
      (call_values msg_id method args) := by
  unfold call_values
  refine List.Forall₂.cons ?_ (List.Forall₂.cons ?_ (List.Forall₂.cons ?_
    (List.Forall₂.cons ?_ (List.Forall₂.cons ?_ hargs))))
  · simp [well_typed]
  · simp [well_typed]
  · exact hid
  · exact hmethod
  · exact hn

theorem request_data_call (msg_id : Int) (method : List Nat) (args : List Val) :
    request_data msgpack CALL_MSG msg_id method args
      = ((call_values msg_id method args).map mpack).flatten := by
  simp [request_data, call_values, Codec.serialize, msgpack_pack, REQUEST_SIZE, CALL_MSG]

/-- A round of `process_requests` over the first `j` elements of a Call whose method is first
bound to a wrapper of matching argument types: with elements missing the round ends in
`continue` and nothing happens; with all of them the function is invoked, the Response is
sent and the bytes checked are popped. -/
theorem call_body_tok (d : RpcDecoder) (disp : RpcFunctionDispatcher)
    (pre post : List DispatchEntry) (w : RpcFunctionWrapper) (msg_id : Int) (method : List Nat)
    (args : List Val) (rest : List Nat) (j k : Nat)
    (hid : -2147483648 ≤ msg_id ∧ msg_id < 2147483648) (hmethod : method.length < 4294967296)
    (hn : args.length < 4294967296) (hargs : List.Forall₂ well_typed w.args args)
    (hdisp : disp.entries = pre ++ { name := method, fn := w } :: post)
    (hpre : ∀ x ∈ pre, x.name ≠ method)
    (hj1 : 1 ≤ j) (hj2 : j ≤ 5 + args.length)
    (hfeed : msgpack.feed d.raw_buffer k
      = (tok_unpacker (call_values msg_id method args) rest j 0, true)) :
    process_requests_body msgpack disp d k =
      if j < 5 + args.length then some (Step.next [])
      else some (Step.stop
        { decoder := (d.pop_packet k).2
          sent := [send_response_data msgpack msg_id RpcError.default
                    (match w.ret with
                     | none => Val.nil
                     | some _ => w.func args)]
          invoked := [(pre.length, args)] }) := by
  have hlen : (call_values msg_id method args).length = 5 + args.length := by
    simp [call_values]; omega
  have hjl : j ≤ (call_values msg_id method args).length := by omega
  have hsame := List.Forall₂.length_eq hargs
  have e0 := mdeserialize_tok (call_values msg_id method args) rest j 0 Ty.arr_size
    (Val.arr_size 4) (by simp [call_values]) (by simp [well_typed]) (by omega) hjl
  unfold process_requests_body
  simp only [hfeed, Bool.not_true, Bool.false_eq_true, if_false, Codec.deserialize_seq, e0]
  by_cases h2 : j < 2
  · have e1 := mdeserialize_past (call_values msg_id method args) rest j 1 Ty.int (by omega)
    have hlt : j < 5 + args.length := by omega
    simp only [Nat.zero_add, e1, hlt, if_true]
  have e1 := mdeserialize_tok (call_values msg_id method args) rest j 1 Ty.int
    (Val.int 0) (by simp [call_values]) (by simp [well_typed]) (by omega) hjl
  simp only [Nat.zero_add, e1, REQUEST_SIZE, CALL_MSG, and_self, if_true]
  by_cases h3 : j < 3
  · have e2 := mdeserialize_past (call_values msg_id method args) rest j 2 Ty.int (by omega)
    have hlt : j < 5 + args.length := by omega
    simp only [Nat.reduceAdd, e2, hlt, if_true]
  have e2 := mdeserialize_tok (call_values msg_id method args) rest j 2 Ty.int
    (Val.int msg_id) (by simp [call_values]) hid (by omega) hjl
  simp only [Nat.reduceAdd, e2]
  by_cases h4 : j < 4
  · have e3 := mdeserialize_past (call_values msg_id method args) rest j 3 Ty.str (by omega)
    have hlt : j < 5 + args.length := by omega
    simp only [e3, hlt, if_true]
  have e3 := mdeserialize_tok (call_values msg_id method args) rest j 3 Ty.str
    (Val.str method) (by simp [call_values]) hmethod (by omega) hjl
  simp only [e3, msgpack_size_tok _ _ _ _ hjl]
  by_cases h5 : j < 5
  · have hlt : j < 5 + args.length := by omega
    simp only [h5, hlt, if_true]
  simp only [h5, if_false]
  have harr := mprobe_array_tok (call_values msg_id method args) rest j 4 args.length
    (by simp [call_values]) (by omega) hjl
  have e4 := mdeserialize_tok (call_values msg_id method args) rest j 4 Ty.arr_size
    (Val.arr_size args.length) (by simp [call_values]) hn (by omega) hjl
  rw [← hsame] at e4
  have hdrop : (call_values msg_id method args).drop 5 = args := by simp [call_values]
  have hreply := dispatch_reply_call msgpack disp d k msg_id method
    (tok_unpacker (call_values msg_id method args) rest j 4) pre post w hdisp hpre
  by_cases hlt : j < 5 + args.length
  · simp only [hlt, if_true]
    have hun := args_unpackable_tok (call_values msg_id method args) rest j hjl w.args args
      hargs 5 hdrop (by omega) hlt
    obtain ⟨a, b, c⟩ := wrapper_call_not_ready msgpack w _ _
      (msgpack.serialize [] [Val.arr_size RESPONSE_SIZE, Val.int RESP_MSG, Val.int msg_id])
      harr e4 hun
    exact hreply.1 _ rfl a b c
  · simp only [hlt, if_false]
    have hdec := args_decode_tok (call_values msg_id method args) rest j hjl w.args args
      hargs 5 hdrop (by omega)
    obtain ⟨a, b, c⟩ := wrapper_call_decoded msgpack w _ _
      (msgpack.serialize [] [Val.arr_size RESPONSE_SIZE, Val.int RESP_MSG, Val.int msg_id])
      args harr e4 hdec
    have hr := hreply.2 _ rfl a
    rw [b, c] at hr
    refine hr.trans ?_
    simp [send_response_data, RpcError.default, NO_ERR]

theorem process_requests_body_unfed (C : Codec) (disp : RpcFunctionDispatcher) (d : RpcDecoder)
    (k : Nat) (h : (C.feed d.raw_buffer k).2 = false) :
    process_requests_body C disp d k = some (Step.next []) := by
  simp [process_requests_body, h]

/-- The Calls on which `process_requests` answers as it should: a complete, well-formed Call
`[0, id, method, args]` at the head of the buffer, classified as a Call, whose method is bound
to a function of matching arity and of parameter types that take one element each
(`well_typed`: nil, bool, int, string, float, double). `process_requests` invokes that function
exactly once, on the decoded arguments, hands the transport exactly one Response
`[1, id, nil, f(args)]` with the same id, and evicts exactly the bytes of the Call. The Call is
the bytes `send_call` serializes over the MessagePack codec, for a 32-bit id; `pre.length` is
the index of the entry the method is first bound in. -/
theorem call_is_answered (d : RpcDecoder) (disp : RpcFunctionDispatcher)
    (pre post : List DispatchEntry) (w : RpcFunctionWrapper) (msg_id : Int) (method : List Nat)
    (args : List Val) (rest : List Nat)
    (hid : -2147483648 ≤ msg_id ∧ msg_id < 2147483648) (hmethod : method.length < 4294967296)
    (hn : args.length < 4294967296) (hargs : List.Forall₂ well_typed w.args args)
    (hbuf : d.raw_buffer = request_data msgpack CALL_MSG msg_id method args ++ rest)
    (hstored : (request_data msgpack CALL_MSG msg_id method args).length ≤ d.bytes_stored)
    (hcap : d.bytes_stored ≤ d.BufferSize)
    (htype : d.packet_type = CALL_MSG)
    (hdisp : disp.entries = pre ++ { name := method, fn := w } :: post)
    (hpre : ∀ x ∈ pre, x.name ≠ method) :
    d.process_requests msgpack disp = some
      { decoder := (d.pop_packet (request_data msgpack CALL_MSG msg_id method args).length).2
        sent := [send_response_data msgpack msg_id RpcError.default
                  (match w.ret with
                   | none => Val.nil
                   | some _ => w.func args)]
        invoked := [(pre.length, args)] } ∧
    (d.pop_packet (request_data msgpack CALL_MSG msg_id method args).length).2.bytes_stored
      = d.bytes_stored - (request_data msgpack CALL_MSG msg_id method args).length ∧
    (d.pop_packet (request_data msgpack CALL_MSG msg_id method args).length).2.raw_buffer.take
        (d.bytes_stored - (request_data msgpack CALL_MSG msg_id method args).length)
      = (d.raw_buffer.take d.bytes_stored).drop
          (request_data msgpack CALL_MSG msg_id method args).length := by
  obtain ⟨_, p2, p3, _⟩ := pop_packet_spec d _ hstored hcap
  refine ⟨?_, p2, p3⟩
  rw [request_data_call] at hbuf hstored ⊢
  have htyped := call_values_typed w.args msg_id method args hid hmethod hn hargs
  have hlen : (call_values msg_id method args).length = 5 + args.length := by
    simp [call_values]; omega
  have hel := is_elem_mpack _ _ htyped
  have hpos : 0 < (((call_values msg_id method args).map mpack).flatten).length := by
    have := (hel (mpack (Val.arr_size 4)) (by simp [call_values])).1
    simp only [call_values, List.map_cons, List.flatten_cons, List.length_append]
    omega
  unfold RpcDecoder.process_requests
  have hg : ¬ (d.packet_type ≠ CALL_MSG ∧ d.packet_type ≠ NOTIFY_MSG) := by simp [htype]
  simp only [hg, if_false]
  have hstop : process_requests_body msgpack disp d
      (((call_values msg_id method args).map mpack).flatten).length = some (Step.stop
        { decoder := (d.pop_packet (((call_values msg_id method args).map mpack).flatten).length).2
          sent := [send_response_data msgpack msg_id RpcError.default
                    (match w.ret with
                     | none => Val.nil
                     | some _ => w.func args)]
          invoked := [(pre.length, args)] }) := by
    have hfeed : msgpack.feed d.raw_buffer
        (((call_values msg_id method args).map mpack).flatten).length
        = (tok_unpacker (call_values msg_id method args) rest (5 + args.length) 0, true) := by
      rw [msgpack_feed, hbuf, mfeed_all _ _ rest htyped, hlen]
    rw [call_body_tok d disp pre post w msg_id method args rest (5 + args.length) _ hid hmethod
      hn hargs hdisp hpre (by omega) (by omega) hfeed]
    simp
  have hloop := process_requests_loop_stop msgpack disp d _ _ hstop d.bytes_stored 0 [] hpos
    (by omega) (by
      intro k hk1 hk2
      cases hfed : (msgpack.feed d.raw_buffer k).2 with
      | false => exact process_requests_body_unfed msgpack disp d k hfed
      | true =>
        rw [msgpack_feed, hbuf] at hfed
        obtain ⟨j, hj1, hj2, hj3, hj4⟩ := mfeed_values _ _ rest k htyped (by omega) (by omega) hfed
        have hjlt : j < 5 + args.length := by
          by_contra hge
          have : ((call_values msg_id method args).map mpack).take j
              = (call_values msg_id method args).map mpack := by
            apply List.take_of_length_le; simp only [List.length_map]; omega
          rw [this] at hj3
          omega
        have hfeed : msgpack.feed d.raw_buffer k
            = (tok_unpacker (call_values msg_id method args) rest j 0, true) := by
          rw [msgpack_feed, hbuf]
          exact Prod.ext hj4 hfed
        rw [call_body_tok d disp pre post w msg_id method args rest j k hid hmethod
          hn hargs hdisp hpre hj1 (by omega) hfeed]
        simp [hjlt])
  rw [hloop]
  simp

theorem call_is_answered_witness :
    add_call.process_requests msgpack add_dispatcher = some
      { decoder := (add_call.pop_packet
          (request_data msgpack CALL_MSG 7 (ascii "add") [Val.int 2, Val.int 3]).length).2
        sent := [send_response_data msgpack 7 RpcError.default
                  (match add_wrapper.ret with
                   | none => Val.nil
                   | some _ => add_wrapper.func [Val.int 2, Val.int 3])]
        invoked := [(0, [Val.int 2, Val.int 3])] } ∧
    (add_call.pop_packet
        (request_data msgpack CALL_MSG 7 (ascii "add") [Val.int 2, Val.int 3]).length).2.bytes_stored
      = add_call.bytes_stored
        - (request_data msgpack CALL_MSG 7 (ascii "add") [Val.int 2, Val.int 3]).length ∧
    (add_call.pop_packet
        (request_data msgpack CALL_MSG 7 (ascii "add")
          [Val.int 2, Val.int 3]).length).2.raw_buffer.take
        (add_call.bytes_stored
          - (request_data msgpack CALL_MSG 7 (ascii "add") [Val.int 2, Val.int 3]).length)
      = (add_call.raw_buffer.take add_call.bytes_stored).drop
          (request_data msgpack CALL_MSG 7 (ascii "add") [Val.int 2, Val.int 3]).length :=
  call_is_answered add_call add_dispatcher [] [] add_wrapper 7 (ascii "add")
    [Val.int 2, Val.int 3] [0x94, 0x00, 0, 0, 0, 0]
    (by decide) (by decide) (by decide)
    (List.Forall₂.cons (by decide) (List.Forall₂.cons (by decide) List.Forall₂.nil))
    (by decide) (by decide) (by decide) (by decide) (by rfl) (by simp)

/-- The Call of "add" with `[2, 3]` against `add(a, b) = a + b` is answered with the Response
`[1, 7, nil, 5]`, after one invocation of `add` on `(2, 3)`, and its ten bytes are evicted. -/
theorem add_call_answered :
    add_call.process_requests msgpack add_dispatcher = some
      { decoder := { add_call with
          raw_buffer := [0x94, 0x00, 0x07, 0xa3, 97, 100, 100, 0x92, 0x02, 0x03, 0x94, 0x00,
                         0, 0, 0, 0],
          bytes_stored := 2, packet_type := NO_MSG }
        sent := [[0x94, 0x01, 0x07, 0xc0, 0x05]]
        invoked := [(0, [Val.int 2, Val.int 3])] } := by
  decide

/-- C2 fails on the code: with the Call of the unbound method "missing" in the buffer up to the
header of its argument array, `process_requests` sends the Function-Not-Found Response, finds
no complete packet to discard (`get_packet_size` is 0) and pops nothing, only clearing the
cached type; the next `parse_packet` and `process_requests` find the same Call and send the
same Response again. -/
theorem unbound_call_answered_twice :
    missing_call.process_requests msgpack add_dispatcher = some
      { decoder := { missing_call with packet_type := NO_MSG, arr_sz := 2 }
        sent := [missing_response]
        invoked := [] } ∧
    (({ missing_call with packet_type := NO_MSG, arr_sz := 2 } : RpcDecoder).parse_packet
        msgpack).process_requests msgpack add_dispatcher = some
      { decoder := { missing_call with packet_type := NO_MSG, arr_sz := 2 }
        sent := [missing_response]
        invoked := [] } := by
  decide!

/-- The eviction also fails on a complete Call with more than four arguments: `unpackArray`
keeps its loop bound in a static, the scan of the argument array overwrites the bound 4 of the
envelope with 5, the scan of the envelope then asks for a fifth object and fails, so
`get_packet_size` is 0 and nothing is popped; the Call `[0, 1, "m", [1, 2, 3, 4, 5]]` of an
unbound method is answered again on every following round. -/
theorem five_args_call_answered_twice :
    five_args_call.process_requests msgpack add_dispatcher = some
      { decoder := { five_args_call with packet_type := NO_MSG, arr_sz := 5 }
        sent := [[0x94, 0x01, 0x01, 0x92, 0xcc, 0xfe, 0xa1, 109, 0xc0]]
        invoked := [] } ∧
    (({ five_args_call with packet_type := NO_MSG, arr_sz := 5 } : RpcDecoder).parse_packet
        msgpack).process_requests msgpack add_dispatcher = some
      { decoder := { five_args_call with packet_type := NO_MSG, arr_sz := 5 }
        sent := [[0x94, 0x01, 0x01, 0x92, 0xcc, 0xfe, 0xa1, 109, 0xc0]]
        invoked := [] } := by
  decide!

/-! ### Round trip of a Response -/

theorem send_response_data_values (msg_id : Int) (error : RpcError) (result : Val) :
    send_response_data msgpack msg_id error result
      = ((response_values msg_id error result).map mpack).flatten := by
  unfold send_response_data response_values
  split_ifs <;> simp [Codec.serialize, msgpack_pack, RESPONSE_SIZE, RESP_MSG, mpack]

theorem response_values_typed (msg_id : Int) (error : RpcError) (result : Val) (RType : Ty)
    (hid : -2147483648 ≤ msg_id ∧ msg_id < 2147483648) (hres : well_typed RType result)
    (herr : error.code ≠ NO_ERR → (-2147483648 ≤ error.code ∧ error.code < 2147483648) ∧
      error.traceback.length < 4294967296) :
    List.Forall₂ well_typed (response_types error RType) (response_values msg_id error result) := by
  unfold response_types response_values
  split_ifs with h
  · exact .cons (by simp [well_typed]) (.cons (by simp [well_typed]) (.cons hid
      (.cons (by simp [well_typed]) (.cons hres .nil))))
  · exact .cons (by simp [well_typed]) (.cons (by simp [well_typed]) (.cons hid
      (.cons (by simp [well_typed]) (.cons (herr h).1 (.cons (herr h).2
        (.cons (by simp [well_typed]) .nil))))))

/-- Reading an `RpcError` at the cursor takes the array header of size 2, the code and the
traceback. -/
theorem mdeserialize_error_tok (vs : List Val) (post : List Nat) (j c : Nat) (code : Int)
    (traceback : List Nat)
    (h0 : vs.get? c = some (Val.arr_size 2)) (h1 : vs.get? (c + 1) = some (Val.int code))
    (h2 : vs.get? (c + 2) = some (Val.str traceback))
    (hcode : -2147483648 ≤ code ∧ code < 2147483648) (htb : traceback.length < 4294967296)
    (hc : c + 2 < j) (hj : j ≤ vs.length) :
    msgpack.deserialize (tok_unpacker vs post j c) Ty.error
      = (tok_unpacker vs post j (c + 3), some (Val.error ⟨code, traceback⟩)) := by
  have e0 := tok_unpacker_elem vs post j c c _ h0 (by omega) hj
  have e1 := tok_unpacker_elem vs post j c (c + 1) _ h1 (by omega) hj
  have e2 := tok_unpacker_elem vs post j c (c + 2) _ h2 (by omega) hj
  have hcur : (tok_unpacker vs post j c).curr_index = c := rfl
  have hdec : (tok_unpacker vs post j c).b_decoded = true := rfl
  simp only [msgpack, mdeserialize, hcur, hdec, e0, e1, e2, Option.some_bind, Bool.not_true,
    Bool.false_eq_true, if_false, mpack, read_arr_size_pack 2 _ (by omega),
    read_int_pack_int _ _ hcode.1 hcode.2, read_str_pack_str _ _ htb]
  rfl

/-- Reading an `RpcError` fails when fewer than three elements are left. -/
theorem mdeserialize_error_past (vs : List Val) (post : List Nat) (j c : Nat)
    (hc : j ≤ c + 2) :
    msgpack.deserialize (tok_unpacker vs post j c) Ty.error = (tok_unpacker vs post j c, none) := by
  have e2 := tok_unpacker_elem_none vs post j c (c + 2) hc
  have hcur : (tok_unpacker vs post j c).curr_index = c := rfl
  have hdec : (tok_unpacker vs post j c).b_decoded = true := rfl
  simp only [msgpack, mdeserialize, hcur, hdec, e2, Option.none_bind, Bool.not_true,
    Bool.false_eq_true, if_false]
  split <;> simp_all

theorem munpackable_nil_arr_size (vs : List Val) (post : List Nat) (j c n : Nat)
    (hv : vs.get? c = some (Val.arr_size n)) (hc : c < j) (hj : j ≤ vs.length) :
    msgpack.unpackable (tok_unpacker vs post j c) Ty.nil = false := by
  have he := tok_unpacker_elem vs post j c c _ hv hc hj
  have hcur : (tok_unpacker vs post j c).curr_index = c := rfl
  simp only [msgpack, munpackable, hcur, he, mpack, unpackable_as, not_nil_pack_arr_size]

/-- A round of `get_response` over the first `j` elements of the Response that carries a
result: only with all five of them does it reach `pop_packet`. -/
theorem response_try_result (d : RpcDecoder) (msg_id : Int) (result : Val) (RType : Ty)
    (rest : List Nat) (j k : Nat)
    (hid : -2147483648 ≤ msg_id ∧ msg_id < 2147483648) (hres : well_typed RType result)
    (hj1 : 1 ≤ j) (hj2 : j ≤ 5)
    (hfeed : msgpack.feed d.raw_buffer k
      = (tok_unpacker [Val.arr_size 4, Val.int 1, Val.int msg_id, Val.nil, result] rest j 0,
         true)) :
    get_response_try msgpack d msg_id RType k
      = if j < 5 then none else some (Reply.result result) := by
  generalize hvs : [Val.arr_size 4, Val.int 1, Val.int msg_id, Val.nil, result] = vs at hfeed
  have hjl : j ≤ vs.length := by rw [← hvs]; simpa using hj2
  have e0 := mdeserialize_tok vs rest j 0 Ty.arr_size (Val.arr_size 4) (by simp [← hvs])
    (by simp [well_typed]) (by omega) hjl
  unfold get_response_try
  simp only [hfeed, Bool.not_true, Bool.false_eq_true, if_false, Codec.deserialize_seq, e0]
  by_cases h2 : j < 2
  · have e1 := mdeserialize_past vs rest j 1 Ty.int (by omega)
    have hlt : j < 5 := by omega
    simp only [Nat.zero_add, e1, hlt, if_true]
  have e1 := mdeserialize_tok vs rest j 1 Ty.int (Val.int 1) (by simp [← hvs])
    (by simp [well_typed]) (by omega) hjl
  simp only [Nat.zero_add, e1]
  by_cases h3 : j < 3
  · have e2 := mdeserialize_past vs rest j 2 Ty.int (by omega)
    have hlt : j < 5 := by omega
    simp only [Nat.reduceAdd, e2, hlt, if_true]
  have e2 := mdeserialize_tok vs rest j 2 Ty.int (Val.int msg_id) (by simp [← hvs]) hid
    (by omega) hjl
  simp only [Nat.reduceAdd, e2, RESPONSE_SIZE, RESP_MSG, ne_eq, not_true_eq_false, if_false]
  by_cases h4 : j < 4
  · have u3 := munpackable_past vs rest j 3 Ty.nil (by omega)
    have e3 := mdeserialize_error_past vs rest j 3 (by omega)
    have hlt : j < 5 := by omega
    simp only [u3, Bool.false_eq_true, if_false, e3, hlt, if_true]
  have u3 := munpackable_tok vs rest j 3 Ty.nil Val.nil (by simp [← hvs]) (by simp [well_typed])
    (by omega) hjl
  have e3 := mdeserialize_tok vs rest j 3 Ty.nil Val.nil (by simp [← hvs])
    (by simp [well_typed]) (by omega) hjl
  simp only [u3, if_true, e3]
  by_cases h5 : j < 5
  · have e4 := mdeserialize_past vs rest j 4 RType (by omega)
    simp only [e4, h5, if_true]
  have e4 := mdeserialize_tok vs rest j 4 RType result (by simp [← hvs]) hres (by omega) hjl
  simp only [e4, h5, if_false]

/-- A round of `get_response` over the first `j` elements of the Response that carries an
error: only with all seven of them does it reach `pop_packet`. -/
theorem response_try_error (d : RpcDecoder) (msg_id : Int) (error : RpcError) (RType : Ty)
    (rest : List Nat) (j k : Nat)
    (hid : -2147483648 ≤ msg_id ∧ msg_id < 2147483648)
    (hcode : -2147483648 ≤ error.code ∧ error.code < 2147483648)
    (htb : error.traceback.length < 4294967296)
    (hj1 : 1 ≤ j) (hj2 : j ≤ 7)
    (hfeed : msgpack.feed d.raw_buffer k
      = (tok_unpacker [Val.arr_size 4, Val.int 1, Val.int msg_id, Val.arr_size 2,
          Val.int error.code, Val.str error.traceback, Val.nil] rest j 0, true)) :
    get_response_try msgpack d msg_id RType k
      = if j < 7 then none else some (Reply.error error) := by
  generalize hvs : [Val.arr_size 4, Val.int 1, Val.int msg_id, Val.arr_size 2,
          Val.int error.code, Val.str error.traceback, Val.nil] = vs at hfeed
  have hjl : j ≤ vs.length := by rw [← hvs]; simpa using hj2
  have e0 := mdeserialize_tok vs rest j 0 Ty.arr_size (Val.arr_size 4) (by simp [← hvs])
    (by simp [well_typed]) (by omega) hjl
  unfold get_response_try
  simp only [hfeed, Bool.not_true, Bool.false_eq_true, if_false, Codec.deserialize_seq, e0]
  by_cases h2 : j < 2
  · have e1 := mdeserialize_past vs rest j 1 Ty.int (by omega)
    have hlt : j < 7 := by omega
    simp only [Nat.zero_add, e1, hlt, if_true]
  have e1 := mdeserialize_tok vs rest j 1 Ty.int (Val.int 1) (by simp [← hvs])
    (by simp [well_typed]) (by omega) hjl
  simp only [Nat.zero_add, e1]
  by_cases h3 : j < 3
  · have e2 := mdeserialize_past vs rest j 2 Ty.int (by omega)
    have hlt : j < 7 := by omega
    simp only [Nat.reduceAdd, e2, hlt, if_true]
  have e2 := mdeserialize_tok vs rest j 2 Ty.int (Val.int msg_id) (by simp [← hvs]) hid
    (by omega) hjl
  simp only [Nat.reduceAdd, e2, RESPONSE_SIZE, RESP_MSG, ne_eq, not_true_eq_false, if_false]
  have u3 : msgpack.unpackable (tok_unpacker vs rest j 3) Ty.nil = false := by
    by_cases h4 : j < 4
    · exact munpackable_past vs rest j 3 Ty.nil (by omega)
    · exact munpackable_nil_arr_size vs rest j 3 2 (by simp [← hvs]) (by omega) hjl
  simp only [u3, Bool.false_eq_true, if_false]
  by_cases h6 : j < 6
  · have e3 := mdeserialize_error_past vs rest j 3 (by omega)
    have hlt : j < 7 := by omega
    simp only [e3, hlt, if_true]
  have e3 := mdeserialize_error_tok vs rest j 3 error.code error.traceback (by simp [← hvs])
    (by simp [← hvs]) (by simp [← hvs]) hcode htb (by omega) hjl
  simp only [e3]
  by_cases h7 : j < 7
  · have e6 := mdeserialize_past vs rest j 6 Ty.nil (by omega)
    simp only [e6, h7, if_true]
  have e6 := mdeserialize_tok vs rest j 6 Ty.nil Val.nil (by simp [← hvs])
    (by simp [well_typed]) (by omega) hjl
  simp only [e6, h7, if_false]

/-- The loop of `get_response` stops in the first round that reaches `pop_packet`. -/
theorem get_response_loop_stop (C : Codec) (d : RpcDecoder) (msg_id : Int) (RType : Ty)
    (K : Nat) (r : Reply) (hK : get_response_try C d msg_id RType K = some r) :
    ∀ (n c : Nat), c < K → K ≤ c + n →
      (∀ k, c < k → k < K → get_response_try C d msg_id RType k = none) →
      get_response_loop C d msg_id RType n c = (some r, (d.pop_packet K).2) := by
  intro n
  induction n with
  | zero => intro c h1 h2 _; omega
  | succ n ih =>
    intro c h1 h2 hnext
    rw [get_response_loop]
    by_cases hc : c + 1 = K
    · rw [hc, hK]
    · rw [hnext (c + 1) (by omega) (by omega)]
      exact ih (c + 1) (by omega) (by omega) (fun k hk1 hk2 => hnext k (by omega) hk2)

theorem get_response_try_unfed (C : Codec) (d : RpcDecoder) (msg_id : Int) (RType : Ty)
    (k : Nat) (h : (C.feed d.raw_buffer k).2 = false) :
    get_response_try C d msg_id RType k = none := by
  simp [get_response_try, h]

theorem response_values_length (msg_id : Int) (error : RpcError) (result : Val) :
    (response_values msg_id error result).length = if error.code = NO_ERR then 5 else 7 := by
  unfold response_values; split_ifs <;> rfl

theorem response_try_tok (d : RpcDecoder) (msg_id : Int) (error : RpcError) (result : Val)
    (RType : Ty) (rest : List Nat) (j k : Nat)
    (hid : -2147483648 ≤ msg_id ∧ msg_id < 2147483648) (hres : well_typed RType result)
    (herr : error.code ≠ NO_ERR → (-2147483648 ≤ error.code ∧ error.code < 2147483648) ∧
      error.traceback.length < 4294967296)
    (hj1 : 1 ≤ j) (hj2 : j ≤ (response_values msg_id error result).length)
    (hfeed : msgpack.feed d.raw_buffer k
      = (tok_unpacker (response_values msg_id error result) rest j 0, true)) :
    get_response_try msgpack d msg_id RType k
      = if j < (response_values msg_id error result).length then none
        else some (if error.code = NO_ERR then Reply.result result else Reply.error error) := by
  rw [response_values_length] at hj2 ⊢
  unfold response_values at hfeed
  by_cases h : error.code = NO_ERR
  · simp only [h, if_true] at hfeed hj2 ⊢
    exact response_try_result d msg_id result RType rest j k hid hres hj1 hj2 hfeed
  · simp only [h, if_false] at hfeed hj2 ⊢
    exact response_try_error d msg_id error RType rest j k hid (herr h).1 (herr h).2 hj1 hj2
      hfeed

/-- Classifying a buffer that starts with the bytes of a Response caches the type 1. -/
theorem parse_packet_response (d : RpcDecoder) (msg_id : Int) (error : RpcError) (result : Val)
    (pad : List Nat)
    (hbuf : d.raw_buffer = send_response_data msgpack msg_id error result ++ pad)
    (hstored : d.bytes_stored ≠ 0) (htype : d.packet_type = NO_MSG) :
    d.parse_packet msgpack = { d with packet_type := RESP_MSG } := by
  have hhead : ∃ tl, d.raw_buffer = 0x94 :: 0x01 :: tl := by
    rw [hbuf, send_response_data_values]
    unfold response_values
    split_ifs <;> exact ⟨_, by simp [mpack, pack_arr_size, pack_int]; rfl⟩
  obtain ⟨tl, htl⟩ := hhead
  unfold RpcDecoder.parse_packet
  have h1 : d.packet_incoming = false := by simp [RpcDecoder.packet_incoming, htype, NO_MSG, CALL_MSG]
  have h2 : d.buffer_empty = false := by simp [RpcDecoder.buffer_empty, hstored]
  simp only [h1, h2, Bool.or_self, Bool.false_eq_true, if_false, htl]
  rfl

/-- C5: the bytes written by `send_response(id, error, result)`, put into an otherwise empty
decoder buffer and classified, are read back by `get_response(id, ...)`: it returns `true` with
the same result when `error.code` is 0 and with the same error code and traceback otherwise,
and leaves the buffer empty. Over the MessagePack codec, for a 32-bit id, a result that is
`well_typed` for the type asked for, and an error with a 32-bit code. -/
theorem response_round_trip (d : RpcDecoder) (msg_id : Int) (error : RpcError) (result : Val)
    (RType : Ty) (pad : List Nat)
    (hid : -2147483648 ≤ msg_id ∧ msg_id < 2147483648) (hres : well_typed RType result)
    (herr : error.code ≠ NO_ERR → (-2147483648 ≤ error.code ∧ error.code < 2147483648) ∧
      error.traceback.length < 4294967296)
    (hbuf : d.raw_buffer = send_response_data msgpack msg_id error result ++ pad)
    (hstored : d.bytes_stored = (send_response_data msgpack msg_id error result).length)
    (htype : d.packet_type = NO_MSG) :
    (d.parse_packet msgpack).packet_type = RESP_MSG ∧
    ((d.parse_packet msgpack).get_response msgpack msg_id RType).1
      = some (if error.code = NO_ERR then Reply.result result else Reply.error error) ∧
    ((d.parse_packet msgpack).get_response msgpack msg_id RType).2.bytes_stored = 0 ∧
    ((d.parse_packet msgpack).get_response msgpack msg_id RType).2.packet_type = NO_MSG := by
  have htyped := response_values_typed msg_id error result RType hid hres herr
  have hel := is_elem_mpack _ _ htyped
  have hvlen := response_values_length msg_id error result
  have hvpos : 5 ≤ (response_values msg_id error result).length := by
    rw [hvlen]; split_ifs <;> omega
  have hpos : 0 < (((response_values msg_id error result).map mpack).flatten).length := by
    have h0 : 0 < (response_values msg_id error result).length := by omega
    have := take_flatten_lt ((response_values msg_id error result).map mpack) 0
      (fun t ht => (hel t ht).1) (by simpa using h0)
    omega
  have hne : d.bytes_stored ≠ 0 := by
    rw [hstored, send_response_data_values]; omega
  rw [parse_packet_response d msg_id error result pad hbuf hne htype]
  rw [send_response_data_values] at hbuf hstored
  generalize hd1 : ({ d with packet_type := RESP_MSG } : RpcDecoder) = d1
  have hbuf1 : d1.raw_buffer
      = ((response_values msg_id error result).map mpack).flatten ++ pad := by
    rw [← hd1]; exact hbuf
  have hstored1 : d1.bytes_stored
      = (((response_values msg_id error result).map mpack).flatten).length := by
    rw [← hd1]; exact hstored
  have htype1 : d1.packet_type = RESP_MSG := by rw [← hd1]
  have hstop : get_response_try msgpack d1 msg_id RType
      (((response_values msg_id error result).map mpack).flatten).length
      = some (if error.code = NO_ERR then Reply.result result else Reply.error error) := by
    have hfeed : msgpack.feed d1.raw_buffer
        (((response_values msg_id error result).map mpack).flatten).length
        = (tok_unpacker (response_values msg_id error result) pad
            (response_values msg_id error result).length 0, true) := by
      rw [msgpack_feed, hbuf1, mfeed_all _ _ pad htyped]
    rw [response_try_tok d1 msg_id error result RType pad _ _ hid hres herr (by omega)
      (Nat.le_refl _) hfeed]
    simp
  have hloop := get_response_loop_stop msgpack d1 msg_id RType _ _ hstop d1.bytes_stored 0 hpos
    (by omega) (by
      intro k hk1 hk2
      cases hfed : (msgpack.feed d1.raw_buffer k).2 with
      | false => exact get_response_try_unfed msgpack d1 msg_id RType k hfed
      | true =>
        rw [msgpack_feed, hbuf1] at hfed
        obtain ⟨j, hj1, hj2, hj3, hj4⟩ := mfeed_values _ _ pad k htyped (by omega) (by omega) hfed
        have hjlt : j < (response_values msg_id error result).length := by
          by_contra hge
          have : ((response_values msg_id error result).map mpack).take j
              = (response_values msg_id error result).map mpack := by
            apply List.take_of_length_le; simp only [List.length_map]; omega
          rw [this] at hj3
          omega
        have hfeed : msgpack.feed d1.raw_buffer k
            = (tok_unpacker (response_values msg_id error result) pad j 0, true) := by
          rw [msgpack_feed, hbuf1]
          exact Prod.ext hj4 hfed
        rw [response_try_tok d1 msg_id error result RType pad j k hid hres herr hj1 hj2 hfeed]
        simp [hjlt])
  have hget : d1.get_response msgpack msg_id RType
      = (some (if error.code = NO_ERR then Reply.result result else Reply.error error),
         (d1.pop_packet d1.bytes_stored).2) := by
    unfold RpcDecoder.get_response
    have hg : (!d1.packet_incoming || decide (d1.packet_type ≠ RESP_MSG)) = false := by
      simp [RpcDecoder.packet_incoming, htype1, RESP_MSG, CALL_MSG]
    simp only [hg, Bool.false_eq_true, if_false]
    rw [hloop, hstored1]
  rw [hget]
  refine ⟨htype1, rfl, ?_, ?_⟩ <;> simp [RpcDecoder.pop_packet]

theorem response_round_trip_witness :
    ((result_reply.parse_packet msgpack).packet_type = RESP_MSG ∧
     ((result_reply.parse_packet msgpack).get_response msgpack 7 Ty.int).1
       = some (if RpcError.default.code = NO_ERR then Reply.result (Val.int 5)
               else Reply.error RpcError.default) ∧
     ((result_reply.parse_packet msgpack).get_response msgpack 7 Ty.int).2.bytes_stored = 0 ∧
     ((result_reply.parse_packet msgpack).get_response msgpack 7 Ty.int).2.packet_type
       = NO_MSG) ∧
    ((error_reply.parse_packet msgpack).packet_type = RESP_MSG ∧
     ((error_reply.parse_packet msgpack).get_response msgpack 1 Ty.nil).1
       = some (if (⟨FUNCTION_NOT_FOUND_ERR, ascii "missing"⟩ : RpcError).code = NO_ERR
               then Reply.result Val.nil
               else Reply.error ⟨FUNCTION_NOT_FOUND_ERR, ascii "missing"⟩) ∧
     ((error_reply.parse_packet msgpack).get_response msgpack 1 Ty.nil).2.bytes_stored = 0 ∧
     ((error_reply.parse_packet msgpack).get_response msgpack 1 Ty.nil).2.packet_type
       = NO_MSG) :=
  ⟨response_round_trip result_reply 7 RpcError.default (Val.int 5) Ty.int [0, 0, 0]
     (by decide) (by decide) (by decide) (by rfl) (by decide) (by rfl),
   response_round_trip error_reply 1 ⟨FUNCTION_NOT_FOUND_ERR, ascii "missing"⟩ Val.nil Ty.nil [0]
     (by decide) (by decide) (by decide) (by rfl) (by decide) (by rfl)⟩

/-! ### The dispatcher -/

/-- The search of the dispatcher over entries none of which bears the name ends in the
not-found tail. -/
theorem call_from_unbound (C : Codec) (name : List Nat) (u : C.Unpacker) (packer : List Nat) :
    ∀ (es : List DispatchEntry) (i : Nat), (∀ e ∈ es, e.name ≠ name) →
      call_from C name u packer es i =
        { ok := false, unpacker := u,
          packer := C.serialize packer [Val.error ⟨FUNCTION_NOT_FOUND_ERR, name⟩, Val.nil],
          invoked := [] } := by
  intro es
  induction es with
  | nil => intro i _; rfl
  | cons e es ih =>
    intro i h
    have he : ¬ e.name = name := h e (by simp)
    rw [call_from]
    simp only [he, if_false]
    exact ih (i + 1) (fun x hx => h x (by simp [hx]))

/-- C12: when the name equals the name of no registered entry, `dispatcher.call(name, ...)`
returns `false`, invokes no handler, and appends to the output exactly a Function-Not-Found
error (code 0xFE, the requested name as traceback) followed by a nil. -/
theorem call_unbound (C : Codec) (disp : RpcFunctionDispatcher) (name : List Nat)
    (u : C.Unpacker) (packer : List Nat) (h : ∀ e ∈ disp.entries, e.name ≠ name) :
    (disp.call C name u packer).ok = false ∧
    (disp.call C name u packer).invoked = [] ∧
    (disp.call C name u packer).packer
      = packer ++ C.pack (Val.error ⟨0xFE, name⟩) ++ C.pack Val.nil := by
  unfold RpcFunctionDispatcher.call
  rw [call_from_unbound C name u packer disp.entries 0 h]
  simp [Codec.serialize, FUNCTION_NOT_FOUND_ERR]

theorem call_unbound_witness :
    (add_dispatcher.call msgpack (ascii "baz") two_args_unpacker []).ok = false ∧
    (add_dispatcher.call msgpack (ascii "baz") two_args_unpacker []).invoked = [] ∧
    (add_dispatcher.call msgpack (ascii "baz") two_args_unpacker []).packer
      = [] ++ msgpack.pack (Val.error ⟨0xFE, ascii "baz"⟩) ++ msgpack.pack Val.nil :=
  call_unbound msgpack add_dispatcher (ascii "baz") two_args_unpacker [] (by decide)

/-- A sequence of binds on a dispatcher within its capacity stays within it. -/
theorem bind_all_count :
    ∀ (reqs : List BindRequest) (disp : RpcFunctionDispatcher) (statics : BindStatics),
      disp.count ≤ disp.N →
      (bind_all disp statics reqs).2.1.count ≤ disp.N ∧
      (bind_all disp statics reqs).2.1.N = disp.N := by
  intro reqs
  induction reqs with
  | nil => intro disp statics h; exact ⟨h, rfl⟩
  | cons r rs ih =>
    intro disp statics h
    simp only [bind_all]
    have hb : (disp.bind statics r.name r.F r.wrapped).2.1.count ≤ disp.N ∧
        (disp.bind statics r.name r.F r.wrapped).2.1.N = disp.N := by
      unfold RpcFunctionDispatcher.bind
      by_cases hc : disp.count ≥ disp.N
      · simp only [hc, if_true]; exact ⟨h, trivial⟩
      · simp only [hc, if_false]
        cases bind_static statics r.F <;>
          simp [RpcFunctionDispatcher.count] at hc ⊢ <;> omega
    obtain ⟨h1, h2⟩ := ih (disp.bind statics r.name r.F r.wrapped).2.1
      (disp.bind statics r.name r.F r.wrapped).2.2 (by rw [hb.2]; exact hb.1)
    rw [hb.2] at h1 h2
    exact ⟨h1, h2⟩

/-- C13: with fewer than `N` entries registered, `bind` returns `true` and appends exactly one
entry, under the given name, at index `count`, inside the table, the earlier entries unchanged;
with `N` entries registered it returns `false` and leaves the registry as it was; so over any
sequence of binds the entry count never exceeds `N`. -/
theorem bind_capacity (disp : RpcFunctionDispatcher) (statics : BindStatics) (name : List Nat)
    (F : Nat) (wrapped : RpcFunctionWrapper) (reqs : List BindRequest) :
    (disp.count < disp.N →
      (disp.bind statics name F wrapped).1 = true ∧
      (∃ fn, (disp.bind statics name F wrapped).2.1.entries
        = disp.entries ++ [{ name := name, fn := fn }]) ∧
      (disp.bind statics name F wrapped).2.1.count = disp.count + 1 ∧
      (disp.bind statics name F wrapped).2.1.N = disp.N) ∧
    (disp.count = disp.N →
      (disp.bind statics name F wrapped).1 = false ∧
      (disp.bind statics name F wrapped).2.1 = disp) ∧
    (disp.count ≤ disp.N → (bind_all disp statics reqs).2.1.count ≤ disp.N) := by
  refine ⟨?_, ?_, fun h => (bind_all_count reqs disp statics h).1⟩
  · intro h
    have hc : ¬ disp.count ≥ disp.N := by omega
    unfold RpcFunctionDispatcher.bind
    simp only [hc, if_false]
    cases bind_static statics F with
    | none => exact ⟨rfl, ⟨_, rfl⟩, by simp [RpcFunctionDispatcher.count], rfl⟩
    | some w => exact ⟨rfl, ⟨_, rfl⟩, by simp [RpcFunctionDispatcher.count], rfl⟩
  · intro h
    have hc : disp.count ≥ disp.N := by omega
    unfold RpcFunctionDispatcher.bind
    simp only [hc, if_true, and_self]

theorem bind_capacity_witness :
    ((RpcFunctionDispatcher.empty 1).bind [] (ascii "add") 1 add_wrapper).1 = true ∧
    (add_dispatcher_full.bind [] (ascii "sub") 2 sub_wrapper).1 = false ∧
    (add_dispatcher_full.bind [] (ascii "sub") 2 sub_wrapper).2.1 = add_dispatcher_full ∧
    (bind_all (RpcFunctionDispatcher.empty 1) []
      [{ name := ascii "add", F := 1, wrapped := add_wrapper },
       { name := ascii "sub", F := 2, wrapped := sub_wrapper }]).2.1.count
      ≤ (RpcFunctionDispatcher.empty 1).N :=
  ⟨((bind_capacity (RpcFunctionDispatcher.empty 1) [] (ascii "add") 1 add_wrapper []).1
      (by decide)).1,
   ((bind_capacity add_dispatcher_full [] (ascii "sub") 2 sub_wrapper []).2.1 (by decide)).1,
   ((bind_capacity add_dispatcher_full [] (ascii "sub") 2 sub_wrapper []).2.1 (by decide)).2,
   (bind_capacity (RpcFunctionDispatcher.empty 1) [] (ascii "add") 1 add_wrapper
      [{ name := ascii "add", F := 1, wrapped := add_wrapper },
       { name := ascii "sub", F := 2, wrapped := sub_wrapper }]).2.2 (by decide)⟩

/-- Two binds in a row of callables of one type `F` not bound before, with room for both: the
second entry gets the wrapper of the first callable, not of its own. -/
theorem bind_twice_same_type (disp : RpcFunctionDispatcher) (statics : BindStatics)
    (name1 name2 : List Nat) (F : Nat) (wrapped1 wrapped2 : RpcFunctionWrapper)
    (hc : disp.count + 1 < disp.N) (hs : bind_static statics F = none) :
    (bind_all disp statics
      [{ name := name1, F := F, wrapped := wrapped1 },
       { name := name2, F := F, wrapped := wrapped2 }]).1 = [true, true] ∧
    (bind_all disp statics
      [{ name := name1, F := F, wrapped := wrapped1 },
       { name := name2, F := F, wrapped := wrapped2 }]).2.1.entries
      = disp.entries ++ [{ name := name1, fn := wrapped1 }, { name := name2, fn := wrapped1 }] := by
  have hstat : ∀ (st : BindStatics), bind_static st F = none →
      bind_static (st ++ [(F, wrapped1)]) F = some wrapped1 := by
    intro st
    induction st with
    | nil => intro _; simp [bind_static]
    | cons p st ih =>
      intro h
      obtain ⟨G, w⟩ := p
      simp only [bind_static] at h
      by_cases hG : G = F
      · simp [hG] at h
      · simp only [hG, if_false] at h
        simp only [List.cons_append, bind_static, hG, if_false]
        exact ih h
  have h1 : ¬ disp.count ≥ disp.N := by omega
  have h2 : ¬ disp.count + 1 ≥ disp.N := by omega
  have h3 : ¬ disp.N ≤ disp.entries.length := by
    simpa [RpcFunctionDispatcher.count] using h1
  have h4 : ¬ disp.N ≤ disp.entries.length + 1 := by
    simpa [RpcFunctionDispatcher.count] using h2
  simp [bind_all, RpcFunctionDispatcher.bind, hs, hstat statics hs,
    RpcFunctionDispatcher.count, h3, h4]

/-- C11 fails on the code: after `bind("foo", add)` and `bind("bar", sub)`, both successful, with
`add` and `sub` two functions of the one type `int(int, int)`, `call("bar", ...)` on the
arguments `[5, 3]` runs the entry of "bar", whose wrapper is the one static wrapper of
`bind<F>`: it answers 8, which is `add(5, 3)`, where `sub(5, 3)` is 2. -/
theorem bar_runs_foo_handler :
    (bind_all (RpcFunctionDispatcher.empty 100) []
      [{ name := ascii "foo", F := 1, wrapped := add_wrapper },
       { name := ascii "bar", F := 1, wrapped := sub_wrapper }]).1 = [true, true] ∧
    foo_bar_dispatcher.entries.map (fun e => e.name) = [ascii "foo", ascii "bar"] ∧
    (foo_bar_dispatcher.call msgpack (ascii "bar") five_three_unpacker []).ok = true ∧
    (foo_bar_dispatcher.call msgpack (ascii "bar") five_three_unpacker []).invoked
      = [(1, [Val.int 5, Val.int 3])] ∧
    (foo_bar_dispatcher.call msgpack (ascii "bar") five_three_unpacker []).packer
      = msgpack.serialize [] [Val.nil, Val.int 8] ∧
    add_wrapper.func [Val.int 5, Val.int 3] = Val.int 8 ∧
    sub_wrapper.func [Val.int 5, Val.int 3] = Val.int 2 := by
  decide

/-! ### `send_call` -/

/-- C16: `send_call` with `call_type = CALL_MSG` reports the decoder's current id counter in
`msg_id`, invokes `write` once, on the serialized Call, and returns `true` exactly when `write`
returns the length of that message; the counter then advances by one (below the largest `int`,
where `++` is defined), and on a partial write it is not advanced. -/
theorem send_call_ids (C : Codec) (write : List Nat → Nat) (d : RpcDecoder) (method : List Nat)
    (msg_id : Int) (args : List Val) (hmax : d.msg_id < 2147483647)
    (hmin : -2147483648 ≤ d.msg_id) :
    (d.send_call C write CALL_MSG method msg_id args).msg_id = d.msg_id ∧
    (d.send_call C write CALL_MSG method msg_id args).sent
      = [request_data C CALL_MSG d.msg_id method args] ∧
    ((d.send_call C write CALL_MSG method msg_id args).ok = true ↔
      write (request_data C CALL_MSG d.msg_id method args)
        = (request_data C CALL_MSG d.msg_id method args).length) ∧
    ((d.send_call C write CALL_MSG method msg_id args).ok = true →
      (d.send_call C write CALL_MSG method msg_id args).decoder
        = { d with msg_id := d.msg_id + 1 }) ∧
    ((d.send_call C write CALL_MSG method msg_id args).ok = false →
      (d.send_call C write CALL_MSG method msg_id args).decoder = d) := by
  have hw : to_int32 (d.msg_id + 1) = d.msg_id + 1 := by
    unfold to_int32; omega
  unfold RpcDecoder.send_call
  have hg : ¬ (CALL_MSG ≠ CALL_MSG ∧ CALL_MSG ≠ NOTIFY_MSG) := by simp
  simp only [hg, if_false, if_true]
  by_cases h : write (request_data C CALL_MSG d.msg_id method args)
      = (request_data C CALL_MSG d.msg_id method args).length
  · simp [h, hw]
  · simp [h]

theorem send_call_ids_witness :
    (idle_decoder.send_call msgpack write_all CALL_MSG (ascii "add") 0
      [Val.int 2, Val.int 3]).msg_id = idle_decoder.msg_id ∧
    (idle_decoder.send_call msgpack write_all CALL_MSG (ascii "add") 0
      [Val.int 2, Val.int 3]).sent
      = [request_data msgpack CALL_MSG idle_decoder.msg_id (ascii "add")
          [Val.int 2, Val.int 3]] ∧
    ((idle_decoder.send_call msgpack write_all CALL_MSG (ascii "add") 0
      [Val.int 2, Val.int 3]).ok = true ↔
      write_all (request_data msgpack CALL_MSG idle_decoder.msg_id (ascii "add")
          [Val.int 2, Val.int 3])
        = (request_data msgpack CALL_MSG idle_decoder.msg_id (ascii "add")
          [Val.int 2, Val.int 3]).length) ∧
    ((idle_decoder.send_call msgpack write_all CALL_MSG (ascii "add") 0
      [Val.int 2, Val.int 3]).ok = true →
      (idle_decoder.send_call msgpack write_all CALL_MSG (ascii "add") 0
        [Val.int 2, Val.int 3]).decoder
        = { idle_decoder with msg_id := idle_decoder.msg_id + 1 }) ∧
    ((idle_decoder.send_call msgpack write_all CALL_MSG (ascii "add") 0
      [Val.int 2, Val.int 3]).ok = false →
      (idle_decoder.send_call msgpack write_all CALL_MSG (ascii "add") 0
        [Val.int 2, Val.int 3]).decoder = idle_decoder) :=
  send_call_ids msgpack write_all idle_decoder (ascii "add") 0 [Val.int 2, Val.int 3]
    (by decide) (by decide)

/-- The Call of C16's witness goes out whole and the counter moves from 41 to 42; over a
transport that takes three bytes the same Call fails after one `write` and the counter stays. -/
theorem send_call_examples :
    idle_decoder.send_call msgpack write_all CALL_MSG (ascii "add") 0 [Val.int 2, Val.int 3]
      = { ok := true, msg_id := 41, decoder := { idle_decoder with msg_id := 42 },
          sent := [[0x94, 0x00, 41, 0xa3, 97, 100, 100, 0x92, 0x02, 0x03]] } ∧
    idle_decoder.send_call msgpack write_three CALL_MSG (ascii "add") 0 [Val.int 2, Val.int 3]
      = { ok := false, msg_id := 41, decoder := idle_decoder,
          sent := [[0x94, 0x00, 41, 0xa3, 97, 100, 100, 0x92, 0x02, 0x03]] } := by
  decide

/-- C17 fails on the code: a Notify that the transport takes whole moves the id counter from 41
to 42, so the next Call is assigned 42 where it would have been assigned 41. -/
theorem notify_advances_counter :
    (idle_decoder.send_call msgpack write_all NOTIFY_MSG (ascii "ping") 0 []).ok = true ∧
    (idle_decoder.send_call msgpack write_all NOTIFY_MSG (ascii "ping") 0 []).decoder.msg_id
      = 42 ∧
    (RPCClient.notify msgpack write_all idle_decoder (ascii "ping") []).1.msg_id = 42 ∧
    ((RPCClient.notify msgpack write_all idle_decoder (ascii "ping") []).1.send_call msgpack
      write_all CALL_MSG (ascii "add") 0 [Val.int 2, Val.int 3]).msg_id = 42 ∧
    (idle_decoder.send_call msgpack write_all CALL_MSG (ascii "add") 0
      [Val.int 2, Val.int 3]).msg_id = 41 := by
  decide

/-- C17 as amended: `send_call` with `call_type = NOTIFY_MSG` puts no id into the message and
leaves the caller's `msg_id` as it was; it invokes `write` once, on the serialized Notify, and
the id counter advances by one when `write` returns the length of the message, as for a Call,
and is unchanged otherwise. -/
theorem notify_counter (C : Codec) (write : List Nat → Nat) (d : RpcDecoder) (method : List Nat)
    (msg_id : Int) (args : List Val) (hmax : d.msg_id < 2147483647)
    (hmin : -2147483648 ≤ d.msg_id) :
    (d.send_call C write NOTIFY_MSG method msg_id args).msg_id = msg_id ∧
    (d.send_call C write NOTIFY_MSG method msg_id args).sent
      = [C.serialize [] (Val.arr_size 3 :: Val.int 2 :: Val.str method
          :: Val.arr_size args.length :: args)] ∧
    (write (C.serialize [] (Val.arr_size 3 :: Val.int 2 :: Val.str method
          :: Val.arr_size args.length :: args))
      = (C.serialize [] (Val.arr_size 3 :: Val.int 2 :: Val.str method
          :: Val.arr_size args.length :: args)).length →
      (d.send_call C write NOTIFY_MSG method msg_id args).decoder
        = { d with msg_id := d.msg_id + 1 }) ∧
    (write (C.serialize [] (Val.arr_size 3 :: Val.int 2 :: Val.str method
          :: Val.arr_size args.length :: args))
      ≠ (C.serialize [] (Val.arr_size 3 :: Val.int 2 :: Val.str method
          :: Val.arr_size args.length :: args)).length →
      (d.send_call C write NOTIFY_MSG method msg_id args).decoder = d) := by
  have hw : to_int32 (d.msg_id + 1) = d.msg_id + 1 := by
    unfold to_int32; omega
  have hdata : request_data C NOTIFY_MSG msg_id method args
      = C.serialize [] (Val.arr_size 3 :: Val.int 2 :: Val.str method
          :: Val.arr_size args.length :: args) := by
    simp [request_data, Codec.serialize, NOTIFY_MSG, CALL_MSG, NOTIFY_SIZE]
  unfold RpcDecoder.send_call
  have hg : ¬ (NOTIFY_MSG ≠ CALL_MSG ∧ NOTIFY_MSG ≠ NOTIFY_MSG) := by simp
  have hn : ¬ NOTIFY_MSG = CALL_MSG := by decide
  simp only [hg, if_false, hn, hdata]
  generalize C.serialize [] (Val.arr_size 3 :: Val.int 2 :: Val.str method
          :: Val.arr_size args.length :: args) = data
  by_cases h : write data = data.length
  · simp [h, hw]
  · simp [h]

theorem notify_counter_witness :
    (idle_decoder.send_call msgpack write_all NOTIFY_MSG (ascii "ping") 7 []).msg_id = 7 ∧
    (idle_decoder.send_call msgpack write_all NOTIFY_MSG (ascii "ping") 7 []).sent
      = [msgpack.serialize [] (Val.arr_size 3 :: Val.int 2 :: Val.str (ascii "ping")
          :: Val.arr_size ([] : List Val).length :: [])] ∧
    (write_all (msgpack.serialize [] (Val.arr_size 3 :: Val.int 2 :: Val.str (ascii "ping")
          :: Val.arr_size ([] : List Val).length :: []))
      = (msgpack.serialize [] (Val.arr_size 3 :: Val.int 2 :: Val.str (ascii "ping")
          :: Val.arr_size ([] : List Val).length :: [])).length →
      (idle_decoder.send_call msgpack write_all NOTIFY_MSG (ascii "ping") 7 []).decoder
        = { idle_decoder with msg_id := idle_decoder.msg_id + 1 }) ∧
    (write_all (msgpack.serialize [] (Val.arr_size 3 :: Val.int 2 :: Val.str (ascii "ping")
          :: Val.arr_size ([] : List Val).length :: []))
      ≠ (msgpack.serialize [] (Val.arr_size 3 :: Val.int 2 :: Val.str (ascii "ping")
          :: Val.arr_size ([] : List Val).length :: [])).length →
      (idle_decoder.send_call msgpack write_all NOTIFY_MSG (ascii "ping") 7 []).decoder
        = idle_decoder) :=
  notify_counter msgpack write_all idle_decoder (ascii "ping") 7 [] (by decide) (by decide)

/-! ### The decoder manager -/

/-- On an array whose transports are the registered `rs` followed by `k` null pointers,
`getDecoder` returns the entry of a registered transport and changes nothing, registers an
unregistered one in the first free entry, and is trapped when none is free. -/
theorem getDecoder_from_spec (t : Nat) :
    ∀ (m : List ManagerEntry) (rs : List Nat) (k i : Nat),
      m.map (fun e => e.transport) = rs.map some ++ List.replicate k none →
      getDecoder_from t m i =
        if t ∈ rs then some (i + rs.indexOf t, m)
        else if 0 < k then
          some (i + rs.length,
                m.set rs.length { transport := some t,
                                  decoder := some (RpcDecoder.init MAX_BUFFER_SIZE) })
        else none := by
  intro m
  induction m with
  | nil =>
    intro rs k i h
    have hrs : rs = [] := by
      cases rs with
      | nil => rfl
      | cons r rs => simp at h
    have hk : k = 0 := by
      subst hrs
      cases k with
      | zero => rfl
      | succ k => simp [List.replicate_succ] at h
    subst hrs hk
    simp [getDecoder_from]
  | cons e es ih =>
    intro rs k i h
    cases rs with
    | nil =>
      cases k with
      | zero => simp at h
      | succ k =>
        simp only [List.map_cons, List.map_nil, List.nil_append, List.replicate_succ,
          List.cons.injEq] at h
        have h1 : ¬ e.transport = some t := by rw [h.1]; simp
        simp [getDecoder_from, h1, h.1]
    | cons r rs =>
      simp only [List.map_cons, List.cons_append, List.cons.injEq] at h
      by_cases hr : r = t
      · subst hr
        simp [getDecoder_from, h.1]
      · have h1 : ¬ e.transport = some t := by rw [h.1]; simp [hr]
        have h2 : ¬ e.transport = none := by rw [h.1]; simp
        have hne : ¬ t = r := fun h => hr h.symm
        rw [getDecoder_from]
        simp only [h1, h2, if_false, ih rs k (i + 1) h.2, List.mem_cons, hne, false_or,
          List.indexOf_cons_ne _ hr, List.length_cons, List.set_cons_succ]
        by_cases hm : t ∈ rs
        · simp only [hm, if_true]
          congr 2
          omega
        · simp only [hm, if_false]
          by_cases hk : 0 < k
          · simp only [hk, if_true]
            congr 2
            omega
          · simp only [hk, if_false]

/-- The transports named by a program put after another. -/
theorem named_append (a b : List ManagerOp) : named (a ++ b) = named a ++ named b := by
  induction a with
  | nil => rfl
  | cons o a ih => cases o <;> simp [named, ih]

/-- A use of a decoder leaves the transport pointers of the array as they are. -/
theorem use_transports (m : RpcDecoderManager) (slot : Nat) (d : RpcDecoder) :
    (m.use slot d).map (fun e => e.transport) = m.map (fun e => e.transport) := by
  unfold RpcDecoderManager.use
  cases h : m.get? slot with
  | none => rfl
  | some entry =>
    cases hd : entry.decoder with
    | none => simp only [hd]
    | some d0 =>
      simp only [hd, List.map_set]
      apply List.ext_getElem?
      intro j
      rw [List.getElem?_set]
      by_cases hj : slot = j
      · subst hj
        rw [List.get?_eq_getElem?] at h
        obtain ⟨hlt, he⟩ := List.getElem?_eq_some.mp h
        simp [hlt, he]
      · simp [hj]

/-- A use of a decoder leaves every registered entry with a decoder. -/
theorem use_decoders (m : RpcDecoderManager) (slot : Nat) (d : RpcDecoder)
    (h : ∀ e ∈ m, e.transport ≠ none → e.decoder ≠ none) :
    ∀ e ∈ m.use slot d, e.transport ≠ none → e.decoder ≠ none := by
  unfold RpcDecoderManager.use
  cases hs : m.get? slot with
  | none => exact h
  | some entry =>
    cases hd : entry.decoder with
    | none => simpa only [hd] using h
    | some d0 =>
      simp only [hd]
      intro e he
      rcases List.mem_or_eq_of_mem_set he with h1 | h1
      · exact h e h1
      · subst h1
        simp

/-- A list without repetition inside another is no longer than the other without repetition. -/
theorem nodup_length_le_dedup {a b : List Nat} (ha : a.Nodup) (hab : a ⊆ b) :
    a.length ≤ b.dedup.length :=
  (List.subperm_of_subset ha (fun _ hx => (List.subset_dedup b) (hab hx))).length_le

/-- The number of distinct members grows with the list. -/
theorem dedup_length_mono {a b : List Nat} (hab : a ⊆ b) :
    a.dedup.length ≤ b.dedup.length :=
  nodup_length_le_dedup (List.nodup_dedup a) (fun _ hx => hab (List.dedup_subset a hx))

/-- Registering a transport in the first free entry, on the transport pointers. -/
theorem register_transports (rs : List Nat) (k t : Nat) :
    (rs.map some ++ List.replicate (k + 1) none).set rs.length (some t)
      = (rs ++ [t]).map some ++ List.replicate k none := by
  rw [List.set_append_right _ _ (by simp)]
  simp [List.replicate_succ]

/-- A program that names no more transports than the array has free entries runs through; the
entry returned for a transport is its place in the order of registration. -/
theorem run_ops_spec : ∀ (ops : List ManagerOp) (m : RpcDecoderManager) (rs : List Nat) (k : Nat),
    m.map (fun e => e.transport) = rs.map some ++ List.replicate k none →
    rs.Nodup →
    (∀ e ∈ m, e.transport ≠ none → e.decoder ≠ none) →
    (rs ++ named ops).dedup.length ≤ rs.length + k →
    ∃ slots m1 ext k1, run_ops m ops = some (slots, m1) ∧
      m1.map (fun e => e.transport) = (rs ++ ext).map some ++ List.replicate k1 none ∧
      (rs ++ ext).Nodup ∧
      (∀ e ∈ m1, e.transport ≠ none → e.decoder ≠ none) ∧
      (∀ t, t ∈ named ops → t ∈ rs ++ ext) ∧
      slots = (named ops).map (fun t => List.indexOf t (rs ++ ext)) := by
  intro ops
  induction ops with
  | nil =>
    intro m rs k hm hn hd _
    exact ⟨[], m, [], k, rfl, by simpa using hm, by simpa using hn, hd, by simp [named],
      by simp [named]⟩
  | cons o ops ih =>
    intro m rs k hm hn hd hcap
    cases o with
    | use slot d =>
      have hm1 := (use_transports m slot d).trans hm
      obtain ⟨slots, m1, ext, k1, hrun, h1, h2, h3, h4, h5⟩ :=
        ih (m.use slot d) rs k hm1 hn (use_decoders m slot d hd) (by simpa [named] using hcap)
      exact ⟨slots, m1, ext, k1, by simpa [run_ops] using hrun, h1, h2, h3,
        by simpa [named] using h4, by simpa [named] using h5⟩
    | get t =>
      have hG := getDecoder_from_spec t m rs k 0 hm
      by_cases ht : t ∈ rs
      · have hcap1 : (rs ++ named ops).dedup.length ≤ rs.length + k := by
          refine le_trans (dedup_length_mono ?_) hcap
          intro x hx
          simp only [named, List.mem_append, List.mem_cons] at hx ⊢
          tauto
        obtain ⟨slots, m1, ext, k1, hrun, h1, h2, h3, h4, h5⟩ := ih m rs k hm hn hd hcap1
        refine ⟨List.indexOf t rs :: slots, m1, ext, k1, ?_, h1, h2, h3, ?_, ?_⟩
        · simp only [run_ops, RpcDecoderManager.getDecoder, hG, ht, if_true, Nat.zero_add, hrun]
        · intro x hx
          simp only [named, List.mem_cons] at hx
          rcases hx with hx | hx
          · subst hx
            exact List.mem_append_left _ ht
          · exact h4 x hx
        · simp only [named, List.map_cons, List.indexOf_append_of_mem ht, h5]
      · have hk : 0 < k := by
          have hnd : (rs ++ [t]).Nodup := by
            rw [List.nodup_append]
            refine ⟨hn, List.nodup_singleton t, ?_⟩
            intro x hx hx1
            simp only [List.mem_singleton] at hx1
            subst hx1
            exact ht hx
          have hsub : rs ++ [t] ⊆ rs ++ named (ManagerOp.get t :: ops) := by
            intro x hx
            simp only [named, List.mem_append, List.mem_cons, List.mem_singleton] at hx ⊢
            tauto
          have := le_trans (nodup_length_le_dedup hnd hsub) hcap
          simp only [List.length_append, List.length_singleton] at this
          omega
        obtain ⟨k0, rfl⟩ : ∃ k0, k = k0 + 1 := ⟨k - 1, by omega⟩
        have hm1 : (m.set rs.length ⟨some t, some (RpcDecoder.init MAX_BUFFER_SIZE)⟩).map
              (fun e => e.transport)
            = (rs ++ [t]).map some ++ List.replicate k0 none := by
          rw [List.map_set, hm, register_transports]
        have hn1 : (rs ++ [t]).Nodup := by
          rw [List.nodup_append]
          refine ⟨hn, List.nodup_singleton t, ?_⟩
          intro x hx hx1
          simp only [List.mem_singleton] at hx1
          subst hx1
          exact ht hx
        have hd1 : ∀ e ∈ m.set rs.length ⟨some t, some (RpcDecoder.init MAX_BUFFER_SIZE)⟩,
            e.transport ≠ none → e.decoder ≠ none := by
          intro e he
          rcases List.mem_or_eq_of_mem_set he with h1 | h1
          · exact hd e h1
          · subst h1
            simp
        have hcap1 : ((rs ++ [t]) ++ named ops).dedup.length ≤ (rs ++ [t]).length + k0 := by
          have : (rs ++ [t]) ++ named ops = rs ++ named (ManagerOp.get t :: ops) := by
            simp [named]
          rw [this]
          simp only [List.length_append, List.length_singleton]
          omega
        obtain ⟨slots, m1, ext, k1, hrun, h1, h2, h3, h4, h5⟩ :=
          ih _ (rs ++ [t]) k0 hm1 hn1 hd1 hcap1
        have hassoc : (rs ++ [t]) ++ ext = rs ++ t :: ext := by simp
        rw [hassoc] at h1 h2 h4 h5
        refine ⟨rs.length :: slots, m1, t :: ext, k1, ?_, h1, h2, h3, ?_, ?_⟩
        · simp only [run_ops, RpcDecoderManager.getDecoder, hG, ht, if_false, hk, if_true,
            Nat.zero_add, hrun]
        · intro x hx
          simp only [named, List.mem_cons] at hx
          rcases hx with hx | hx
          · subst hx
            simp
          · exact h4 x hx
        · simp only [named, List.map_cons, List.indexOf_append_of_not_mem ht,
            List.indexOf_cons_self, Nat.add_zero, h5]



/-- C15: a program whose `getDecoder` calls name at most `MaxTransports` distinct transports
runs through without reaching the trap; two of its calls return the decoder of the same entry
exactly when they were given the same transport; and a call for a transport named before finds
the entry of that transport with its decoder and leaves the whole array, the state of every
decoder included, as it was. -/
theorem getDecoder_one_per_transport (MaxTransports : Nat) (ops : List ManagerOp)
    (h : (named ops).dedup.length ≤ MaxTransports) :
    ∃ slots m, run_ops (RpcDecoderManager.init MaxTransports) ops = some (slots, m) ∧
      slots.length = (named ops).length ∧
      (∀ i j, i < slots.length → j < slots.length →
        (slots[i]? = slots[j]? ↔ (named ops)[i]? = (named ops)[j]?)) ∧
      (∀ pre t post, ops = pre ++ ManagerOp.get t :: post → t ∈ named pre →
        ∃ slots1 m1 slot decoder,
          run_ops (RpcDecoderManager.init MaxTransports) pre = some (slots1, m1) ∧
          m1.getDecoder t = some (slot, m1) ∧
          m1[slot]? = some { transport := some t, decoder := some decoder }) := by
  have hinit : (RpcDecoderManager.init MaxTransports).map (fun e => e.transport)
      = ([] : List Nat).map some ++ List.replicate MaxTransports none := by
    simp [RpcDecoderManager.init]
  have hdec : ∀ e ∈ RpcDecoderManager.init MaxTransports,
      e.transport ≠ none → e.decoder ≠ none := by
    intro e he
    simp only [RpcDecoderManager.init, List.mem_replicate] at he
    rw [he.2]
    simp
  obtain ⟨slots, m, ext, k1, hrun, _, h2, _, h4, h5⟩ :=
    run_ops_spec ops (RpcDecoderManager.init MaxTransports) [] MaxTransports hinit
      List.nodup_nil hdec (by simpa using h)
  simp only [List.nil_append] at h2 h4 h5
  refine ⟨slots, m, hrun, by simp [h5], ?_, ?_⟩
  · intro i j hi hj
    have hlen : slots.length = (named ops).length := by simp [h5]
    rw [hlen] at hi hj
    subst h5
    simp only [List.getElem?_map, List.getElem?_eq_getElem hi, List.getElem?_eq_getElem hj,
      Option.map_some', Option.some.injEq]
    exact List.indexOf_inj (h4 _ (List.getElem_mem _)) (h4 _ (List.getElem_mem _))
  · intro pre t post hops ht
    have hcap : (([] : List Nat) ++ named pre).dedup.length ≤ ([] : List Nat).length
        + MaxTransports := by
      simp only [List.nil_append, List.length_nil, Nat.zero_add]
      refine le_trans (dedup_length_mono ?_) h
      rw [hops, named_append]
      exact List.subset_append_left _ _
    obtain ⟨slots1, m1, ext1, k2, hrun1, g1, _, g3, g4, _⟩ :=
      run_ops_spec pre (RpcDecoderManager.init MaxTransports) [] MaxTransports hinit
        List.nodup_nil hdec hcap
    simp only [List.nil_append] at g1 g4
    have hmem : t ∈ ext1 := g4 t ht
    have hG := getDecoder_from_spec t m1 ext1 k2 0 g1
    simp only [hmem, if_true, Nat.zero_add] at hG
    have hlt : List.indexOf t ext1 < ext1.length := List.indexOf_lt_length.mpr hmem
    have htr : (m1.map (fun e => e.transport))[List.indexOf t ext1]? = some (some t) := by
      rw [g1, List.getElem?_append_left (by simpa using hlt), List.getElem?_map,
        List.getElem?_eq_getElem hlt]
      simp
    rw [List.getElem?_map] at htr
    cases he : m1[List.indexOf t ext1]? with
    | none => simp [he] at htr
    | some e =>
      simp only [he, Option.map_some', Option.some.injEq] at htr
      have hmem1 : e ∈ m1 := List.mem_iff_getElem?.mpr ⟨_, he⟩
      have hne : e.decoder ≠ none := g3 e hmem1 (by simp [htr])
      obtain ⟨decoder, hdcd⟩ := Option.ne_none_iff_exists'.mp hne
      refine ⟨slots1, m1, List.indexOf t ext1, decoder, hrun1, hG, ?_⟩
      rw [he]
      cases e
      simp only at htr hdcd
      simp [htr, hdcd]

theorem getDecoder_one_per_transport_witness :
    (named two_links).dedup.length ≤ 3 ∧
    ∃ slots m, run_ops (RpcDecoderManager.init 3) two_links = some (slots, m) ∧
      slots.length = (named two_links).length ∧
      (∀ i j, i < slots.length → j < slots.length →
        (slots[i]? = slots[j]? ↔ (named two_links)[i]? = (named two_links)[j]?)) ∧
      (∀ pre t post, two_links = pre ++ ManagerOp.get t :: post → t ∈ named pre →
        ∃ slots1 m1 slot decoder,
          run_ops (RpcDecoderManager.init 3) pre = some (slots1, m1) ∧
          m1.getDecoder t = some (slot, m1) ∧
          m1[slot]? = some { transport := some t, decoder := some decoder }) :=
  ⟨by decide, getDecoder_one_per_transport 3 two_links (by decide)⟩

/-- The program of C15's witness on an array of three entries: the calls return the entries
0, 1 and 0, and the decoder of transport 7 is, after the third call, in the state its use left
it in. -/
theorem two_links_run :
    run_ops (RpcDecoderManager.init 3) two_links
      = some ([0, 1, 0],
          [{ transport := some 7, decoder := some idle_decoder },
           { transport := some 9, decoder := some (RpcDecoder.init MAX_BUFFER_SIZE) },
           { transport := none, decoder := none }]) := by
  rfl

/-- On an array of two entries a third transport is trapped. -/
theorem third_transport_trapped :
    run_ops (RpcDecoderManager.init 2) [ManagerOp.get 7, ManagerOp.get 9, ManagerOp.get 8]
      = none := by
  decide

/-! ### `process_requests` round by round -/

/-- The loop body of `process_requests` in terms of the envelope it decodes. -/
theorem process_requests_body_envelope (C : Codec) (disp : RpcFunctionDispatcher)
    (d : RpcDecoder) (k : Nat) :
    process_requests_body C disp d k =
      match envelope_at C d k with
      | Envelope.undecoded => some (Step.next [])
      | Envelope.request msg_type msg_id method u =>
        dispatch_reply C disp d k msg_type msg_id method u
      | Envelope.response => some (Step.stop { decoder := d, sent := [], invoked := [] })
      | Envelope.mismatch =>
        match d.discard_packet C with
        | none => none
        | some (_, d1) => some (Step.stop { decoder := d1, sent := [], invoked := [] }) := by
  unfold process_requests_body envelope_at
  simp only []
  split
  · rfl
  · split
    · split
      · split
        · split
          · rfl
          · rfl
        · rfl
      · split
        · split
          · split
            · rfl
            · rfl
          · rfl
        · split
          · rfl
          · rfl
    · rfl

/-- What a wrapper leaves in the packer: after `true` a nil and a value are appended and
`_func` ran at most once; after `false` nothing is appended or an error and a nil are, and
`_func` did not run. -/
theorem wrapper_call_shape (C : Codec) (w : RpcFunctionWrapper) (u : C.Unpacker)
    (packer : List Nat) :
    ((w.call C u packer).ok = true →
      ∃ y, (w.call C u packer).packer = C.serialize packer [Val.nil, y]) ∧
    ((w.call C u packer).ok = false →
      (w.call C u packer).invoked = [] ∧
      ((w.call C u packer).packer = packer ∨
       ∃ e, (w.call C u packer).packer = C.serialize packer [Val.error e, Val.nil])) := by
  unfold RpcFunctionWrapper.call
  simp only []
  split
  · exact ⟨fun h => by simp at h, fun _ => ⟨rfl, Or.inr ⟨_, rfl⟩⟩⟩
  · split
    · exact ⟨fun h => by simp at h, fun _ => ⟨rfl, Or.inr ⟨_, rfl⟩⟩⟩
    · split
      · exact ⟨fun h => by simp at h, fun _ => ⟨rfl, Or.inr ⟨_, rfl⟩⟩⟩
      · unfold RpcFunctionWrapper.handle_call
        split
        · exact ⟨fun h => by simp at h, fun _ => ⟨rfl, Or.inl rfl⟩⟩
        · split
          · exact ⟨fun _ => ⟨_, rfl⟩, fun h => by simp at h⟩
          · exact ⟨fun _ => ⟨_, rfl⟩, fun h => by simp at h⟩

/-- What the search loop of the dispatcher leaves in the packer, as for a wrapper. -/
theorem call_from_shape (C : Codec) (name : List Nat) (u : C.Unpacker) (packer : List Nat) :
    ∀ (es : List DispatchEntry) (i : Nat),
      ((call_from C name u packer es i).ok = true →
        ∃ y, (call_from C name u packer es i).packer = C.serialize packer [Val.nil, y]) ∧
      ((call_from C name u packer es i).ok = false →
        (call_from C name u packer es i).invoked = [] ∧
        ((call_from C name u packer es i).packer = packer ∨
         ∃ e, (call_from C name u packer es i).packer
            = C.serialize packer [Val.error e, Val.nil])) := by
  intro es
  induction es with
  | nil =>
    intro i
    exact ⟨fun h => by simp [call_from] at h, fun _ => ⟨rfl, Or.inr ⟨_, rfl⟩⟩⟩
  | cons e es ih =>
    intro i
    unfold call_from
    split
    · have hw := wrapper_call_shape C e.fn u packer
      refine ⟨fun h => hw.1 h, fun h => ⟨?_, (hw.2 h).2⟩⟩
      simp only [(hw.2 h).1, List.map_nil]
    · exact ih (i + 1)

/-- What the dispatcher leaves in the packer, as for a wrapper. -/
theorem dispatcher_call_shape (C : Codec) (disp : RpcFunctionDispatcher) (name : List Nat)
    (u : C.Unpacker) (packer : List Nat) :
    ((disp.call C name u packer).ok = true →
      ∃ y, (disp.call C name u packer).packer = C.serialize packer [Val.nil, y]) ∧
    ((disp.call C name u packer).ok = false →
      (disp.call C name u packer).invoked = [] ∧
      ((disp.call C name u packer).packer = packer ∨
       ∃ e, (disp.call C name u packer).packer = C.serialize packer [Val.error e, Val.nil])) :=
  call_from_shape C name u packer disp.entries 0

/-- A Response header followed by an error slot and a result slot is the Response of the five
values. -/
theorem serialize_header_slots (C : Codec) (msg_id : Int) (x y : Val) :
    C.serialize (C.serialize [] [Val.arr_size RESPONSE_SIZE, Val.int RESP_MSG, Val.int msg_id])
        [x, y]
      = C.serialize [] [Val.arr_size RESPONSE_SIZE, Val.int RESP_MSG, Val.int msg_id, x, y] := by
  simp [Codec.serialize]

/-- A round that turns to the dispatcher writes at most one message, only for a Call, and that
message is a Response with exclusive slots; it ends once the scan of `discard_packet` does. -/
theorem dispatch_reply_sent (C : Codec) (disp : RpcFunctionDispatcher) (d : RpcDecoder)
    (k : Nat) (msg_type msg_id : Int) (method : List Nat) (u : C.Unpacker)
    (hd : (d.discard_packet C).isSome = true) :
    ∃ step, dispatch_reply C disp d k msg_type msg_id method u = some step ∧
      ∀ o, step = Step.stop o →
        (msg_type ≠ CALL_MSG → o.sent = []) ∧ ∀ data ∈ o.sent, is_response C data := by
  have hshape := dispatcher_call_shape C disp method u (reply_header C msg_type msg_id)
  obtain ⟨⟨n, d1⟩, hdis⟩ := Option.isSome_iff_exists.mp hd
  unfold dispatch_reply
  simp only []
  have hhdr : (if msg_type = CALL_MSG then
      C.serialize [] [Val.arr_size RESPONSE_SIZE, Val.int RESP_MSG, Val.int msg_id]
    else []) = reply_header C msg_type msg_id := rfl
  rw [hhdr]
  generalize disp.call C method u (reply_header C msg_type msg_id) = r at hshape
  have hsent : ∀ data ∈ (if msg_type = CALL_MSG then [r.packer] else []),
      (r.ok = false → r.packer ≠ reply_header C msg_type msg_id) → is_response C data := by
    intro data hdata hne
    by_cases hc : msg_type = CALL_MSG
    · simp only [hc, if_true, List.mem_singleton] at hdata
      subst hdata
      have hh : reply_header C msg_type msg_id
          = C.serialize [] [Val.arr_size RESPONSE_SIZE, Val.int RESP_MSG, Val.int msg_id] := by
        simp [reply_header, hc]
      cases hok : r.ok with
      | true =>
        obtain ⟨y, hy⟩ := hshape.1 hok
        refine ⟨msg_id, Val.nil, y, ?_, Or.inl rfl⟩
        rw [hy, hh, serialize_header_slots]
      | false =>
        rcases (hshape.2 hok).2 with h1 | ⟨e, he⟩
        · exact absurd h1 (hne hok)
        · refine ⟨msg_id, Val.error e, Val.nil, ?_, Or.inr ⟨⟨e, rfl⟩, rfl⟩⟩
          rw [he, hh, serialize_header_slots]
    · simp [hc] at hdata
  have hnil : msg_type ≠ CALL_MSG → (if msg_type = CALL_MSG then [r.packer] else []) = [] := by
    intro hc
    simp [hc]
  cases hok : r.ok with
  | false =>
    simp only [Bool.not_false, if_true]
    by_cases hlen : r.packer.length = (reply_header C msg_type msg_id).length
    · simp only [hlen, if_true]
      exact ⟨_, rfl, fun o ho => by cases ho⟩
    · simp only [hlen, if_false, hdis]
      refine ⟨_, rfl, fun o ho => ?_⟩
      cases ho
      exact ⟨hnil, fun data hdata => hsent data hdata (fun _ h => hlen (by rw [h]))⟩
  | true =>
    simp only [Bool.not_true, Bool.false_eq_true, if_false]
    refine ⟨_, rfl, fun o ho => ?_⟩
    cases ho
    exact ⟨hnil, fun data hdata => hsent data hdata (fun h => by simp [hok] at h)⟩

/-- A round of `process_requests` ends once the scan of `discard_packet` does, and a message it
writes is a Response with exclusive slots. -/
theorem process_requests_body_sent (C : Codec) (disp : RpcFunctionDispatcher) (d : RpcDecoder)
    (k : Nat) (hd : (d.discard_packet C).isSome = true) :
    ∃ step, process_requests_body C disp d k = some step ∧
      ∀ o, step = Step.stop o → ∀ data ∈ o.sent, is_response C data := by
  rw [process_requests_body_envelope]
  obtain ⟨⟨n, d1⟩, hdis⟩ := Option.isSome_iff_exists.mp hd
  cases envelope_at C d k with
  | undecoded => exact ⟨_, rfl, fun o ho => by cases ho⟩
  | request msg_type msg_id method u =>
    obtain ⟨step, hstep, h⟩ := dispatch_reply_sent C disp d k msg_type msg_id method u hd
    exact ⟨step, hstep, fun o ho => (h o ho).2⟩
  | response =>
    refine ⟨_, rfl, fun o ho => ?_⟩
    cases ho
    simp
  | mismatch =>
    simp only [hdis]
    refine ⟨_, rfl, fun o ho => ?_⟩
    cases ho
    simp

/-- The type of a decoded request is the type read with the header. -/
theorem envelope_at_request_type (C : Codec) (d : RpcDecoder) (k : Nat) (msg_type msg_id : Int)
    (method : List Nat) (u : C.Unpacker)
    (h : envelope_at C d k = Envelope.request msg_type msg_id method u) :
    envelope_type C d k = some msg_type := by
  unfold envelope_at at h
  unfold envelope_type
  simp only [] at h ⊢
  split at h
  · cases h
  · rename_i hf
    simp only [hf, if_false]
    split at h
    · split at h
      · split at h
        · split at h
          · cases h
          · cases h
            simp
        · cases h
      · split at h
        · split at h
          · split at h
            · cases h
            · cases h
              simp
          · cases h
        · split at h
          · cases h
          · cases h
    · cases h

/-- A round on a prefix that does not decode as a Call writes nothing. -/
theorem process_requests_body_notify (C : Codec) (disp : RpcFunctionDispatcher) (d : RpcDecoder)
    (k : Nat) (hd : (d.discard_packet C).isSome = true)
    (hn : envelope_type C d k = none ∨ envelope_type C d k = some NOTIFY_MSG) :
    ∃ step, process_requests_body C disp d k = some step ∧
      ∀ o, step = Step.stop o → o.sent = [] := by
  rw [process_requests_body_envelope]
  obtain ⟨⟨n, d1⟩, hdis⟩ := Option.isSome_iff_exists.mp hd
  cases he : envelope_at C d k with
  | undecoded => exact ⟨_, rfl, fun o ho => by cases ho⟩
  | request msg_type msg_id method u =>
    have ht := envelope_at_request_type C d k msg_type msg_id method u he
    have hty : msg_type ≠ CALL_MSG := by
      rw [ht] at hn
      rcases hn with h | h
      · cases h
      · cases h
        decide
    obtain ⟨step, hstep, h⟩ := dispatch_reply_sent C disp d k msg_type msg_id method u hd
    exact ⟨step, hstep, fun o ho => (h o ho).1 hty⟩
  | response =>
    refine ⟨_, rfl, fun o ho => ?_⟩
    cases ho
    rfl
  | mismatch =>
    simp only [hdis]
    refine ⟨_, rfl, fun o ho => ?_⟩
    cases ho
    rfl

/-- The loop of `process_requests` ends when its rounds do, and what holds of the messages of
every round that stops holds of the messages of the loop. -/
theorem process_requests_loop_sent (C : Codec) (disp : RpcFunctionDispatcher) (d : RpcDecoder)
    (S : List (List Nat) → Prop) (h0 : S []) :
    ∀ (n bytes_checked : Nat) (invoked : List (Nat × List Val)),
      (∀ k, bytes_checked ≤ k → k < bytes_checked + n →
        ∃ step, process_requests_body C disp d (k + 1) = some step ∧
          ∀ o, step = Step.stop o → S o.sent) →
      ∃ o, process_requests_loop C disp d n bytes_checked invoked = some o ∧ S o.sent := by
  intro n
  induction n with
  | zero =>
    intro bytes_checked invoked _
    exact ⟨_, rfl, h0⟩
  | succ n ih =>
    intro bytes_checked invoked h
    obtain ⟨step, hstep, hs⟩ := h bytes_checked (le_refl _) (by omega)
    unfold process_requests_loop
    rw [hstep]
    cases step with
    | next inv =>
      exact ih (bytes_checked + 1) (invoked ++ inv) (fun k h1 h2 => h k (by omega) (by omega))
    | stop o => exact ⟨_, rfl, hs o rfl⟩

/-- A round on a prefix that is not ready is left by `continue`, no handler invoked. -/
theorem process_requests_body_not_ready (C : Codec) (disp : RpcFunctionDispatcher)
    (d : RpcDecoder) (k : Nat) (h : not_ready C disp d k) :
    process_requests_body C disp d k = some (Step.next []) := by
  rw [process_requests_body_envelope]
  unfold not_ready at h
  cases he : envelope_at C d k with
  | undecoded => rfl
  | request msg_type msg_id method u =>
    simp only [he] at h ⊢
    have hinv := ((dispatcher_call_shape C disp method u (reply_header C msg_type msg_id)).2
      h.1).1
    unfold dispatch_reply
    have hhdr : (if msg_type = CALL_MSG then
        C.serialize [] [Val.arr_size RESPONSE_SIZE, Val.int RESP_MSG, Val.int msg_id]
      else []) = reply_header C msg_type msg_id := rfl
    simp only [hhdr, h.1, h.2, hinv, Bool.not_false, if_true]
  | response => simp only [he] at h
  | mismatch => simp only [he] at h

/-- The loop of `process_requests` over prefixes none of which is ready changes nothing. -/
theorem process_requests_loop_not_ready (C : Codec) (disp : RpcFunctionDispatcher)
    (d : RpcDecoder) :
    ∀ (n bytes_checked : Nat) (invoked : List (Nat × List Val)),
      (∀ k, bytes_checked ≤ k → k < bytes_checked + n → not_ready C disp d (k + 1)) →
      process_requests_loop C disp d n bytes_checked invoked
        = some { decoder := d, sent := [], invoked := invoked } := by
  intro n
  induction n with
  | zero =>
    intro bytes_checked invoked _
    rfl
  | succ n ih =>
    intro bytes_checked invoked h
    unfold process_requests_loop
    rw [process_requests_body_not_ready C disp d (bytes_checked + 1)
      (h bytes_checked (le_refl _) (by omega))]
    simp only [List.append_nil]
    exact ih (bytes_checked + 1) invoked (fun k h1 h2 => h k (by omega) (by omega))


/-! ### `process_requests`: Notify, Response slots, retry, envelope length -/

/-- C14: when every prefix of the buffer whose header decodes gives message type 2 (Notify),
`process_requests` returns (given that the scan of `discard_packet` ends) and has written
nothing to the transport, whatever the dispatcher does with the arguments. -/
theorem notify_never_responds (C : Codec) (d : RpcDecoder) (disp : RpcFunctionDispatcher)
    (hn : ∀ k, k < d.bytes_stored →
      envelope_type C d (k + 1) = none ∨ envelope_type C d (k + 1) = some NOTIFY_MSG)
    (hd : (d.discard_packet C).isSome = true) :
    ∃ o, d.process_requests C disp = some o ∧ o.sent = [] := by
  unfold RpcDecoder.process_requests
  split
  · exact ⟨_, rfl, rfl⟩
  · exact process_requests_loop_sent C disp d (fun sent => sent = []) rfl d.bytes_stored 0 []
      (fun k _ hk => process_requests_body_notify C disp d (k + 1) hd (hn k (by omega)))

theorem notify_never_responds_witness :
    (∀ k, k < add_notify.bytes_stored →
      envelope_type msgpack add_notify (k + 1) = none ∨
      envelope_type msgpack add_notify (k + 1) = some NOTIFY_MSG) ∧
    (add_notify.discard_packet msgpack).isSome = true ∧
    ∃ o, add_notify.process_requests msgpack ping_dispatcher = some o ∧ o.sent = [] :=
  ⟨by decide, by decide!,
   notify_never_responds msgpack add_notify ping_dispatcher (by decide) (by decide!)⟩

/-- Three Notify packets of C14 evaluated: "add" with two arguments runs the handler, "add"
with three is malformed, "sub" is not bound; nothing is written in any of them, and each packet
is evicted. -/
theorem notify_examples :
    add_notify.process_requests msgpack ping_dispatcher
      = some { decoder := (add_notify.pop_packet 9).2, sent := [],
               invoked := [(0, [Val.int 2, Val.int 3])] } ∧
    (long_notify.process_requests msgpack ping_dispatcher).map (fun o => (o.sent, o.invoked))
      = some ([], []) ∧
    (long_notify.process_requests msgpack ping_dispatcher).map (fun o => o.decoder.bytes_stored)
      = some 0 ∧
    (sub_notify.process_requests msgpack ping_dispatcher).map (fun o => (o.sent, o.invoked))
      = some ([], []) ∧
    (sub_notify.process_requests msgpack ping_dispatcher).map (fun o => o.decoder.bytes_stored)
      = some 0 := by
  decide!

/-- C18 fails on the code: the Call `[0, 7, "ping", []]` of a handler that returns `void` is
answered with the Response `[1, 7, nil, nil]`, both slots nil, and so is what `send_response`
builds for no error and a nil result. -/
theorem void_response_both_nil :
    ping_call.process_requests msgpack ping_dispatcher
      = some { decoder := (ping_call.pop_packet 9).2, sent := [[0x94, 0x01, 0x07, 0xc0, 0xc0]],
               invoked := [(1, [])] } ∧
    msgpack.serialize [] [Val.arr_size 4, Val.int 1, Val.int 7, Val.nil, Val.nil]
      = [0x94, 0x01, 0x07, 0xc0, 0xc0] ∧
    send_response_data msgpack 7 RpcError.default Val.nil = [0x94, 0x01, 0x07, 0xc0, 0xc0] := by
  decide!

/-- C18 as amended: what `send_response` builds, and every message `process_requests` writes
(it returns, given that the scan of `discard_packet` ends), is a Response
`[1, id, error, result]` in which the error slot is nil, or holds an error while the result
slot is nil; the slots are never both filled. -/
theorem response_slots_exclusive (C : Codec) (d : RpcDecoder) (disp : RpcFunctionDispatcher)
    (msg_id : Int) (error : RpcError) (result : Val)
    (hd : (d.discard_packet C).isSome = true) :
    is_response C (send_response_data C msg_id error result) ∧
    ∃ o, d.process_requests C disp = some o ∧ ∀ data ∈ o.sent, is_response C data := by
  constructor
  · unfold send_response_data
    simp only []
    split
    · exact ⟨msg_id, Val.nil, result, serialize_header_slots C msg_id _ _, Or.inl rfl⟩
    · exact ⟨msg_id, Val.error error, Val.nil, serialize_header_slots C msg_id _ _,
        Or.inr ⟨⟨error, rfl⟩, rfl⟩⟩
  · unfold RpcDecoder.process_requests
    split
    · exact ⟨_, rfl, by simp⟩
    · exact process_requests_loop_sent C disp d (fun sent => ∀ data ∈ sent, is_response C data)
        (by simp) d.bytes_stored 0 []
        (fun k _ _ => process_requests_body_sent C disp d (k + 1) hd)

theorem response_slots_exclusive_witness :
    (ping_call.discard_packet msgpack).isSome = true ∧
    is_response msgpack (send_response_data msgpack 7 ⟨FUNCTION_NOT_FOUND_ERR, ascii "sub"⟩
      (Val.int 5)) ∧
    ∃ o, ping_call.process_requests msgpack ping_dispatcher = some o ∧
      ∀ data ∈ o.sent, is_response msgpack data :=
  ⟨by decide!,
   response_slots_exclusive msgpack ping_call ping_dispatcher 7
     ⟨FUNCTION_NOT_FOUND_ERR, ascii "sub"⟩ (Val.int 5) (by decide!)⟩

/-- C19: when at every scanned length the envelope does not decode, or the dispatcher returns
`false` leaving the packer as long as it was, `process_requests` writes nothing, invokes no
handler and leaves the decoder (buffer, `bytes_stored`, cached type) as it was, whatever the
cached type. -/
theorem not_ready_retries (C : Codec) (d : RpcDecoder) (disp : RpcFunctionDispatcher)
    (h : ∀ k, k < d.bytes_stored → not_ready C disp d (k + 1)) :
    d.process_requests C disp = some { decoder := d, sent := [], invoked := [] } := by
  unfold RpcDecoder.process_requests
  split
  · rfl
  · exact process_requests_loop_not_ready C disp d d.bytes_stored 0 []
      (fun k _ hk => h k (by omega))

theorem not_ready_retries_witness :
    (∀ k, k < partial_call.bytes_stored → not_ready msgpack ping_dispatcher partial_call (k + 1)) ∧
    partial_call.process_requests msgpack ping_dispatcher
      = some { decoder := partial_call, sent := [], invoked := [] } :=
  ⟨by decide, not_ready_retries msgpack partial_call ping_dispatcher (by decide)⟩

/-- C20 fails on the code: the complete packet `[0, "m", [1, 2, 3, 4]]` (type 0 in an array of
length 3) takes the discarding branch at the second byte, and nothing is invoked or written,
but `discard_packet` evicts nothing: all nine bytes stay, only the cached type is reset; after
the next `parse_packet` the same happens again. A packet `[0, "m", 5]` without a nested array
is discarded. -/
theorem short_call_not_discarded :
    envelope_type msgpack short_call 2 = some 0 ∧
    (short_call.get_packet_size msgpack).map (fun r => r.1) = some 0 ∧
    short_call.process_requests msgpack add_dispatcher
      = some { decoder := { short_call with packet_type := NO_MSG, arr_sz := 4 },
               sent := [], invoked := [] } ∧
    ({ short_call with packet_type := NO_MSG, arr_sz := 4 } : RpcDecoder).parse_packet msgpack
      = { short_call with arr_sz := 4 } ∧
    ({ short_call with arr_sz := 4 } : RpcDecoder).process_requests msgpack add_dispatcher
      = some { decoder := { short_call with packet_type := NO_MSG, arr_sz := 4 },
               sent := [], invoked := [] } ∧
    (flat_short_call.process_requests msgpack add_dispatcher).map
        (fun o => (o.decoder.bytes_stored, o.sent, o.invoked))
      = some (0, [], []) := by
  decide!

/-! ### The scans of `get_packet_size` over the MessagePack codec end -/

/-- An array header can be read from an element of the array kind. -/
theorem read_arr_size_of_kind (l : List Nat) (h : is_kind Kind.array l = true) :
    ∃ n, read_arr_size l = some n := by
  cases l with
  | nil => simp [is_kind] at h
  | cons b rest =>
    simp only [is_kind, decide_eq_true_eq] at h
    simp only [read_arr_size]
    split_ifs <;> first | exact ⟨_, rfl⟩ | omega

/-- A map header can be read from an element of the map kind. -/
theorem read_map_size_of_kind (l : List Nat) (h : is_kind Kind.map l = true) :
    ∃ n, read_map_size l = some n := by
  cases l with
  | nil => simp [is_kind] at h
  | cons b rest =>
    simp only [is_kind, decide_eq_true_eq] at h
    simp only [read_map_size]
    split_ifs <;> first | exact ⟨_, rfl⟩ | omega

/-- An element exists only at a cursor within the index. -/
theorem elem_lt (u : MUnpacker) (c : Nat) (l : List Nat) (h : u.elem c = some l) :
    c < u.indices.length := by
  unfold MUnpacker.elem at h
  rw [List.get?_eq_getElem?] at h
  cases hg : u.indices[c]? with
  | none => simp [hg] at h
  | some pos => exact (List.getElem?_eq_some.mp hg).1

/-- A read of one element moves the cursor by one when it succeeds, within the index, and
leaves the unpacker when it fails. -/
theorem mdeserialize_step (u : MUnpacker) (t : Ty) (ht : t ≠ Ty.error) :
    ((mdeserialize u t).2.isSome = true →
      (mdeserialize u t).1 = { u with curr_index := u.curr_index + 1 } ∧
      u.curr_index < u.indices.length) ∧
    ((mdeserialize u t).2.isSome = false → (mdeserialize u t).1 = u) := by
  unfold mdeserialize
  split
  · simp
  · cases t with
    | error => exact absurd rfl ht
    | _ =>
      simp only []
      cases he : u.elem u.curr_index with
      | none => simp
      | some l =>
        simp only [Option.some_bind]
        split
        · simp [elem_lt u u.curr_index l he]
        · simp

/-- The header read of `unpackArray` at an element of the array kind succeeds and moves the
cursor by one. -/
theorem mdeserialize_arr_header (u : MUnpacker) (hb : u.b_decoded = true)
    (hp : mprobe u Kind.array = true) :
    ∃ n u1, mdeserialize u Ty.arr_size = (u1, some (Val.arr_size n)) ∧ u1.b_decoded = true ∧
      u1.indices.length - u1.curr_index + 1 ≤ u.indices.length - u.curr_index := by
  unfold mprobe at hp
  cases he : u.elem u.curr_index with
  | none => simp [he] at hp
  | some l =>
    simp only [he] at hp
    obtain ⟨n, hn⟩ := read_arr_size_of_kind l hp
    have hlt := elem_lt u u.curr_index l he
    refine ⟨n, { u with curr_index := u.curr_index + 1 }, ?_, hb, ?_⟩
    · simp [mdeserialize, hb, he, read1, hn]
    · simp only []
      omega

/-- The header read of `unpackMap` at an element of the map kind succeeds and moves the cursor
by one. -/
theorem mdeserialize_map_header (u : MUnpacker) (hb : u.b_decoded = true)
    (hp : mprobe u Kind.map = true) :
    ∃ n u1, mdeserialize u Ty.map_size = (u1, some (Val.map_size n)) ∧ u1.b_decoded = true ∧
      u1.indices.length - u1.curr_index + 1 ≤ u.indices.length - u.curr_index := by
  unfold mprobe at hp
  cases he : u.elem u.curr_index with
  | none => simp [he] at hp
  | some l =>
    simp only [he] at hp
    obtain ⟨n, hn⟩ := read_map_size_of_kind l hp
    have hlt := elem_lt u u.curr_index l he
    refine ⟨n, { u with curr_index := u.curr_index + 1 }, ?_, hb, ?_⟩
    · simp [mdeserialize, hb, he, read1, hn]
    · simp only []
      omega

/-- A scalar read of `unpackObject` keeps the unpacker decoded and, when it succeeds, takes an
element. -/
theorem scan_skip (s : Scan msgpack) (t : Ty) (ht : t ≠ Ty.error)
    (hb : MUnpacker.b_decoded s.u = true) :
    ∃ b s1, some (s.skip t) = some (b, s1) ∧ MUnpacker.b_decoded s1.u = true ∧
      scan_left s1 ≤ scan_left s ∧ (b = true → scan_left s1 < scan_left s) := by
  refine ⟨_, _, rfl, ?_⟩
  have hstep := mdeserialize_step s.u t ht
  have hdes : msgpack.deserialize s.u t = mdeserialize s.u t := rfl
  unfold scan_left
  simp only [hdes]
  cases hs : (mdeserialize s.u t).2.isSome with
  | true =>
    obtain ⟨h1, h2⟩ := hstep.1 hs
    rw [h1]
    simp only [hb, true_and]
    constructor
    · omega
    · intro _
      omega
  | false =>
    rw [hstep.2 hs]
    simp [hb]

/-- With an allowance of twice the elements left and one more (two more for the loops),
`unpackObject` and the loops of `unpackArray` and `unpackMap` return on a decoded unpacker;
they take no element back, and an `unpackObject` that returns `true` has taken one. -/
theorem scan_total : ∀ fuel : Nat,
    (∀ s : Scan msgpack, MUnpacker.b_decoded s.u = true → 2 * scan_left s + 1 ≤ fuel →
      ∃ b s1, unpackObject msgpack fuel s = some (b, s1) ∧ MUnpacker.b_decoded s1.u = true ∧
        scan_left s1 ≤ scan_left s ∧ (b = true → scan_left s1 < scan_left s)) ∧
    (∀ (i : Nat) (s : Scan msgpack), MUnpacker.b_decoded s.u = true →
      2 * scan_left s + 2 ≤ fuel →
      ∃ b s1, unpackArrayLoop msgpack fuel i s = some (b, s1) ∧
        MUnpacker.b_decoded s1.u = true ∧ scan_left s1 ≤ scan_left s) ∧
    (∀ (i : Nat) (s : Scan msgpack), MUnpacker.b_decoded s.u = true →
      2 * scan_left s + 2 ≤ fuel →
      ∃ b s1, unpackMapLoop msgpack fuel i s = some (b, s1) ∧
        MUnpacker.b_decoded s1.u = true ∧ scan_left s1 ≤ scan_left s) := by
  intro fuel
  induction fuel with
  | zero =>
    refine ⟨?_, ?_, ?_⟩
    · intro s _ h
      omega
    · intro i s _ h
      omega
    · intro i s _ h
      omega
  | succ fuel ih =>
    obtain ⟨ihO, ihA, ihM⟩ := ih
    refine ⟨?_, ?_, ?_⟩
    · intro s hb hf
      rw [unpackObject]
      by_cases h1 : msgpack.probe s.u Kind.nil = true
      · rw [if_pos h1]
        exact scan_skip s Ty.nil (by decide) hb
      rw [if_neg h1]
      by_cases h2 : msgpack.probe s.u Kind.bool = true
      · rw [if_pos h2]
        exact scan_skip s Ty.bool (by decide) hb
      rw [if_neg h2]
      by_cases h3 : (msgpack.probe s.u Kind.uint || msgpack.probe s.u Kind.int) = true
      · rw [if_pos h3]
        exact scan_skip s Ty.int (by decide) hb
      rw [if_neg h3]
      by_cases h4 : msgpack.probe s.u Kind.float32 = true
      · rw [if_pos h4]
        exact scan_skip s Ty.float (by decide) hb
      rw [if_neg h4]
      by_cases h5 : msgpack.probe s.u Kind.float64 = true
      · rw [if_pos h5]
        exact scan_skip s Ty.double (by decide) hb
      rw [if_neg h5]
      by_cases h6 : msgpack.probe s.u Kind.str = true
      · rw [if_pos h6]
        exact scan_skip s Ty.str (by decide) hb
      rw [if_neg h6]
      by_cases h7 : msgpack.probe s.u Kind.bin = true
      · rw [if_pos h7]
        exact scan_skip s Ty.bin (by decide) hb
      rw [if_neg h7]
      by_cases h8 : msgpack.probe s.u Kind.array = true
      · rw [if_pos h8]
        obtain ⟨n, u1, hn, hb0, hlt⟩ := mdeserialize_arr_header s.u hb h8
        have hdes : msgpack.deserialize s.u Ty.arr_size = mdeserialize s.u Ty.arr_size := rfl
        simp only [hdes, hn]
        have hleft : scan_left { u := u1, arr_sz := n, map_sz := s.map_sz } + 1
            ≤ scan_left s := hlt
        obtain ⟨b, s1, hr, hb1, hle⟩ :=
          ihA 0 { u := u1, arr_sz := n, map_sz := s.map_sz } hb0 (by omega)
        exact ⟨b, s1, hr, hb1, by omega, fun _ => by omega⟩
      rw [if_neg h8]
      by_cases h9 : msgpack.probe s.u Kind.map = true
      · rw [if_pos h9]
        obtain ⟨n, u1, hn, hb0, hlt⟩ := mdeserialize_map_header s.u hb h9
        have hdes : msgpack.deserialize s.u Ty.map_size = mdeserialize s.u Ty.map_size := rfl
        simp only [hdes, hn]
        have hleft : scan_left { u := u1, arr_sz := s.arr_sz, map_sz := n } + 1
            ≤ scan_left s := hlt
        obtain ⟨b, s1, hr, hb1, hle⟩ :=
          ihM 0 { u := u1, arr_sz := s.arr_sz, map_sz := n } hb0 (by omega)
        exact ⟨b, s1, hr, hb1, by omega, fun _ => by omega⟩
      rw [if_neg h9]
      by_cases h10 : (msgpack.probe s.u Kind.fixext || msgpack.probe s.u Kind.ext) = true
      · rw [if_pos h10]
        exact scan_skip s Ty.ext (by decide) hb
      rw [if_neg h10]
      by_cases h11 : msgpack.probe s.u Kind.timestamp = true
      · rw [if_pos h11]
        exact scan_skip s Ty.timespec (by decide) hb
      rw [if_neg h11]
      exact ⟨false, s, rfl, hb, le_refl _, fun h => by cases h⟩
    · intro i s hb hf
      rw [unpackArrayLoop]
      by_cases hi : i < s.arr_sz
      · simp only [hi, if_true]
        obtain ⟨b, s1, hr, hb1, hle, hlt⟩ := ihO s hb (by omega)
        rw [hr]
        cases b with
        | true =>
          have := hlt rfl
          obtain ⟨b2, s2, hr2, hb2, hle2⟩ := ihA (i + 1) s1 hb1 (by omega)
          exact ⟨b2, s2, hr2, hb2, by omega⟩
        | false => exact ⟨false, s1, rfl, hb1, hle⟩
      · simp only [hi, if_false]
        exact ⟨true, s, rfl, hb, le_refl _⟩
    · intro i s hb hf
      rw [unpackMapLoop]
      by_cases hi : i < s.map_sz
      · simp only [hi, if_true]
        obtain ⟨b, s1, hr, hb1, hle, hlt⟩ := ihO s hb (by omega)
        rw [hr]
        cases b with
        | false => exact ⟨false, s1, rfl, hb1, hle⟩
        | true =>
          have h1 := hlt rfl
          obtain ⟨b2, s2, hr2, hb2, hle2, hlt2⟩ := ihO s1 hb1 (by omega)
          simp only [hr2]
          cases b2 with
          | false => exact ⟨false, s2, rfl, hb2, by omega⟩
          | true =>
            have h2 := hlt2 rfl
            obtain ⟨b3, s3, hr3, hb3, hle3⟩ := ihM (i + 1) s2 hb2 (by omega)
            exact ⟨b3, s3, hr3, hb3, by omega⟩
      · simp only [hi, if_false]
        exact ⟨true, s, rfl, hb, le_refl _⟩

/-- The indexing loop of `feed` indexes no more elements than it has rounds. -/
theorem feed_loop_length (raw : List Nat) (size : Nat) :
    ∀ (fuel i : Nat), (feed_loop raw size fuel i).1.length ≤ fuel := by
  intro fuel
  induction fuel with
  | zero =>
    intro i
    simp [feed_loop]
  | succ fuel ih =>
    intro i
    unfold feed_loop
    split
    · simp only [List.length_cons]
      have := ih (i + elem_size (raw.drop i))
      omega
    · simp

/-- The method `unpackArray` returns on a decoded unpacker when its allowance is twice the
elements left and two more. -/
theorem unpackArray_total (fuel : Nat) (s : Scan msgpack)
    (hb : MUnpacker.b_decoded s.u = true) (hf : 2 * scan_left s + 2 ≤ fuel) :
    ∃ b s1, unpackArray msgpack fuel s = some (b, s1) := by
  unfold unpackArray
  simp only []
  have hdes : msgpack.deserialize s.u Ty.arr_size = mdeserialize s.u Ty.arr_size := rfl
  have hstep := mdeserialize_step s.u Ty.arr_size (by decide)
  rw [hdes]
  generalize hsz : (match (mdeserialize s.u Ty.arr_size).2 with
    | some (Val.arr_size n) => n
    | _ => s.arr_sz) = sz
  have hu : MUnpacker.b_decoded (mdeserialize s.u Ty.arr_size).1 = true ∧
      scan_left { u := (mdeserialize s.u Ty.arr_size).1, arr_sz := sz, map_sz := s.map_sz }
        ≤ scan_left s := by
    cases hs : (mdeserialize s.u Ty.arr_size).2.isSome with
    | true =>
      rw [(hstep.1 hs).1]
      unfold scan_left
      exact ⟨hb, by simp only []; omega⟩
    | false =>
      rw [hstep.2 hs]
      exact ⟨hb, le_refl _⟩
  obtain ⟨b, s1, hr, _, _⟩ := (scan_total fuel).2.1 0
    { u := (mdeserialize s.u Ty.arr_size).1, arr_sz := sz, map_sz := s.map_sz } hu.1 (by omega)
  exact ⟨b, s1, hr⟩

/-- The loop of `get_packet_size` over the MessagePack codec ends within the allowance
`scan_fuel`. -/
theorem get_packet_size_loop_total (d : RpcDecoder) :
    ∀ (n bytes_checked arr_sz map_sz : Nat), bytes_checked + n ≤ d.bytes_stored →
      ∃ r, get_packet_size_loop msgpack d (scan_fuel d) n bytes_checked arr_sz map_sz
        = some r := by
  intro n
  induction n with
  | zero =>
    intro bytes_checked arr_sz map_sz _
    exact ⟨_, rfl⟩
  | succ n ih =>
    intro bytes_checked arr_sz map_sz h
    unfold get_packet_size_loop
    simp only []
    split
    · exact ih (bytes_checked + 1) arr_sz map_sz (by omega)
    · rename_i hfed
      have hfeed : msgpack.feed d.raw_buffer (bytes_checked + 1)
          = mfeed d.raw_buffer (bytes_checked + 1) := rfl
      have hb : MUnpacker.b_decoded (msgpack.feed d.raw_buffer (bytes_checked + 1)).1 = true := by
        rw [hfeed] at hfed ⊢
        simp only [mfeed] at hfed ⊢
        simpa using hfed
      have hlen : (MUnpacker.indices (msgpack.feed d.raw_buffer (bytes_checked + 1)).1).length
          ≤ bytes_checked + 1 := by
        rw [hfeed]
        simp only [mfeed]
        exact feed_loop_length _ _ _ _
      have hleft : scan_left
          { u := (msgpack.feed d.raw_buffer (bytes_checked + 1)).1,
            arr_sz := arr_sz, map_sz := map_sz } ≤ bytes_checked + 1 := by
        unfold scan_left
        simp only []
        omega
      obtain ⟨b, s1, hr⟩ := unpackArray_total (scan_fuel d)
        { u := (msgpack.feed d.raw_buffer (bytes_checked + 1)).1,
          arr_sz := arr_sz, map_sz := map_sz } hb (by unfold scan_fuel; omega)
      rw [hr]
      cases b with
      | true => exact ⟨_, rfl⟩
      | false => exact ih (bytes_checked + 1) s1.arr_sz s1.map_sz (by omega)

/-- Over the MessagePack codec `discard_packet` returns, in every state of the decoder. -/
theorem msgpack_discard_total (d : RpcDecoder) : (d.discard_packet msgpack).isSome = true := by
  obtain ⟨⟨size, arr_sz, map_sz⟩, hr⟩ :=
    get_packet_size_loop_total d d.bytes_stored 0 d.arr_sz d.map_sz (by omega)
  simp [RpcDecoder.discard_packet, RpcDecoder.get_packet_size, hr]

/-- Over the MessagePack codec `process_requests` returns, in every state of the decoder. -/
theorem msgpack_process_requests_total (d : RpcDecoder) (disp : RpcFunctionDispatcher) :
    (d.process_requests msgpack disp).isSome = true := by
  unfold RpcDecoder.process_requests
  split
  · rfl
  · obtain ⟨o, ho, _⟩ := process_requests_loop_sent msgpack disp d (fun _ => True) trivial
      d.bytes_stored 0 []
      (fun k _ _ => by
        obtain ⟨step, hs, _⟩ :=
          process_requests_body_sent msgpack disp d (k + 1) (msgpack_discard_total d)
        exact ⟨step, hs, fun _ _ => trivial⟩)
    rw [ho]
    rfl

/-! ### The discarding branch of `process_requests` -/

/-- Where the lengths before `K` are not ready and the envelope read at `K` matches none of the
three message layouts, `process_requests` invokes no handler, writes nothing and leaves the
decoder as `discard_packet` leaves it. -/
theorem mismatch_discards (C : Codec) (disp : RpcFunctionDispatcher) (d : RpcDecoder) (K : Nat)
    (hK1 : 0 < K) (hK2 : K ≤ d.bytes_stored)
    (hty : d.packet_type = CALL_MSG ∨ d.packet_type = NOTIFY_MSG)
    (hbefore : ∀ k, 0 < k → k < K → not_ready C disp d k)
    (hm : envelope_at C d K = Envelope.mismatch) :
    d.process_requests C disp
      = (d.discard_packet C).map (fun r => { decoder := r.2, sent := [], invoked := [] }) := by
  have hguard : ¬ (d.packet_type ≠ CALL_MSG ∧ d.packet_type ≠ NOTIFY_MSG) := by
    rcases hty with h | h <;> simp [h]
  unfold RpcDecoder.process_requests
  rw [if_neg hguard]
  cases hdis : d.discard_packet C with
  | none =>
    have hbody : process_requests_body C disp d K = none := by
      rw [process_requests_body_envelope, hm]
      simp only [hdis]
    have hloop : ∀ (n c : Nat) (inv : List (Nat × List Val)), c < K → K ≤ c + n →
        process_requests_loop C disp d n c inv = none := by
      intro n
      induction n with
      | zero =>
        intro c inv h1 h2
        omega
      | succ n ih =>
        intro c inv h1 h2
        rw [process_requests_loop]
        by_cases hc : c + 1 = K
        · rw [hc, hbody]
        · rw [process_requests_body_not_ready C disp d (c + 1)
            (hbefore (c + 1) (by omega) (by omega))]
          exact ih (c + 1) _ (by omega) (by omega)
    rw [hloop d.bytes_stored 0 [] hK1 (by omega)]
    rfl
  | some r =>
    obtain ⟨size, d1⟩ := r
    have hbody : process_requests_body C disp d K
        = some (Step.stop { decoder := d1, sent := [], invoked := [] }) := by
      rw [process_requests_body_envelope, hm]
      simp only [hdis]
    rw [process_requests_loop_stop C disp d K _ hbody d.bytes_stored 0 [] hK1 (by omega)
      (fun k h1 h2 => process_requests_body_not_ready C disp d k (hbefore k h1 h2))]
    rfl

/-- A bind of a callable whose type was not bound before, with room left, appends the entry of
its own wrapper. -/
theorem bind_fresh_type (disp : RpcFunctionDispatcher) (statics : BindStatics)
    (name : List Nat) (F : Nat) (wrapped : RpcFunctionWrapper)
    (hc : disp.count < disp.N) (hs : bind_static statics F = none) :
    disp.bind statics name F wrapped
      = (true, { disp with entries := disp.entries ++ [{ name := name, fn := wrapped }] },
         statics ++ [(F, wrapped)]) := by
  have h1 : ¬ disp.count ≥ disp.N := by omega
  simp only [RpcFunctionDispatcher.bind, h1, if_false, hs]

/-! ### `advance` -/

/-- The copy loop of `advance` never returns when the bytes read reach the end of the buffer. -/
theorem advance_copy_blocks :
    ∀ (chunk : List Nat) (d : RpcDecoder), d.bytes_stored < d.BufferSize →
      d.BufferSize ≤ d.bytes_stored + chunk.length → advance_copy d chunk = none := by
  intro chunk
  induction chunk with
  | nil =>
    intro d h1 h2
    simp only [List.length_nil] at h2
    omega
  | cons b rest ih =>
    intro d h1 h2
    simp only [advance_copy, RpcDecoder.buffer_full, RpcDecoder.BufferSize, List.length_set]
    by_cases hf : d.bytes_stored + 1 = d.raw_buffer.length
    · simp [hf]
    · simp only [hf, decide_False, Bool.false_eq_true, if_false]
      apply ih
      · simp only [RpcDecoder.BufferSize, List.length_set] at h1 ⊢
        omega
      · simp only [RpcDecoder.BufferSize, List.length_set, List.length_cons] at h2 ⊢
        omega

/-- A byte stored at `bs` and more bytes after it, in terms of the buffer before. -/
theorem store_one (raw : List Nat) (bs b : Nat) (rest : List Nat) (hlt : bs < raw.length) :
    List.take (bs + 1) (raw.set bs b) ++ rest ++ List.drop (bs + 1 + rest.length) (raw.set bs b)
      = List.take bs raw ++ b :: rest ++ List.drop (bs + (rest.length + 1)) raw := by
  have hA : (List.take bs raw).length = bs := by
    simp only [List.length_take]
    omega
  rw [List.set_eq_take_cons_drop b hlt]
  generalize List.take bs raw = A at hA ⊢
  have e1 : List.take (bs + 1) (A ++ b :: List.drop (bs + 1) raw) = A ++ [b] := by
    rw [← hA, List.take_append]
    simp
  have e2 : List.drop (bs + 1 + rest.length) (A ++ b :: List.drop (bs + 1) raw)
      = List.drop (bs + (rest.length + 1)) raw := by
    have : bs + 1 + rest.length = A.length + (rest.length + 1) := by omega
    rw [this, List.drop_append, List.drop_succ_cons, List.drop_drop]
    congr 1
    omega
  rw [e1, e2]
  simp

/-- The copy loop of `advance` on bytes that end before the end of the buffer returns with the
bytes stored after those already there, the rest of the decoder as it was. -/
theorem advance_copy_stores :
    ∀ (chunk : List Nat) (d : RpcDecoder), d.bytes_stored + chunk.length < d.BufferSize →
      advance_copy d chunk
        = some { d with
            raw_buffer := d.raw_buffer.take d.bytes_stored ++ chunk
              ++ d.raw_buffer.drop (d.bytes_stored + chunk.length),
            bytes_stored := d.bytes_stored + chunk.length } := by
  intro chunk
  induction chunk with
  | nil =>
    intro d _
    simp [advance_copy]
  | cons b rest ih =>
    intro d h
    simp only [RpcDecoder.BufferSize, List.length_cons] at h
    have hlt : d.bytes_stored < d.raw_buffer.length := by omega
    have hf : ¬ d.bytes_stored + 1 = d.raw_buffer.length := by omega
    simp only [advance_copy, RpcDecoder.buffer_full, RpcDecoder.BufferSize, List.length_set, hf,
      decide_False, Bool.false_eq_true, if_false]
    rw [ih _ (by simp only [RpcDecoder.BufferSize, List.length_set]; omega)]
    simp only [List.length_cons, store_one d.raw_buffer d.bytes_stored b rest hlt]
    congr 2
    omega

/-- When the transport has data, the buffer is not full and the bytes read reach the end of
the buffer, `advance` does not return. -/
theorem advance_none_of_fill (d : RpcDecoder) (available : Bool) (chunk : List Nat)
    (ha : available = true) (hs : d.bytes_stored < d.BufferSize)
    (hfill : d.BufferSize ≤ d.bytes_stored + chunk.length) :
    d.advance available chunk = none := by
  have hne : ¬ chunk.length ≤ 0 := by omega
  have hfull : d.buffer_full = false := by
    simp only [RpcDecoder.buffer_full, decide_eq_false_iff_not]
    omega
  simp only [RpcDecoder.advance, ha, hfull, Bool.not_false, Bool.and_self, if_true, hne,
    if_false, advance_copy_blocks chunk d hs hfill]

/-- C24 fails on the code: when the transport has data, the buffer is not full and the bytes
read reach the end of the buffer, `advance` enters `while (buffer_full()) delay(1);` after
storing the byte that fills the buffer and never returns, and neither does `process`. -/
theorem advance_blocks_when_filled (C : Codec) (d : RpcDecoder) (available : Bool)
    (chunk : List Nat) (ha : available = true) (hs : d.bytes_stored < d.BufferSize)
    (hfill : d.BufferSize ≤ d.bytes_stored + chunk.length) :
    d.advance available chunk = none ∧ d.process C available chunk = none := by
  have hadv := advance_none_of_fill d available chunk ha hs hfill
  exact ⟨hadv, by simp only [RpcDecoder.process, hadv]⟩

theorem advance_blocks_when_filled_witness :
    five_of_eight.advance true [6, 7, 8] = none ∧
    five_of_eight.process msgpack true [6, 7, 8] = none :=
  advance_blocks_when_filled msgpack five_of_eight true [6, 7, 8] rfl (by decide) (by decide)

/-- The same over the buffer of 1024 bytes of the library: with 1000 bytes stored, a read of
a full chunk of 32 bytes is never returned from. -/
theorem advance_blocks_at_1024 :
    ({ RpcDecoder.init MAX_BUFFER_SIZE with bytes_stored := 1000 } : RpcDecoder).advance true
      (List.replicate CHUNK_SIZE 0) = none :=
  advance_none_of_fill _ true _ rfl
    (by
      simp only [RpcDecoder.BufferSize, RpcDecoder.init, List.length_replicate, MAX_BUFFER_SIZE]
      omega)
    (by
      simp only [RpcDecoder.BufferSize, RpcDecoder.init, List.length_replicate, MAX_BUFFER_SIZE,
        CHUNK_SIZE]
      omega)

/-- C23 fails on the code: with no data available `advance` returns `true` and has stored
nothing, and so it does on a full buffer; with five bytes stored and two read it returns
`true` having stored them, and it returns `false` when the read delivers nothing. -/
theorem advance_true_without_progress :
    five_of_eight.advance false [6, 7] = some (true, five_of_eight) ∧
    full_decoder.advance true [9] = some (true, full_decoder) ∧
    five_of_eight.advance true [6, 7]
      = some (true, { five_of_eight with raw_buffer := [1, 2, 3, 4, 5, 6, 7, 0],
                                         bytes_stored := 7 }) ∧
    five_of_eight.advance true [] = some (false, five_of_eight) := by
  decide

/-- C23 as amended: `advance` returns `true` without touching the decoder when the transport
has no data or the buffer is full; it returns `false` when the transport has data, the buffer
is not full and the read delivers nothing; it returns `true` with the bytes read stored behind
those already there when they end before the end of the buffer; and whenever it returns, it
returns `false` exactly in the second case. -/
theorem advance_flag (d : RpcDecoder) (available : Bool) (chunk : List Nat) :
    (available = false ∨ d.buffer_full = true → d.advance available chunk = some (true, d)) ∧
    (available = true → d.buffer_full = false → chunk = [] →
      d.advance available chunk = some (false, d)) ∧
    (available = true → chunk ≠ [] → d.bytes_stored + chunk.length < d.BufferSize →
      d.advance available chunk
        = some (true, { d with
            raw_buffer := d.raw_buffer.take d.bytes_stored ++ chunk
              ++ d.raw_buffer.drop (d.bytes_stored + chunk.length),
            bytes_stored := d.bytes_stored + chunk.length })) ∧
    (∀ b d1, d.advance available chunk = some (b, d1) →
      (b = false ↔ (available = true ∧ d.buffer_full = false ∧ chunk = []))) := by
  refine ⟨?_, ?_, ?_, ?_⟩
  · intro h
    rcases h with h | h <;> simp [RpcDecoder.advance, h]
  · intro ha hf hc
    simp [RpcDecoder.advance, ha, hf, hc]
  · intro ha hc hlen
    have hne : ¬ chunk.length ≤ 0 := by
      cases chunk with
      | nil => exact absurd rfl hc
      | cons b rest => simp
    have hfull : d.buffer_full = false := by
      simp only [RpcDecoder.buffer_full, decide_eq_false_iff_not]
      omega
    simp only [RpcDecoder.advance, ha, hfull, Bool.not_false, Bool.and_self, if_true, hne,
      if_false, advance_copy_stores chunk d hlen]
  · intro b d1 h
    unfold RpcDecoder.advance at h
    by_cases hg : (available && !d.buffer_full) = true
    · rw [if_pos hg] at h
      simp only [Bool.and_eq_true, Bool.not_eq_true'] at hg
      by_cases hc : chunk.length ≤ 0
      · rw [if_pos hc] at h
        cases h
        have : chunk = [] := List.length_eq_zero.mp (by omega)
        simp [hg.1, hg.2, this]
      · rw [if_neg hc] at h
        have hne : chunk ≠ [] := by
          intro h0
          rw [h0] at hc
          simp at hc
        cases hcopy : advance_copy d chunk with
        | none => simp [hcopy] at h
        | some d2 =>
          simp only [hcopy, Option.some.injEq, Prod.mk.injEq] at h
          rw [← h.1]
          simp [hne]
    · rw [if_neg hg] at h
      cases h
      simp only [Bool.and_eq_true, Bool.not_eq_true', not_and, Bool.not_eq_false] at hg
      constructor
      · intro h0
        cases h0
      · intro h0
        have := hg h0.1
        rw [h0.2.1] at this
        cases this

theorem advance_flag_witness :
    five_of_eight.advance false [6, 7] = some (true, five_of_eight) ∧
    five_of_eight.advance true [] = some (false, five_of_eight) ∧
    five_of_eight.advance true [6, 7]
      = some (true, { five_of_eight with
          raw_buffer := five_of_eight.raw_buffer.take five_of_eight.bytes_stored ++ [6, 7]
            ++ five_of_eight.raw_buffer.drop (five_of_eight.bytes_stored + [6, 7].length),
          bytes_stored := five_of_eight.bytes_stored + [6, 7].length }) ∧
    ((true : Bool) = false ↔
      ((true : Bool) = true ∧ five_of_eight.buffer_full = false ∧ [6, 7] = ([] : List Nat))) :=
  ⟨(advance_flag five_of_eight false [6, 7]).1 (Or.inl rfl),
   (advance_flag five_of_eight true []).2.1 rfl (by decide) rfl,
   (advance_flag five_of_eight true [6, 7]).2.2.1 rfl (by decide) (by decide),
   (advance_flag five_of_eight true [6, 7]).2.2.2 true
     { five_of_eight with raw_buffer := [1, 2, 3, 4, 5, 6, 7, 0], bytes_stored := 7 }
     (by decide)⟩


/-! ### `parse_packet` and the cached packet type -/

/-- The method `parse_packet` changes nothing but the cached packet type. -/
theorem parse_packet_frame (C : Codec) (d : RpcDecoder) :
    d.parse_packet C = { d with packet_type := (d.parse_packet C).packet_type } := by
  unfold RpcDecoder.parse_packet
  split
  · rfl
  · simp only []
    split <;> rfl

/-- C21 fails on the code: with the single byte 0x94 stored in a fresh buffer, `parse_packet`
feeds two bytes, reads the type from the byte behind the stored one and caches Call; the same
stored byte with 0x01 behind it is cached as a Response, so the outcome depends on a byte
beyond `bytes_stored`. Both states arise in use: the first when `process` receives the byte
0x94 alone, the second when `get_response` has evicted a Response and one byte of the next
packet is left. -/
theorem parse_packet_reads_stale_byte :
    one_byte.bytes_stored = 1 ∧ one_byte.packet_type = NO_MSG ∧
    one_byte.parse_packet msgpack = { one_byte with packet_type := CALL_MSG } ∧
    ({ one_byte with raw_buffer := [0x94, 0x01, 0, 0, 0, 0, 0, 0] } : RpcDecoder).parse_packet
        msgpack
      = { one_byte with raw_buffer := [0x94, 0x01, 0, 0, 0, 0, 0, 0], packet_type := RESP_MSG } ∧
    (RpcDecoder.init 8).process msgpack true [0x94]
      = some { one_byte with packet_type := CALL_MSG } ∧
    (resp_and_byte.get_response msgpack 7 Ty.int).2
      = { resp_and_byte with bytes_stored := 1, packet_type := NO_MSG } ∧
    ((resp_and_byte.get_response msgpack 7 Ty.int).2.parse_packet msgpack)
      = { resp_and_byte with bytes_stored := 1, packet_type := RESP_MSG } := by
  decide

/-- The same over the buffer of 1024 bytes of the library: the byte 0x94 received alone by a
fresh decoder is cached as a Call. -/
theorem parse_packet_one_byte_1024 :
    ((RpcDecoder.init MAX_BUFFER_SIZE).process msgpack true [0x94]).map
        (fun d => (d.bytes_stored, d.packet_type))
      = some (1, CALL_MSG) := by
  decide!

/-- C22 fails on the code: a fresh decoder that receives the two bytes 0x93 0x05 and parses
them caches packet type 5, so `packet_incoming()` holds of a packet that is none of Call,
Response and Notify; `process_requests`, `get_response`, `recover`, `parse_packet` and an
idle `advance` then leave that state as it is. The bytes 0x91 0xfe are cached as type -2. -/
theorem unknown_type_cached :
    run_decoder msgpack (RpcDecoder.init 8)
        [DecoderOp.advance true [0x93, 0x05], DecoderOp.parse_packet]
      = some { raw_buffer := [0x93, 0x05, 0, 0, 0, 0, 0, 0], bytes_stored := 2,
               packet_type := 5, msg_id := 0, arr_sz := 0, map_sz := 0 } ∧
    ({ raw_buffer := [0x93, 0x05, 0, 0, 0, 0, 0, 0], bytes_stored := 2, packet_type := 5,
       msg_id := 0, arr_sz := 0, map_sz := 0 } : RpcDecoder).packet_incoming = true ∧
    ¬ known_type 5 ∧
    run_decoder msgpack
        { raw_buffer := [0x93, 0x05, 0, 0, 0, 0, 0, 0], bytes_stored := 2, packet_type := 5,
          msg_id := 0, arr_sz := 0, map_sz := 0 }
        [DecoderOp.process_requests add_dispatcher, DecoderOp.get_response 0 Ty.int,
         DecoderOp.recover, DecoderOp.parse_packet, DecoderOp.advance false []]
      = some { raw_buffer := [0x93, 0x05, 0, 0, 0, 0, 0, 0], bytes_stored := 2,
               packet_type := 5, msg_id := 0, arr_sz := 0, map_sz := 0 } ∧
    (RpcDecoder.init 8).process msgpack true [0x93, 0x05]
      = some { raw_buffer := [0x93, 0x05, 0, 0, 0, 0, 0, 0], bytes_stored := 2,
               packet_type := 5, msg_id := 0, arr_sz := 0, map_sz := 0 } ∧
    (run_decoder msgpack (RpcDecoder.init 8)
        [DecoderOp.advance true [0x91, 0xfe], DecoderOp.parse_packet]).map
        (fun d => d.packet_type)
      = some (-2) ∧
    ¬ known_type (-2) := by
  decide

/-- The method `pop_packet` keeps the cached type or resets it. -/
theorem pop_packet_type (d : RpcDecoder) (size : Nat) :
    (d.pop_packet size).2.packet_type = d.packet_type ∨
    (d.pop_packet size).2.packet_type = NO_MSG := by
  unfold RpcDecoder.pop_packet
  split
  · exact Or.inl rfl
  · exact Or.inr rfl

/-- The method `discard_packet` keeps the cached type or resets it. -/
theorem discard_packet_type (C : Codec) (d : RpcDecoder) (n : Nat) (d1 : RpcDecoder)
    (h : d.discard_packet C = some (n, d1)) :
    d1.packet_type = d.packet_type ∨ d1.packet_type = NO_MSG := by
  unfold RpcDecoder.discard_packet RpcDecoder.get_packet_size at h
  cases hl : get_packet_size_loop C d (scan_fuel d) d.bytes_stored 0 d.arr_sz d.map_sz with
  | none => simp [hl] at h
  | some r =>
    obtain ⟨size, arr_sz, map_sz⟩ := r
    simp only [hl, Option.some.injEq] at h
    have hp := pop_packet_type { d with arr_sz := arr_sz, map_sz := map_sz } size
    rw [h] at hp
    exact hp

/-- A round of `process_requests` that turns to the dispatcher and stops keeps the cached
type or resets it. -/
theorem dispatch_reply_type (C : Codec) (disp : RpcFunctionDispatcher) (d : RpcDecoder)
    (k : Nat) (msg_type msg_id : Int) (method : List Nat) (u : C.Unpacker) (o : Outcome)
    (h : dispatch_reply C disp d k msg_type msg_id method u = some (Step.stop o)) :
    o.decoder.packet_type = d.packet_type ∨ o.decoder.packet_type = NO_MSG := by
  unfold dispatch_reply at h
  simp only [] at h
  have hhdr : (if msg_type = CALL_MSG then
      C.serialize [] [Val.arr_size RESPONSE_SIZE, Val.int RESP_MSG, Val.int msg_id]
    else []) = reply_header C msg_type msg_id := rfl
  rw [hhdr] at h
  generalize disp.call C method u (reply_header C msg_type msg_id) = r at h
  cases hok : r.ok with
  | false =>
    simp only [hok, Bool.not_false, if_true] at h
    by_cases hlen : r.packer.length = (reply_header C msg_type msg_id).length
    · simp [hlen] at h
    · simp only [hlen, if_false] at h
      cases hdis : d.discard_packet C with
      | none => simp [hdis] at h
      | some p =>
        obtain ⟨n, d1⟩ := p
        simp only [hdis, Option.some.injEq, Step.stop.injEq] at h
        rw [← h]
        exact discard_packet_type C d n d1 hdis
  | true =>
    simp only [hok, Bool.not_true, Bool.false_eq_true, if_false, Option.some.injEq,
      Step.stop.injEq] at h
    rw [← h]
    exact pop_packet_type d k

/-- A round of `process_requests` that stops keeps the cached type or resets it. -/
theorem process_requests_body_type (C : Codec) (disp : RpcFunctionDispatcher) (d : RpcDecoder)
    (k : Nat) (o : Outcome) (h : process_requests_body C disp d k = some (Step.stop o)) :
    o.decoder.packet_type = d.packet_type ∨ o.decoder.packet_type = NO_MSG := by
  rw [process_requests_body_envelope] at h
  cases he : envelope_at C d k with
  | undecoded => simp [he] at h
  | request msg_type msg_id method u =>
    simp only [he] at h
    exact dispatch_reply_type C disp d k msg_type msg_id method u o h
  | response =>
    simp only [he, Option.some.injEq, Step.stop.injEq] at h
    rw [← h]
    exact Or.inl rfl
  | mismatch =>
    simp only [he] at h
    cases hdis : d.discard_packet C with
    | none => simp [hdis] at h
    | some r =>
      obtain ⟨n, d1⟩ := r
      simp only [hdis, Option.some.injEq, Step.stop.injEq] at h
      rw [← h]
      exact discard_packet_type C d n d1 hdis

/-- The loop of `process_requests` keeps the cached type or resets it. -/
theorem process_requests_loop_type (C : Codec) (disp : RpcFunctionDispatcher) (d : RpcDecoder) :
    ∀ (n bytes_checked : Nat) (invoked : List (Nat × List Val)) (o : Outcome),
      process_requests_loop C disp d n bytes_checked invoked = some o →
      o.decoder.packet_type = d.packet_type ∨ o.decoder.packet_type = NO_MSG := by
  intro n
  induction n with
  | zero =>
    intro bytes_checked invoked o h
    simp only [process_requests_loop, Option.some.injEq] at h
    rw [← h]
    exact Or.inl rfl
  | succ n ih =>
    intro bytes_checked invoked o h
    unfold process_requests_loop at h
    cases hb : process_requests_body C disp d (bytes_checked + 1) with
    | none => simp [hb] at h
    | some step =>
      cases step with
      | next inv =>
        simp only [hb] at h
        exact ih _ _ o h
      | stop o1 =>
        simp only [hb, Option.some.injEq] at h
        rw [← h]
        exact process_requests_body_type C disp d _ o1 hb

/-- The copy loop of `advance` leaves the cached type. -/
theorem advance_copy_type :
    ∀ (chunk : List Nat) (d d1 : RpcDecoder), advance_copy d chunk = some d1 →
      d1.packet_type = d.packet_type := by
  intro chunk
  induction chunk with
  | nil =>
    intro d d1 h
    simp only [advance_copy, Option.some.injEq] at h
    rw [← h]
  | cons b rest ih =>
    intro d d1 h
    simp only [advance_copy] at h
    split at h
    · cases h
    · exact ih { d with raw_buffer := d.raw_buffer.set d.bytes_stored b,
                        bytes_stored := d.bytes_stored + 1 } d1 h

/-- Every call on a decoder other than `parse_packet` and `recover` keeps the cached packet
type or resets it to `NO_MSG`; so a type outside the protocol can only come from
`parse_packet`. -/
theorem step_keeps_or_resets (C : Codec) (d d1 : RpcDecoder) (op : DecoderOp)
    (hp : op ≠ DecoderOp.parse_packet) (hr : op ≠ DecoderOp.recover)
    (h : step_decoder C d op = some d1) :
    d1.packet_type = d.packet_type ∨ d1.packet_type = NO_MSG := by
  cases op with
  | parse_packet => exact absurd rfl hp
  | recover => exact absurd rfl hr
  | pop_packet size =>
    simp only [step_decoder, Option.some.injEq] at h
    rw [← h]
    exact pop_packet_type d size
  | advance available chunk =>
    simp only [step_decoder, RpcDecoder.advance] at h
    left
    split at h
    · split at h
      · simp only [Option.map_some', Option.some.injEq] at h
        rw [← h]
      · cases hc : advance_copy d chunk with
        | none => simp [hc] at h
        | some d2 =>
          simp only [hc, Option.map_some', Option.some.injEq] at h
          rw [← h]
          exact advance_copy_type chunk d d2 hc
    · simp only [Option.map_some', Option.some.injEq] at h
      rw [← h]
  | get_response msg_id RType =>
    simp only [step_decoder, Option.some.injEq] at h
    rw [← h]
    unfold RpcDecoder.get_response
    split
    · exact Or.inl rfl
    · have hloop : ∀ (n c : Nat),
          (get_response_loop C d msg_id RType n c).2.packet_type = d.packet_type ∨
          (get_response_loop C d msg_id RType n c).2.packet_type = NO_MSG := by
        intro n
        induction n with
        | zero =>
          intro c
          exact Or.inl rfl
        | succ n ih =>
          intro c
          unfold get_response_loop
          split
          · exact pop_packet_type d (c + 1)
          · exact ih (c + 1)
      exact hloop d.bytes_stored 0
  | process_requests disp =>
    simp only [step_decoder] at h
    cases ho : d.process_requests C disp with
    | none => simp [ho] at h
    | some o =>
      simp only [ho, Option.map_some', Option.some.injEq] at h
      rw [← h]
      unfold RpcDecoder.process_requests at ho
      split at ho
      · simp only [Option.some.injEq] at ho
        rw [← ho]
        exact Or.inl rfl
      · exact process_requests_loop_type C disp d _ _ _ o ho

/-! ### A Call whose argument takes several elements -/

/-- A value that is unpackable but fails to deserialize is passed on as read: the flag is
`true` and the destination keeps the value it had, because `deserialize_single` does not
look at what `deserialize` returns. -/
theorem deserialize_single_drops_failure (C : Codec) (u u1 : C.Unpacker) (t : Ty) (value : Val)
    (hu : C.unpackable u t = true) (hd : C.deserialize u t = (u1, none)) :
    deserialize_single C u t value = (true, u1, value) := by
  simp [deserialize_single, hu, hd]

/-- C1 fails on the code: the complete, well-formed Call `[0, 7, "h", [[5, "x"]]]` to the
bound handler `code_of(RpcError)` is answered from its first seven bytes, where the array
header of the argument has arrived and its code and traceback have not been fed: the handler is
invoked on a default-constructed `RpcError`, not on the decoded argument, the Response carries
the result 0 where `code_of` of the argument is 5, and only seven of the ten bytes are evicted,
so three bytes of the Call stay at the head of the buffer. The seven bytes feed as six
elements: the four of the envelope, the header of the argument array and the header of the
error. -/
theorem error_arg_call_answered_early :
    error_arg_call.raw_buffer.take error_arg_call.bytes_stored
      = request_data msgpack CALL_MSG 7 (ascii "h") [Val.error ⟨5, ascii "x"⟩] ∧
    error_arg_call.process_requests msgpack code_dispatcher = some
      { decoder := { error_arg_call with
          raw_buffer := [0x05, 0xa1, 120, 0xa1, 104, 0x91, 0x92, 0x05, 0xa1, 120,
                         0, 0, 0, 0, 0, 0],
          bytes_stored := 3, packet_type := NO_MSG }
        sent := [[0x94, 0x01, 0x07, 0xc0, 0x00]]
        invoked := [(0, [Val.error ⟨0, []⟩])] } ∧
    code_wrapper.func [Val.error ⟨5, ascii "x"⟩] = Val.int 5 ∧
    send_response_data msgpack 7 RpcError.default (Val.int 5)
      = [0x94, 0x01, 0x07, 0xc0, 0x05] ∧
    (msgpack.feed error_arg_call.raw_buffer 7).2 = true ∧
    msgpack.size (msgpack.feed error_arg_call.raw_buffer 7).1 = 6 := by
  decide

end RPClite
